import Mathlib

/-!
# A verification model of the `html/template` namespace/lifecycle layer

This file gives a shallow embedding of `src/template.go`: the shared
namespace of named templates, the define / escape-once / execute lifecycle,
`Parse`, `AddParseTree`, `New`, `Clone`, `Execute`, `ExecuteTemplate`,
`ParseFiles` and `ParseGlob`.

Heap objects (parse trees, underlying-engine templates, engine
associations, HTML templates, namespaces) are modelled as arenas indexed
by natural numbers, so that pointer identity, aliasing and in-place
mutation are all observable.  The underlying engine (`text/template`) and
the escaper (`escape.go`, absent from the sources) are modelled from the
spec, as noted in the doc comments of the corresponding definitions.
-/

namespace HtmlTemplate

/-- Association-list lookup (Go map read `m[k]`). -/
def alookup (m : List (String × Nat)) (k : String) : Option Nat :=
  match m with
  | [] => none
  | (k1, v) :: r => if k1 = k then some v else alookup r k

/-- Association-list insert-or-replace (Go map write `m[k] = v`). -/
def aset (m : List (String × Nat)) (k : String) (v : Nat) : List (String × Nat) :=
  match m with
  | [] => [(k, v)]
  | (k1, v1) :: r => if k1 = k then (k, v) :: r else (k1, v1) :: aset r k v

/-- The sticky escape status of one template: `unset` is Go's
`escapeErr == nil`, `ok` is the sentinel `escapeOK`, and `failed e`
is any other stored error. -/
inductive EscStatus where
  | unset
  | ok
  | failed (e : String)
deriving Repr, DecidableEq

/-- One `text/template` object of the underlying engine: its name, its
parse tree (`Tree` pointer, `none` for nil) and its shared association
(`common`). -/
structure TextObj where
  tname : String
  ttree : Option Nat
  tcommon : Nat
deriving Repr, DecidableEq

/-- The `common` structure of the underlying engine: the association
from template names to engine template objects (`common.tmpl`). -/
structure CommonObj where
  assoc : List (String × Nat)
deriving Repr, DecidableEq

/-- One `html/template` `Template` object: sticky escape status
(`escapeErr`), pointer to its underlying engine template (`text`), its
HTML-safe tree pointer (`Tree`), its namespace pointer, and a ghost
counter of how many times the escape transform ran on this object. -/
structure TemplateObj where
  escapeErr : EscStatus
  text : Nat
  tree : Option Nat
  ns : Nat
  escCalls : Nat
deriving Repr, DecidableEq

/-- One `nameSpace` object: the registry `set` from names to `Template`
objects and the `escaped` flag. -/
structure NsObj where
  set : List (String × Nat)
  escaped : Bool
deriving Repr, DecidableEq

/-- The whole heap: arenas of parse trees (their opaque source text),
engine templates, engine associations, HTML templates and namespaces.
An id is an index into the corresponding arena. -/
structure State where
  trees : List String
  texts : List TextObj
  commons : List CommonObj
  tmpls : List TemplateObj
  nss : List NsObj
deriving Repr, DecidableEq

/-- The empty heap. -/
def State.empty : State := ⟨[], [], [], [], []⟩

def State.tree (s : State) (i : Nat) : String := s.trees.getD i ""

def State.text (s : State) (i : Nat) : TextObj := s.texts.getD i ⟨"", none, 0⟩

def State.common (s : State) (i : Nat) : CommonObj := s.commons.getD i ⟨[]⟩

def State.tmpl (s : State) (i : Nat) : TemplateObj := s.tmpls.getD i ⟨.unset, 0, none, 0, 0⟩

def State.ns (s : State) (i : Nat) : NsObj := s.nss.getD i ⟨[], false⟩

def State.setText (s : State) (i : Nat) (v : TextObj) : State :=
  { s with texts := s.texts.set i v }

def State.setCommon (s : State) (i : Nat) (v : CommonObj) : State :=
  { s with commons := s.commons.set i v }

def State.setTmpl (s : State) (i : Nat) (v : TemplateObj) : State :=
  { s with tmpls := s.tmpls.set i v }

def State.setNs (s : State) (i : Nat) (v : NsObj) : State :=
  { s with nss := s.nss.set i v }

/-- `t.Name()`: the name of a template is the name of its underlying
engine template. -/
def State.tmplName (s : State) (t : Nat) : String := (s.text (s.tmpl t).text).tname

/-- Modelled from the spec: the Underlying Engine's top level `New`
(`text/template.New(name)`): a fresh engine template with a fresh, empty
association. -/
def textTopNew (s : State) (name : String) : State × Nat :=
  ({ s with
      commons := s.commons ++ [⟨[]⟩],
      texts := s.texts ++ [⟨name, none, s.commons.length⟩] },
   s.texts.length)

/-- Modelled from the spec: the Underlying Engine's `t.New(name)`: a
fresh engine template sharing `t`'s association, not yet associated and
with no tree. -/
def textNew (s : State) (t : Nat) (name : String) : State × Nat :=
  ({ s with texts := s.texts ++ [⟨name, none, (s.text t).tcommon⟩] }, s.texts.length)

/-- Modelled from the spec: the engine's emptiness test on a parse tree
(`parse.IsEmptyTree`); a tree is empty when its source text is empty. -/
def isEmptyTreeAt (s : State) (tr : Nat) : Bool := s.tree tr == ""

/-- Modelled from the spec: the Underlying Engine's `associate`: install
engine template `nt` in association `c` under `nt`'s name, except that an
empty tree never replaces an existing nonempty definition.  Returns
whether the tree should be stored. -/
def associate (s : State) (c : Nat) (nt : Nat) (tr : Nat) : State × Bool :=
  let name := (s.text nt).tname
  match alookup (s.common c).assoc name with
  | some old =>
    if isEmptyTreeAt s tr && (s.text old).ttree.isSome then (s, false)
    else (s.setCommon c ⟨aset (s.common c).assoc name nt⟩, true)
  | none => (s.setCommon c ⟨aset (s.common c).assoc name nt⟩, true)

/-- Allocate a parse tree with the given source text. -/
def allocTree (s : State) (content : String) : State × Nat :=
  ({ s with trees := s.trees ++ [content] }, s.trees.length)

/-- Modelled from the spec: the Underlying Engine's `AddParseTree(name,
tree)`: reuse `t` when the name is `t`'s own, otherwise allocate a fresh
engine template; associate it; store the tree when `associate` says so or
when the chosen template has no tree yet. -/
def textAddParseTree (s : State) (t : Nat) (name : String) (tr : Nat) : State × Nat :=
  let p := if name = (s.text t).tname then (s, t) else textNew s t name
  let s1 := p.1
  let nt := p.2
  let q := associate s1 (s1.text nt).tcommon nt tr
  let s2 := q.1
  if q.2 || (s2.text nt).ttree.isNone then
    (s2.setText nt { s2.text nt with ttree := some tr }, nt)
  else (s2, nt)

/-- Modelled from the spec: the Underlying Engine's `Parse`.  The raw
grammar is out of scope, so the successfully parsed input is given as the
engine would return it: a list of (name, body) definitions; each is added
via the engine's `AddParseTree`. -/
def textParse (s : State) (t : Nat) : List (String × String) → State
  | [] => s
  | (n, b) :: rest =>
    let p := allocTree s b
    textParse ((textAddParseTree p.1 t n p.2).1) t rest

/-- Modelled from the spec: the Underlying Engine's `Lookup` on its
association. -/
def textLookup (s : State) (t : Nat) (name : String) : Option Nat :=
  alookup (s.common (s.text t).tcommon).assoc name

/-- Modelled from the spec: the Underlying Engine's `Templates()`: the
entries of `t`'s association. -/
def textTemplates (s : State) (t : Nat) : List (String × Nat) :=
  (s.common (s.text t).tcommon).assoc

/-- Modelled from the spec: one step of the Underlying Engine's `Clone`
loop: the source's own name maps to the already-made root copy `nt`;
every other entry is copied into the new association (sharing the tree
pointer, as the engine's shallow copy does). -/
def textCloneLoop (srcName : String) (cNew : Nat) (nt : Nat) :
    State → List (String × Nat) → State
  | s, [] => s
  | s, (k, v) :: rest =>
    let s2 :=
      if k = srcName then
        s.setCommon cNew ⟨aset (s.common cNew).assoc k nt⟩
      else
        let vObj := s.text v
        let s1 : State := { s with texts := s.texts ++ [⟨vObj.tname, vObj.ttree, cNew⟩] }
        s1.setCommon cNew ⟨aset (s1.common cNew).assoc k (s.texts.length)⟩
    textCloneLoop srcName cNew nt s2 rest

/-- Modelled from the spec: the Underlying Engine's `Clone`: a fresh
association, a root copy of `t` (sharing `t`'s tree pointer), and a copy
of every associated entry. -/
def textClone (s : State) (t : Nat) : State × Nat :=
  let tObj := s.text t
  let cNew := s.commons.length
  let s1 : State := { s with commons := s.commons ++ [⟨[]⟩] }
  let nt := s1.texts.length
  let s2 : State := { s1 with texts := s1.texts ++ [⟨tObj.tname, tObj.ttree, cNew⟩] }
  (textCloneLoop tObj.tname cNew nt s2 (s.common tObj.tcommon).assoc, nt)

/-- The errors of `template.go` (and the engine errors the claims need). -/
inductive Err where
  | cannotParseAfterExecute
  | incompleteOrEmpty (name : String)
  | undefined (name : String)
  | incomplete (name : String)
  | cloneAfterExecute (name : String)
  | escapeFailed (e : String)
  | noFiles
  | patternMatchesNoFiles
deriving Repr, DecidableEq

/-- `New(name)` (top level): fresh namespace, fresh engine template,
fresh `Template` registered under its own name. -/
def hTopNew (s : State) (name : String) : State × Nat :=
  let nsId := s.nss.length
  let s1 : State := { s with nss := s.nss ++ [⟨[], false⟩] }
  let p := textTopNew s1 name
  let s2 := p.1
  let tx := p.2
  let id := s2.tmpls.length
  let s3 : State := { s2 with tmpls := s2.tmpls ++ [⟨.unset, tx, none, nsId, 0⟩] }
  (s3.setNs nsId { s3.ns nsId with set := aset (s3.ns nsId).set name id }, id)

/-- `t.new(name)` (template.go:234): allocate a fresh `Template` in `t`'s
namespace; if the name is already registered, reset the existing object
to a copy of a brand-new empty top-level template (`*existing =
*emptyTmpl`); then point the registry at the fresh object.  The ghost
invocation counter of the existing object is its own history and is
kept. -/
def hNewInner (s : State) (t : Nat) (name : String) : State × Nat :=
  let nsId := (s.tmpl t).ns
  let p := textNew s (s.tmpl t).text name
  let s1 := p.1
  let tx := p.2
  let id := s1.tmpls.length
  let s2 : State := { s1 with tmpls := s1.tmpls ++ [⟨.unset, tx, none, nsId, 0⟩] }
  let s3 :=
    match alookup (s2.ns nsId).set name with
    | some ex =>
      let q := hTopNew s2 (s2.tmplName ex)
      let s4 := q.1
      let em := q.2
      s4.setTmpl ex { s4.tmpl em with escCalls := (s4.tmpl ex).escCalls }
    | none => s2
  (s3.setNs nsId { s3.ns nsId with set := aset (s3.ns nsId).set name id }, id)

/-- `t.New(name)` (template.go:227): take the lock and call `new`. -/
def hNew (s : State) (t : Nat) (name : String) : State × Nat :=
  hNewInner s t name

/-- One iteration of the sync loop of `Parse` (template.go:144-152): for
an engine template `v`, find or create the `Template` registered under
`v`'s name and update its `text` and `Tree` fields in place. -/
def syncOne (s : State) (t : Nat) (v : Nat) : State :=
  let name := (s.text v).tname
  let p :=
    match alookup (s.ns (s.tmpl t).ns).set name with
    | some tid => (s, tid)
    | none => hNewInner s t name
  let s1 := p.1
  let tid := p.2
  s1.setTmpl tid { s1.tmpl tid with text := v, tree := (s1.text v).ttree }

/-- The sync loop of `Parse` over the engine's associated templates. -/
def syncAll (t : Nat) : State → List Nat → State
  | s, [] => s
  | s, v :: vs => syncAll t (syncOne s t v) vs

/-- `t.Parse(text)` (template.go:132): fail if escaping has begun in the
namespace; otherwise let the engine parse the definitions and sync every
associated engine template into the registry. -/
def hParse (s : State) (t : Nat) (defs : List (String × String)) :
    State × Except Err Nat :=
  if (s.ns (s.tmpl t).ns).escaped then (s, .error .cannotParseAfterExecute)
  else
    let s1 := textParse s (s.tmpl t).text defs
    let vs := (textTemplates s1 (s1.tmpl t).text).map (fun p => p.2)
    (syncAll t s1 vs, .ok t)

/-- `t.AddParseTree(name, tree)` (template.go:156): fail if escaping has
begun; otherwise add the tree to the engine, allocate a fresh `Template`
wrapping the engine's result and point the registry at it. -/
def hAddParseTree (s : State) (t : Nat) (name : String) (content : String) :
    State × Except Err Nat :=
  if (s.ns (s.tmpl t).ns).escaped then (s, .error .cannotParseAfterExecute)
  else
    let p := allocTree s content
    let q := textAddParseTree p.1 (p.1.tmpl t).text name p.2
    let s2 := q.1
    let tx := q.2
    let id := s2.tmpls.length
    let nsId := (s2.tmpl t).ns
    let s3 : State :=
      { s2 with tmpls := s2.tmpls ++ [⟨.unset, tx, (s2.text tx).ttree, nsId, 0⟩] }
    (s3.setNs nsId { s3.ns nsId with set := aset (s3.ns nsId).set name id }, .ok id)

/-- Set the `escaped` flag of a namespace. -/
def setEscaped (s : State) (nsId : Nat) : State :=
  s.setNs nsId { s.ns nsId with escaped := true }

/-- Modelled from the spec: the Escaper (`escapeTemplate`, from the
absent `escape.go`): run the context-sensitive transform on the target
template and store the outcome on it — `Success` or `Failed(error)`
(spec §4.3 step 4).  The oracle `osc` gives the transform's verdict per
template name; the ghost counter records the invocation. -/
def escapeTemplateM (s : State) (osc : String → Option String) (tid : Nat)
    (name : String) : State × Option String :=
  match osc name with
  | none =>
    (s.setTmpl tid
      { s.tmpl tid with escapeErr := .ok, escCalls := (s.tmpl tid).escCalls + 1 }, none)
  | some e =>
    (s.setTmpl tid
      { s.tmpl tid with escapeErr := .failed e, escCalls := (s.tmpl tid).escCalls + 1 },
     some e)

/-- `t.escape()` (template.go:72): set the namespace's `escaped` flag
unconditionally; then, if the status is still unset, require a tree and
run the escaper; if a failure is stored, return it; if `ok` is stored,
succeed silently. -/
def hEscape (s : State) (osc : String → Option String) (t : Nat) :
    State × Option Err :=
  let s1 := setEscaped s (s.tmpl t).ns
  match (s1.tmpl t).escapeErr with
  | .unset =>
    match (s1.tmpl t).tree with
    | none => (s1, some (.incompleteOrEmpty (s1.tmplName t)))
    | some _ =>
      let p := escapeTemplateM s1 osc t (s1.tmplName t)
      match p.2 with
      | some e => (p.1, some (.escapeFailed e))
      | none => (p.1, none)
  | .ok => (s1, none)
  | .failed e => (s1, some (.escapeFailed e))

/-- The observable outcome of an execution request: the engine's
`Execute` was reached, or an error was returned first, or the internal
panic fired. -/
inductive ExecResult where
  | success
  | failure (e : Err)
  | panicked
deriving Repr, DecidableEq

/-- `t.Execute(wr, data)` (template.go:90): escape, then hand the tree
to the engine. -/
def hExecute (s : State) (osc : String → Option String) (t : Nat) :
    State × ExecResult :=
  match hEscape s osc t with
  | (s1, some e) => (s1, .failure e)
  | (s1, none) => (s1, .success)

/-- The result of `lookupAndEscapeTemplate`. -/
inductive LookupResult where
  | found (tid : Nat)
  | err (e : Err)
  | panicked
deriving Repr, DecidableEq

/-- `t.lookupAndEscapeTemplate(name)` (template.go:106): set the
`escaped` flag; look the name up in the registry; replay a stored
failure; fail on a missing engine tree; panic if the registry and the
engine association are out of sync; escape if still unresolved. -/
def lookupAndEscape (s : State) (osc : String → Option String) (t : Nat)
    (name : String) : State × LookupResult :=
  let s1 := setEscaped s (s.tmpl t).ns
  match alookup (s1.ns (s1.tmpl t).ns).set name with
  | none => (s1, .err (.undefined name))
  | some tid =>
    match (s1.tmpl tid).escapeErr with
    | .failed e => (s1, .err (.escapeFailed e))
    | .ok =>
      if ((s1.text (s1.tmpl tid).text).ttree).isNone then (s1, .err (.incomplete name))
      else if (textLookup s1 (s1.tmpl t).text name).isNone then (s1, .panicked)
      else (s1, .found tid)
    | .unset =>
      if ((s1.text (s1.tmpl tid).text).ttree).isNone then (s1, .err (.incomplete name))
      else if (textLookup s1 (s1.tmpl t).text name).isNone then (s1, .panicked)
      else
        let p := escapeTemplateM s1 osc tid name
        match p.2 with
        | some e => (p.1, .err (.escapeFailed e))
        | none => (p.1, .found tid)

/-- `t.ExecuteTemplate(wr, name, data)` (template.go:98): look up and
escape, then hand the found template's tree to the engine. -/
def hExecuteTemplate (s : State) (osc : String → Option String) (t : Nat)
    (name : String) : State × ExecResult :=
  match lookupAndEscape s osc t name with
  | (s1, .found _) => (s1, .success)
  | (s1, .err e) => (s1, .failure e)
  | (s1, .panicked) => (s1, .panicked)

/-- `tree.Copy()` on an optional tree pointer: a fresh tree with the same
content, or nil for nil. -/
def treeCopy (s : State) (tr : Option Nat) : State × Option Nat :=
  match tr with
  | none => (s, none)
  | some i => ({ s with trees := s.trees ++ [s.tree i] }, some s.trees.length)

/-- The loop of `Clone` (template.go:196-209): for each engine template
of the clone, find the source `Template`; fail if it is missing or its
escape status is not unset; otherwise deep-copy its tree and register a
fresh `Template` wrapping it in the new namespace. -/
def cloneLoop (srcNs dstNs : Nat) (errName : String) :
    State → List Nat → State × Option Err
  | s, [] => (s, none)
  | s, x :: xs =>
    let name := (s.text x).tname
    match alookup (s.ns srcNs).set name with
    | none => (s, some (.cloneAfterExecute errName))
    | some src =>
      if (s.tmpl src).escapeErr ≠ .unset then (s, some (.cloneAfterExecute errName))
      else
        let p := treeCopy s (s.text x).ttree
        let s1 := p.1
        let ct := p.2
        let s2 := s1.setText x { s1.text x with ttree := ct }
        let id := s2.tmpls.length
        let s3 : State := { s2 with tmpls := s2.tmpls ++ [⟨.unset, x, ct, dstNs, 0⟩] }
        let s4 := s3.setNs dstNs { s3.ns dstNs with set := aset (s3.ns dstNs).set name id }
        cloneLoop srcNs dstNs errName s4 xs

/-- `t.Clone()` (template.go:177): fail if `t`'s own status is not
unset; clone the engine association; allocate a fresh namespace with a
root `Template`; run the loop; return the clone registered under the
source's own name. -/
def hClone (s : State) (t : Nat) : State × Except Err (Option Nat) :=
  if (s.tmpl t).escapeErr ≠ .unset then
    (s, .error (.cloneAfterExecute (s.tmplName t)))
  else
    let p := textClone s (s.tmpl t).text
    let s1 := p.1
    let txc := p.2
    let nsId := s1.nss.length
    let s2 : State := { s1 with nss := s1.nss ++ [⟨[], false⟩] }
    let ret := s2.tmpls.length
    let s3 : State :=
      { s2 with tmpls := s2.tmpls ++ [⟨.unset, txc, (s2.text txc).ttree, nsId, 0⟩] }
    let retName := (s3.text txc).tname
    let s4 := s3.setNs nsId { s3.ns nsId with set := aset (s3.ns nsId).set retName ret }
    let xs := (textTemplates s4 txc).map (fun q => q.2)
    match cloneLoop (s.tmpl t).ns nsId (s.tmplName t) s4 xs with
    | (s5, some e) => (s5, .error e)
    | (s5, none) => (s5, .ok (alookup (s5.ns nsId).set retName))

/-- The loop of `parseFiles` (template.go:297-317), with file contents
supplied as the (already read and engine-parsed) definitions per file
base name. -/
def parseFilesLoop :
    State → Option Nat → List (String × List (String × String)) →
    State × Except Err (Option Nat)
  | s, t, [] => (s, .ok t)
  | s, t, (name, defs) :: rest =>
    let p :=
      match t with
      | none => hTopNew s name
      | some id => (s, id)
    let s1 := p.1
    let t1 := p.2
    let q := if name = s1.tmplName t1 then (s1, t1) else hNew s1 t1 name
    match hParse q.1 q.2 defs with
    | (s3, .error e) => (s3, .error e)
    | (s3, .ok _) => parseFilesLoop s3 (some t1) rest

/-- `parseFiles(t, filenames...)` (template.go:288): check the
definition-after-execution precondition, fail on an empty file list,
then parse each file into the association. -/
def parseFilesM (s : State) (t : Option Nat)
    (files : List (String × List (String × String))) :
    State × Except Err (Option Nat) :=
  let bad :=
    match t with
    | some tid => (s.ns (s.tmpl tid).ns).escaped
    | none => false
  if bad then (s, .error .cannotParseAfterExecute)
  else if files.isEmpty then (s, .error .noFiles)
  else parseFilesLoop s t files

/-- `parseGlob(t, pattern)` (template.go:329): check the precondition,
fail when the pattern matches no files, then behave as `parseFiles` on
the matches. -/
def parseGlobM (s : State) (t : Option Nat)
    (ms : List (String × List (String × String))) :
    State × Except Err (Option Nat) :=
  let bad :=
    match t with
    | some tid => (s.ns (s.tmpl tid).ns).escaped
    | none => false
  if bad then (s, .error .cannotParseAfterExecute)
  else if ms.isEmpty then (s, .error .patternMatchesNoFiles)
  else parseFilesM s t ms

/-- `t.Lookup(name)` (template.go:267). -/
def hLookup (s : State) (t : Nat) (name : String) : Option Nat :=
  alookup (s.ns (s.tmpl t).ns).set name

/-- Overwrite the source text of a tree in place (a caller mutating a
parse tree it holds; used to state clone independence). -/
def setTreeContent (s : State) (i : Nat) (v : String) : State :=
  { s with trees := s.trees.set i v }

/-- The states reachable from the empty heap by the public operations,
with every receiver a genuinely allocated handle. -/
inductive Reachable : State → Prop where
  | empty : Reachable State.empty
  | topNew {s} (name : String) : Reachable s → Reachable (hTopNew s name).1
  | tNew {s t} (name : String) : Reachable s → t < s.tmpls.length →
      Reachable (hNew s t name).1
  | parse {s t} (defs : List (String × String)) : Reachable s → t < s.tmpls.length →
      Reachable (hParse s t defs).1
  | addParseTree {s t} (name content : String) : Reachable s → t < s.tmpls.length →
      Reachable (hAddParseTree s t name content).1
  | clone {s t} : Reachable s → t < s.tmpls.length → Reachable (hClone s t).1
  | exec {s t} (osc : String → Option String) : Reachable s → t < s.tmpls.length →
      Reachable (hExecute s osc t).1
  | execTemplate {s t} (osc : String → Option String) (name : String) : Reachable s →
      t < s.tmpls.length → Reachable (hExecuteTemplate s osc t name).1
  | files {s} (t : Option Nat) (fs : List (String × List (String × String))) :
      Reachable s → (∀ tid, t = some tid → tid < s.tmpls.length) →
      Reachable (parseFilesM s t fs).1
  | glob {s} (t : Option Nat) (ms : List (String × List (String × String))) :
      Reachable s → (∀ tid, t = some tid → tid < s.tmpls.length) →
      Reachable (parseGlobM s t ms).1

instance {α β} [DecidableEq α] [DecidableEq β] : DecidableEq (Except α β) := fun a b =>
  match a, b with
  | .ok x, .ok y => if h : x = y then isTrue (by rw [h]) else isFalse (by simp [h])
  | .error x, .error y => if h : x = y then isTrue (by rw [h]) else isFalse (by simp [h])
  | .ok _, .error _ => isFalse (by simp)
  | .error _, .ok _ => isFalse (by simp)

/-- A concrete scenario: the namespace created by `New("x")`; template 0
is registered under `"x"` in namespace 0. -/
def exS0 : State := (hTopNew State.empty "x").1

/-- The scenario after `Parse` defining `"x"` with body `"hello"`. -/
def exS1 : State := (hParse exS0 0 [("x", "hello")]).1

/-- The scenario after a successful `Execute` of template 0: escaping has
begun and template 0 carries the `ok` status. -/
def exS2 : State := (hExecute exS1 (fun _ => none) 0).1

/-- The scenario after an `Execute` of template 0 whose escape transform
failed with `"boom"`. -/
def exS3 : State := (hExecute exS1 (fun _ => some "boom") 0).1

/-- The scenario `exS0` extended by `t.New("y")`: `"y"` is registered but
has no parse tree. -/
def exS4 : State := (hNew exS0 0 "y").1

/-- The heap/namespace consistency invariant maintained by every public
operation: all ids are in range; every registry binding names a template
of that namespace whose name is the binding key; a template object is
registered at most once; registry and association keys are duplicate
free; association entries carry their key as name and their association
as common; templates of one namespace share one engine association; an
engine template with a tree is associated under its name; a template
whose HTML tree is set has an engine tree; a resolved escape status
implies the namespace is frozen and an engine tree exists. -/
structure Inv (s : State) : Prop where
  tmplText : ∀ i, i < s.tmpls.length → (s.tmpl i).text < s.texts.length
  tmplNs : ∀ i, i < s.tmpls.length → (s.tmpl i).ns < s.nss.length
  tmplTree : ∀ i, i < s.tmpls.length → ∀ tr, (s.tmpl i).tree = some tr → tr < s.trees.length
  textCom : ∀ i, i < s.texts.length → (s.text i).tcommon < s.commons.length
  textTree : ∀ i, i < s.texts.length → ∀ tr, (s.text i).ttree = some tr → tr < s.trees.length
  assocText : ∀ c, c < s.commons.length → ∀ p, p ∈ (s.common c).assoc → p.2 < s.texts.length
  setTmplLt : ∀ n, n < s.nss.length → ∀ p, p ∈ (s.ns n).set → p.2 < s.tmpls.length
  setNsEq : ∀ n, n < s.nss.length → ∀ p, p ∈ (s.ns n).set → (s.tmpl p.2).ns = n
  setNameEq : ∀ n, n < s.nss.length → ∀ p, p ∈ (s.ns n).set → s.tmplName p.2 = p.1
  setInj : ∀ n, n < s.nss.length → ∀ m, m < s.nss.length →
    ∀ p, p ∈ (s.ns n).set → ∀ q, q ∈ (s.ns m).set → p.2 = q.2 → n = m ∧ p.1 = q.1
  setKeys : ∀ n, n < s.nss.length → ((s.ns n).set.map Prod.fst).Nodup
  assocKeys : ∀ c, c < s.commons.length → ((s.common c).assoc.map Prod.fst).Nodup
  assocNameEq : ∀ c, c < s.commons.length → ∀ p, p ∈ (s.common c).assoc →
    (s.text p.2).tname = p.1
  assocComEq : ∀ c, c < s.commons.length → ∀ p, p ∈ (s.common c).assoc →
    (s.text p.2).tcommon = c
  comCoh : ∀ i, i < s.tmpls.length → ∀ j, j < s.tmpls.length →
    (s.tmpl i).ns = (s.tmpl j).ns →
    (s.text (s.tmpl i).text).tcommon = (s.text (s.tmpl j).text).tcommon
  treeAssoc : ∀ i, i < s.texts.length → (s.text i).ttree ≠ none →
    alookup (s.common (s.text i).tcommon).assoc (s.text i).tname ≠ none
  htmlTree : ∀ i, i < s.tmpls.length → (s.tmpl i).tree ≠ none →
    (s.text (s.tmpl i).text).ttree ≠ none
  escNs : ∀ i, i < s.tmpls.length → (s.tmpl i).escapeErr ≠ .unset →
    (s.ns (s.tmpl i).ns).escaped = true
  escTree : ∀ i, i < s.tmpls.length → (s.tmpl i).escapeErr ≠ .unset →
    (s.text (s.tmpl i).text).ttree ≠ none

/-- The invariant as it holds in the middle of the engine's `Clone` loop:
everything of `Inv` except that the root copy `nt`, which already carries
the source's tree pointer, may not yet be entered in the new
association. -/
structure CloneInv (s : State) (nt : Nat) : Prop where
  tmplText : ∀ i, i < s.tmpls.length → (s.tmpl i).text < s.texts.length
  tmplNs : ∀ i, i < s.tmpls.length → (s.tmpl i).ns < s.nss.length
  tmplTree : ∀ i, i < s.tmpls.length → ∀ tr, (s.tmpl i).tree = some tr → tr < s.trees.length
  textCom : ∀ i, i < s.texts.length → (s.text i).tcommon < s.commons.length
  textTree : ∀ i, i < s.texts.length → ∀ tr, (s.text i).ttree = some tr → tr < s.trees.length
  assocText : ∀ c, c < s.commons.length → ∀ p, p ∈ (s.common c).assoc → p.2 < s.texts.length
  setTmplLt : ∀ n, n < s.nss.length → ∀ p, p ∈ (s.ns n).set → p.2 < s.tmpls.length
  setNsEq : ∀ n, n < s.nss.length → ∀ p, p ∈ (s.ns n).set → (s.tmpl p.2).ns = n
  setNameEq : ∀ n, n < s.nss.length → ∀ p, p ∈ (s.ns n).set → s.tmplName p.2 = p.1
  setInj : ∀ n, n < s.nss.length → ∀ m, m < s.nss.length →
    ∀ p, p ∈ (s.ns n).set → ∀ q, q ∈ (s.ns m).set → p.2 = q.2 → n = m ∧ p.1 = q.1
  setKeys : ∀ n, n < s.nss.length → ((s.ns n).set.map Prod.fst).Nodup
  assocKeys : ∀ c, c < s.commons.length → ((s.common c).assoc.map Prod.fst).Nodup
  assocNameEq : ∀ c, c < s.commons.length → ∀ p, p ∈ (s.common c).assoc →
    (s.text p.2).tname = p.1
  assocComEq : ∀ c, c < s.commons.length → ∀ p, p ∈ (s.common c).assoc →
    (s.text p.2).tcommon = c
  comCoh : ∀ i, i < s.tmpls.length → ∀ j, j < s.tmpls.length →
    (s.tmpl i).ns = (s.tmpl j).ns →
    (s.text (s.tmpl i).text).tcommon = (s.text (s.tmpl j).text).tcommon
  treeAssocX : ∀ i, i < s.texts.length → i ≠ nt → (s.text i).ttree ≠ none →
    alookup (s.common (s.text i).tcommon).assoc (s.text i).tname ≠ none
  htmlTree : ∀ i, i < s.tmpls.length → (s.tmpl i).tree ≠ none →
    (s.text (s.tmpl i).text).ttree ≠ none
  escNs : ∀ i, i < s.tmpls.length → (s.tmpl i).escapeErr ≠ .unset →
    (s.ns (s.tmpl i).ns).escaped = true
  escTree : ∀ i, i < s.tmpls.length → (s.tmpl i).escapeErr ≠ .unset →
    (s.text (s.tmpl i).text).ttree ≠ none

/-! ## Basic list and association-list lemmas -/

theorem getD_append_lt {α} (l l2 : List α) (d : α) (i : Nat) (h : i < l.length) :
    (l ++ l2).getD i d = l.getD i d := by
  simp [List.getD, List.getElem?_append_left h]

theorem getD_append_len {α} (l : List α) (x d : α) : (l ++ [x]).getD l.length d = x := by
  simp [List.getD]

theorem getD_set_self {α} (l : List α) (i : Nat) (h : i < l.length) (v d : α) :
    (l.set i v).getD i d = v := by
  simp [List.getD, List.getElem?_set_self, h]

theorem getD_set_ne {α} (l : List α) (i j : Nat) (h : i ≠ j) (v d : α) :
    (l.set i v).getD j d = l.getD j d := by
  simp [List.getD, List.getElem?_set_ne h]

theorem getD_append_ge {α} (l l2 : List α) (d : α) (i : Nat) (h : l.length ≤ i) :
    (l ++ l2).getD i d = l2.getD (i - l.length) d := by
  simp [List.getD, List.getElem?_append_right h]

theorem alookup_aset_self (m : List (String × Nat)) (k : String) (v : Nat) :
    alookup (aset m k v) k = some v := by
  induction m with
  | nil => simp [aset, alookup]
  | cons p r ih =>
    by_cases h : p.1 = k
    · simp [aset, h, alookup]
    · simp [aset, h, alookup, ih]

theorem alookup_aset_ne (m : List (String × Nat)) (k k2 : String) (v : Nat)
    (h : k2 ≠ k) : alookup (aset m k v) k2 = alookup m k2 := by
  have hk : ¬ k = k2 := fun h2 => h h2.symm
  induction m with
  | nil => simp [aset, alookup, hk]
  | cons p r ih =>
    obtain ⟨a, b⟩ := p
    by_cases h1 : a = k
    · subst h1
      simp [aset, alookup, hk]
    · simp [aset, alookup, h1, ih]

theorem alookup_mem {m : List (String × Nat)} {k : String} {v : Nat}
    (h : alookup m k = some v) : (k, v) ∈ m := by
  induction m with
  | nil => simp [alookup] at h
  | cons p r ih =>
    obtain ⟨a, b⟩ := p
    by_cases h1 : a = k
    · subst h1
      simp [alookup] at h
      subst h
      exact List.mem_cons_self _ _
    · simp only [alookup, if_neg h1] at h
      exact List.mem_cons_of_mem _ (ih h)

theorem alookup_of_mem_nodup {m : List (String × Nat)} {k : String} {v : Nat}
    (hn : (m.map Prod.fst).Nodup) (h : (k, v) ∈ m) : alookup m k = some v := by
  induction m with
  | nil => cases h
  | cons p r ih =>
    rcases List.mem_cons.mp h with he | hm
    · subst he
      unfold alookup
      simp
    · have hn2 : (r.map Prod.fst).Nodup := (List.nodup_cons.mp hn).2
      have hk : p.1 ≠ k := by
        intro he2
        have : p.1 ∈ r.map Prod.fst :=
          List.mem_map.mpr ⟨(k, v), hm, by rw [he2]⟩
        exact (List.nodup_cons.mp hn).1 this
      unfold alookup
      rw [if_neg hk]
      exact ih hn2 hm

theorem treeCopy_snd_ge (s : State) (tr : Option Nat) :
    ∀ j, (treeCopy s tr).2 = some j → s.trees.length ≤ j := by
  unfold treeCopy
  match tr with
  | none =>
    intro j hj
    have hj2 : (none : Option Nat) = some j := hj
    cases hj2
  | some i =>
    intro j hj
    have hj2 : some s.trees.length = some j := hj
    rw [← Option.some.inj hj2]

theorem alookup_isSome_of_mem {m : List (String × Nat)} {k : String} {v : Nat}
    (h : (k, v) ∈ m) : alookup m k ≠ none := by
  induction m with
  | nil => simp at h
  | cons p r ih =>
    rcases List.mem_cons.1 h with h1 | h1
    · cases h1
      simp [alookup]
    · by_cases h2 : p.1 = k
      · simp [alookup, h2]
      · simp [alookup, h2]
        exact ih h1

theorem mem_alookup {m : List (String × Nat)} {k : String} {v : Nat}
    (hn : (m.map Prod.fst).Nodup) (h : (k, v) ∈ m) : alookup m k = some v := by
  induction m with
  | nil => simp at h
  | cons p r ih =>
    simp only [List.map_cons, List.nodup_cons] at hn
    rcases List.mem_cons.1 h with h1 | h1
    · cases h1
      simp [alookup]
    · have hk : p.1 ≠ k := by
        intro he
        exact hn.1 (he ▸ (List.mem_map.2 ⟨(k, v), h1, rfl⟩))
      simp [alookup, hk]
      exact ih hn.2 h1

theorem mem_aset {m : List (String × Nat)} {k : String} {v : Nat} {p : String × Nat}
    (hn : (m.map Prod.fst).Nodup) (h : p ∈ aset m k v) :
    p = (k, v) ∨ (p ∈ m ∧ p.1 ≠ k) := by
  induction m with
  | nil =>
    simp [aset] at h
    left
    exact h
  | cons q r ih =>
    simp only [List.map_cons, List.nodup_cons] at hn
    by_cases h1 : q.1 = k
    · simp only [aset, h1, if_pos rfl] at h
      rcases List.mem_cons.1 h with h2 | h2
      · left; exact h2
      · by_cases h3 : p.1 = k
        · exfalso
          apply hn.1
          rw [h1, ← h3]
          exact List.mem_map.2 ⟨p, h2, rfl⟩
        · right
          exact ⟨List.mem_cons_of_mem _ h2, h3⟩
    · simp only [aset, h1, if_neg h1] at h
      rcases List.mem_cons.1 h with h2 | h2
      · subst h2
        right
        exact ⟨List.mem_cons_self _ _, h1⟩
      · rcases ih hn.2 h2 with h3 | h3
        · left; exact h3
        · right; exact ⟨List.mem_cons_of_mem _ h3.1, h3.2⟩

theorem aset_keys_nodup {m : List (String × Nat)} (k : String) (v : Nat)
    (hn : (m.map Prod.fst).Nodup) : ((aset m k v).map Prod.fst).Nodup := by
  induction m with
  | nil => simp [aset]
  | cons p r ih =>
    simp only [List.map_cons, List.nodup_cons] at hn
    by_cases h1 : p.1 = k
    · simp only [aset, if_pos h1, List.map_cons, List.nodup_cons]
      refine ⟨fun hc => hn.1 ?_, hn.2⟩
      rw [h1]
      exact hc
    · simp only [aset, if_neg h1, List.map_cons, List.nodup_cons]
      refine ⟨fun hc => ?_, ih hn.2⟩
      rcases List.mem_map.1 hc with ⟨q, hq, hq2⟩
      rcases mem_aset hn.2 hq with h2 | h2
      · subst h2
        exact h1 hq2.symm
      · exact hn.1 (hq2 ▸ List.mem_map.2 ⟨q, h2.1, rfl⟩)

/-! ## State accessor lemmas -/

theorem tmpl_setNs (s : State) (n : Nat) (v : NsObj) (i : Nat) :
    (s.setNs n v).tmpl i = s.tmpl i := rfl

theorem text_setNs (s : State) (n : Nat) (v : NsObj) (i : Nat) :
    (s.setNs n v).text i = s.text i := rfl

theorem common_setNs (s : State) (n : Nat) (v : NsObj) (i : Nat) :
    (s.setNs n v).common i = s.common i := rfl

theorem tree_setNs (s : State) (n : Nat) (v : NsObj) (i : Nat) :
    (s.setNs n v).tree i = s.tree i := rfl

theorem tmplName_setNs (s : State) (n : Nat) (v : NsObj) (i : Nat) :
    (s.setNs n v).tmplName i = s.tmplName i := rfl

theorem ns_setNs_self (s : State) (n : Nat) (h : n < s.nss.length) (v : NsObj) :
    (s.setNs n v).ns n = v := getD_set_self _ _ h _ _

theorem ns_setNs_ne (s : State) {n m : Nat} (h : n ≠ m) (v : NsObj) :
    (s.setNs n v).ns m = s.ns m := getD_set_ne _ _ _ h _ _

theorem tmpl_setTmpl_self (s : State) (n : Nat) (h : n < s.tmpls.length)
    (v : TemplateObj) : (s.setTmpl n v).tmpl n = v := getD_set_self _ _ h _ _

theorem tmpl_setTmpl_ne (s : State) {n m : Nat} (h : n ≠ m) (v : TemplateObj) :
    (s.setTmpl n v).tmpl m = s.tmpl m := getD_set_ne _ _ _ h _ _

theorem text_setTmpl (s : State) (n : Nat) (v : TemplateObj) (i : Nat) :
    (s.setTmpl n v).text i = s.text i := rfl

theorem common_setTmpl (s : State) (n : Nat) (v : TemplateObj) (i : Nat) :
    (s.setTmpl n v).common i = s.common i := rfl

theorem ns_setTmpl (s : State) (n : Nat) (v : TemplateObj) (i : Nat) :
    (s.setTmpl n v).ns i = s.ns i := rfl

theorem tree_setTmpl (s : State) (n : Nat) (v : TemplateObj) (i : Nat) :
    (s.setTmpl n v).tree i = s.tree i := rfl

theorem text_setText_self (s : State) (n : Nat) (h : n < s.texts.length) (v : TextObj) :
    (s.setText n v).text n = v := getD_set_self _ _ h _ _

theorem text_setText_ne (s : State) {n m : Nat} (h : n ≠ m) (v : TextObj) :
    (s.setText n v).text m = s.text m := getD_set_ne _ _ _ h _ _

theorem tmpl_setText (s : State) (n : Nat) (v : TextObj) (i : Nat) :
    (s.setText n v).tmpl i = s.tmpl i := rfl

theorem common_setText (s : State) (n : Nat) (v : TextObj) (i : Nat) :
    (s.setText n v).common i = s.common i := rfl

theorem ns_setText (s : State) (n : Nat) (v : TextObj) (i : Nat) :
    (s.setText n v).ns i = s.ns i := rfl

theorem tree_setText (s : State) (n : Nat) (v : TextObj) (i : Nat) :
    (s.setText n v).tree i = s.tree i := rfl

theorem common_setCommon_self (s : State) (n : Nat) (h : n < s.commons.length)
    (v : CommonObj) : (s.setCommon n v).common n = v := getD_set_self _ _ h _ _

theorem common_setCommon_ne (s : State) {n m : Nat} (h : n ≠ m) (v : CommonObj) :
    (s.setCommon n v).common m = s.common m := getD_set_ne _ _ _ h _ _

theorem tmpl_setCommon (s : State) (n : Nat) (v : CommonObj) (i : Nat) :
    (s.setCommon n v).tmpl i = s.tmpl i := rfl

theorem text_setCommon (s : State) (n : Nat) (v : CommonObj) (i : Nat) :
    (s.setCommon n v).text i = s.text i := rfl

theorem ns_setCommon (s : State) (n : Nat) (v : CommonObj) (i : Nat) :
    (s.setCommon n v).ns i = s.ns i := rfl

theorem tree_setCommon (s : State) (n : Nat) (v : CommonObj) (i : Nat) :
    (s.setCommon n v).tree i = s.tree i := rfl

theorem tmplName_setText_of_ne (s : State) {n : Nat} (v : TextObj) (i : Nat)
    (h : n ≠ (s.tmpl i).text) : (s.setText n v).tmplName i = s.tmplName i := by
  unfold State.tmplName
  rw [tmpl_setText, text_setText_ne s h]

/-! ## setEscaped and escapeTemplateM lemmas -/

theorem setEscaped_tmpls (s : State) (n : Nat) : (setEscaped s n).tmpls = s.tmpls := rfl

theorem setEscaped_texts (s : State) (n : Nat) : (setEscaped s n).texts = s.texts := rfl

theorem setEscaped_commons (s : State) (n : Nat) :
    (setEscaped s n).commons = s.commons := rfl

theorem setEscaped_trees (s : State) (n : Nat) : (setEscaped s n).trees = s.trees := rfl

theorem setEscaped_tmpl (s : State) (n i : Nat) : (setEscaped s n).tmpl i = s.tmpl i := rfl

theorem setEscaped_text (s : State) (n i : Nat) : (setEscaped s n).text i = s.text i := rfl

theorem setEscaped_tmplName (s : State) (n i : Nat) :
    (setEscaped s n).tmplName i = s.tmplName i := rfl

theorem setEscaped_nss_length (s : State) (n : Nat) :
    (setEscaped s n).nss.length = s.nss.length := by
  unfold setEscaped State.setNs
  simp

theorem setEscaped_escaped (s : State) (n : Nat) (h : n < s.nss.length) :
    ((setEscaped s n).ns n).escaped = true := by
  unfold setEscaped
  rw [ns_setNs_self s n h]

theorem setEscaped_ns_set (s : State) (n m : Nat) :
    ((setEscaped s n).ns m).set = (s.ns m).set := by
  by_cases h : n < s.nss.length
  · by_cases h2 : n = m
    · subst h2
      rw [setEscaped, ns_setNs_self s n h]
    · rw [setEscaped, ns_setNs_ne s h2]
  · have hle : s.nss.length ≤ n := Nat.le_of_not_lt h
    unfold setEscaped State.setNs State.ns
    rw [List.set_eq_of_length_le hle]

theorem setEscaped_ns_ne (s : State) {n m : Nat} (h : n ≠ m) :
    (setEscaped s n).ns m = s.ns m := ns_setNs_ne s h _

theorem escapeTemplateM_nss (s : State) (osc : String → Option String) (tid : Nat)
    (name : String) : (escapeTemplateM s osc tid name).1.nss = s.nss := by
  unfold escapeTemplateM
  cases osc name <;> rfl

theorem escapeTemplateM_texts (s : State) (osc : String → Option String) (tid : Nat)
    (name : String) : (escapeTemplateM s osc tid name).1.texts = s.texts := by
  unfold escapeTemplateM
  cases osc name <;> rfl

theorem escapeTemplateM_commons (s : State) (osc : String → Option String) (tid : Nat)
    (name : String) : (escapeTemplateM s osc tid name).1.commons = s.commons := by
  unfold escapeTemplateM
  cases osc name <;> rfl

theorem escapeTemplateM_trees (s : State) (osc : String → Option String) (tid : Nat)
    (name : String) : (escapeTemplateM s osc tid name).1.trees = s.trees := by
  unfold escapeTemplateM
  cases osc name <;> rfl

theorem escapeTemplateM_tmpl_ne (s : State) (osc : String → Option String) {tid : Nat}
    (name : String) {i : Nat} (h : tid ≠ i) :
    (escapeTemplateM s osc tid name).1.tmpl i = s.tmpl i := by
  unfold escapeTemplateM
  cases osc name <;> exact tmpl_setTmpl_ne s h _

theorem escapeTemplateM_tmpls_length (s : State) (osc : String → Option String)
    (tid : Nat) (name : String) :
    (escapeTemplateM s osc tid name).1.tmpls.length = s.tmpls.length := by
  unfold escapeTemplateM
  cases osc name <;> simp [State.setTmpl]

/-! ## Characterizations of the escape gate -/

theorem ns_congr {s1 s2 : State} (h : s1.nss = s2.nss) (n : Nat) : s1.ns n = s2.ns n := by
  unfold State.ns
  rw [h]

theorem text_congr {s1 s2 : State} (h : s1.texts = s2.texts) (i : Nat) :
    s1.text i = s2.text i := by
  unfold State.text
  rw [h]

theorem tmpl_congr {s1 s2 : State} (h : s1.tmpls = s2.tmpls) (i : Nat) :
    s1.tmpl i = s2.tmpl i := by
  unfold State.tmpl
  rw [h]

theorem common_congr {s1 s2 : State} (h : s1.commons = s2.commons) (i : Nat) :
    s1.common i = s2.common i := by
  unfold State.common
  rw [h]

theorem tree_congr {s1 s2 : State} (h : s1.trees = s2.trees) (i : Nat) :
    s1.tree i = s2.tree i := by
  unfold State.tree
  rw [h]

theorem hEscape_ok (s : State) (osc : String → Option String) (t : Nat)
    (h : (s.tmpl t).escapeErr = .ok) :
    hEscape s osc t = (setEscaped s (s.tmpl t).ns, none) := by
  unfold hEscape
  simp only [setEscaped_tmpl, h]

theorem hEscape_failed (s : State) (osc : String → Option String) (t : Nat) (e : String)
    (h : (s.tmpl t).escapeErr = .failed e) :
    hEscape s osc t = (setEscaped s (s.tmpl t).ns, some (.escapeFailed e)) := by
  unfold hEscape
  simp only [setEscaped_tmpl, h]

theorem hEscape_incomplete (s : State) (osc : String → Option String) (t : Nat)
    (h : (s.tmpl t).escapeErr = .unset) (h2 : (s.tmpl t).tree = none) :
    hEscape s osc t =
      (setEscaped s (s.tmpl t).ns, some (.incompleteOrEmpty (s.tmplName t))) := by
  unfold hEscape
  simp only [setEscaped_tmpl, setEscaped_tmplName, h, h2]

theorem hEscape_unset (s : State) (osc : String → Option String) (t : Nat) (tr : Nat)
    (h : (s.tmpl t).escapeErr = .unset) (h2 : (s.tmpl t).tree = some tr) :
    hEscape s osc t =
      (match (escapeTemplateM (setEscaped s (s.tmpl t).ns) osc t (s.tmplName t)).2 with
       | some e => ((escapeTemplateM (setEscaped s (s.tmpl t).ns) osc t
            (s.tmplName t)).1, some (.escapeFailed e))
       | none => ((escapeTemplateM (setEscaped s (s.tmpl t).ns) osc t
            (s.tmplName t)).1, none)) := by
  unfold hEscape
  simp only [setEscaped_tmpl, setEscaped_tmplName, h, h2]

theorem hEscape_nss (s : State) (osc : String → Option String) (t : Nat) :
    (hEscape s osc t).1.nss = (setEscaped s (s.tmpl t).ns).nss := by
  unfold hEscape
  simp only [setEscaped_tmpl, setEscaped_tmplName]
  cases h : (s.tmpl t).escapeErr with
  | unset =>
    simp only []
    cases h2 : (s.tmpl t).tree with
    | none => rfl
    | some tr =>
      simp only []
      cases h3 : (escapeTemplateM (setEscaped s (s.tmpl t).ns) osc t (s.tmplName t)).2 with
      | none =>
        simp only [h3]
        exact escapeTemplateM_nss _ _ _ _
      | some e =>
        simp only [h3]
        exact escapeTemplateM_nss _ _ _ _
  | ok => rfl
  | failed e => rfl

theorem hExecute_nss (s : State) (osc : String → Option String) (t : Nat) :
    (hExecute s osc t).1.nss = (setEscaped s (s.tmpl t).ns).nss := by
  unfold hExecute
  cases h : hEscape s osc t with
  | mk s1 r =>
    have h2 : s1.nss = (setEscaped s (s.tmpl t).ns).nss := by
      rw [← hEscape_nss s osc t, h]
    cases r with
    | none => simpa using h2
    | some e => simpa using h2

theorem lookupAndEscape_nss (s : State) (osc : String → Option String) (t : Nat)
    (name : String) :
    (lookupAndEscape s osc t name).1.nss = (setEscaped s (s.tmpl t).ns).nss := by
  unfold lookupAndEscape
  simp only [setEscaped_tmpl, setEscaped_text]
  cases h : alookup ((setEscaped s (s.tmpl t).ns).ns (s.tmpl t).ns).set name with
  | none => rfl
  | some tid =>
    simp only []
    cases h2 : (s.tmpl tid).escapeErr with
    | failed e => rfl
    | ok =>
      by_cases h3 : ((s.text (s.tmpl tid).text).ttree).isNone
      · simp [h3]
      · simp only [h3, Bool.false_eq_true, if_false]
        by_cases h4 : (textLookup (setEscaped s (s.tmpl t).ns) (s.tmpl t).text name).isNone
        · simp [h4]
        · simp [h4]
    | unset =>
      by_cases h3 : ((s.text (s.tmpl tid).text).ttree).isNone
      · simp [h3]
      · simp only [h3, Bool.false_eq_true, if_false]
        by_cases h4 : (textLookup (setEscaped s (s.tmpl t).ns) (s.tmpl t).text name).isNone
        · simp [h4]
        · simp only [h4, Bool.false_eq_true, if_false]
          cases h5 : (escapeTemplateM (setEscaped s (s.tmpl t).ns) osc tid name).2 with
          | none =>
            simp only [h5]
            exact escapeTemplateM_nss _ _ _ _
          | some e =>
            simp only [h5]
            exact escapeTemplateM_nss _ _ _ _

theorem hExecuteTemplate_nss (s : State) (osc : String → Option String) (t : Nat)
    (name : String) :
    (hExecuteTemplate s osc t name).1.nss = (setEscaped s (s.tmpl t).ns).nss := by
  unfold hExecuteTemplate
  cases h : lookupAndEscape s osc t name with
  | mk s1 r =>
    have h2 : s1.nss = (setEscaped s (s.tmpl t).ns).nss := by
      rw [← lookupAndEscape_nss s osc t name, h]
    cases r <;> simpa using h2

/-! ## Closed forms and registration lemmas for the definition operations -/

theorem set_append_len {α} (l : List α) (x v : α) : (l ++ [x]).set l.length v = l ++ [v] := by
  induction l with
  | nil => rfl
  | cons a r ih => simp [List.set, ih]

theorem hTopNew_eq (s : State) (name : String) :
    hTopNew s name =
      ({ trees := s.trees,
         texts := s.texts ++ [⟨name, none, s.commons.length⟩],
         commons := s.commons ++ [⟨[]⟩],
         tmpls := s.tmpls ++ [⟨.unset, s.texts.length, none, s.nss.length, 0⟩],
         nss := s.nss ++ [⟨[(name, s.tmpls.length)], false⟩] }, s.tmpls.length) := by
  unfold hTopNew textTopNew State.setNs State.ns
  simp only []
  rw [getD_append_len, set_append_len]
  rfl

theorem hTopNew_ns_lt (s : State) (name : String) {n : Nat} (h : n < s.nss.length) :
    (hTopNew s name).1.ns n = s.ns n := by
  rw [hTopNew_eq]
  unfold State.ns
  exact getD_append_lt _ _ _ _ h

theorem hTopNew_tmpl_lt (s : State) (name : String) {i : Nat} (h : i < s.tmpls.length) :
    (hTopNew s name).1.tmpl i = s.tmpl i := by
  rw [hTopNew_eq]
  unfold State.tmpl
  exact getD_append_lt _ _ _ _ h

theorem hTopNew_text_lt (s : State) (name : String) {i : Nat} (h : i < s.texts.length) :
    (hTopNew s name).1.text i = s.text i := by
  rw [hTopNew_eq]
  unfold State.text
  exact getD_append_lt _ _ _ _ h

theorem hTopNew_common_lt (s : State) (name : String) {i : Nat}
    (h : i < s.commons.length) : (hTopNew s name).1.common i = s.common i := by
  rw [hTopNew_eq]
  unfold State.common
  exact getD_append_lt _ _ _ _ h

theorem hTopNew_trees (s : State) (name : String) : (hTopNew s name).1.trees = s.trees := by
  rw [hTopNew_eq]

theorem hNewInner_snd (s : State) (t : Nat) (name : String) :
    (hNewInner s t name).2 = s.tmpls.length := rfl

theorem hNewInner_nss_length (s : State) (t : Nat) (name : String) :
    s.nss.length ≤ (hNewInner s t name).1.nss.length ∧
    ((hNewInner s t name).1.nss.length = s.nss.length ∨
     (hNewInner s t name).1.nss.length = s.nss.length + 1) := by
  unfold hNewInner
  simp only []
  split
  · rename_i ex heq
    rw [hTopNew_eq]
    constructor
    · simp [State.setNs, State.setTmpl, textNew]
    · right
      simp [State.setNs, State.setTmpl, textNew]
  · constructor
    · simp [State.setNs, textNew]
    · left
      simp [State.setNs, textNew]

theorem alookup_setNs_aset (s : State) (n : Nat) (h : n < s.nss.length) (name : String)
    (id : Nat) :
    alookup ((s.setNs n { s.ns n with set := aset (s.ns n).set name id }).ns n).set name =
      some id := by
  rw [ns_setNs_self s n h]
  exact alookup_aset_self _ _ _

theorem hNewInner_register (s : State) (t : Nat) (name : String)
    (hns : (s.tmpl t).ns < s.nss.length) :
    alookup ((hNewInner s t name).1.ns (s.tmpl t).ns).set name =
      some (hNewInner s t name).2 := by
  unfold hNewInner
  simp only []
  split
  · refine alookup_setNs_aset _ _ ?_ _ _
    rw [hTopNew_eq]
    simp only [State.setTmpl, textNew, List.length_set, List.length_append,
      List.length_cons, List.length_nil]
    omega
  · exact alookup_setNs_aset _ _ hns _ _

/-! ## Claim C2: definitions are frozen after execution -/

/-- C2: in a namespace whose `escapingBegun` flag is true, every call to
`Parse` or `AddParseTree` — and `ParseFiles`/`ParseGlob`, which go
through the same check — fails with the definition-after-execution error
and performs no mutation at all: the returned state is the input state. -/
theorem parse_frozen_after_execute (s : State) (t : Nat)
    (h : (s.ns (s.tmpl t).ns).escaped = true) :
    (∀ defs, hParse s t defs = (s, .error .cannotParseAfterExecute)) ∧
    (∀ name content, hAddParseTree s t name content = (s, .error .cannotParseAfterExecute)) ∧
    (∀ files, parseFilesM s (some t) files = (s, .error .cannotParseAfterExecute)) ∧
    (∀ ms, parseGlobM s (some t) ms = (s, .error .cannotParseAfterExecute)) := by
  refine ⟨fun defs => ?_, fun name content => ?_, fun files => ?_, fun ms => ?_⟩
  · unfold hParse
    simp [h]
  · unfold hAddParseTree
    simp [h]
  · unfold parseFilesM
    simp [h]
  · unfold parseGlobM
    simp [h]

/-- Witness for C2: in the concrete frozen namespace `exS2`, a `Parse`,
an `AddParseTree`, a `ParseFiles` and a `ParseGlob` all fail with the
definition-after-execution error and leave the state unchanged. -/
theorem parse_frozen_after_execute_witness :
    (exS2.ns (exS2.tmpl 0).ns).escaped = true ∧
    hParse exS2 0 [("x", "bye")] = (exS2, .error .cannotParseAfterExecute) ∧
    hAddParseTree exS2 0 "y" "body" = (exS2, .error .cannotParseAfterExecute) ∧
    parseFilesM exS2 (some 0) [("f.html", [("f.html", "data")])] =
      (exS2, .error .cannotParseAfterExecute) ∧
    parseGlobM exS2 (some 0) [("f.html", [("f.html", "data")])] =
      (exS2, .error .cannotParseAfterExecute) := by
  have h := parse_frozen_after_execute exS2 0 (by decide)
  exact ⟨by decide, h.1 _, h.2.1 _ _, h.2.2.1 _, h.2.2.2 _⟩

/-! ## Claim C4: any execution request freezes the namespace -/

/-- C4: every `Execute` and every `ExecuteTemplate` call sets the
receiver's namespace `escaped` flag unconditionally — whatever the
outcome of the call (success, undefined name, incomplete template, or
escape failure), the namespace is frozen afterwards. -/
theorem execute_sets_escaped (s : State) (osc : String → Option String) (t : Nat)
    (h : (s.tmpl t).ns < s.nss.length) (name : String) :
    ((hExecute s osc t).1.ns (s.tmpl t).ns).escaped = true ∧
    ((hExecuteTemplate s osc t name).1.ns (s.tmpl t).ns).escaped = true := by
  constructor
  · rw [ns_congr (hExecute_nss s osc t)]
    exact setEscaped_escaped s _ h
  · rw [ns_congr (hExecuteTemplate_nss s osc t name)]
    exact setEscaped_escaped s _ h

/-- Witness for C4: a failing `ExecuteTemplate` (undefined name) and a
failing `Execute` (incomplete template) on the concrete namespace `exS0`
both leave the namespace frozen. -/
theorem execute_sets_escaped_witness :
    ((exS0.tmpl 0).ns < exS0.nss.length ∧
      ((hExecuteTemplate exS0 (fun _ => none) 0 "nope").1.ns (exS0.tmpl 0).ns).escaped
        = true) ∧
    (hExecuteTemplate exS0 (fun _ => none) 0 "nope").2 = .failure (.undefined "nope") ∧
    ((hExecute exS0 (fun _ => none) 0).1.ns (exS0.tmpl 0).ns).escaped = true ∧
    (hExecute exS0 (fun _ => none) 0).2 =
      .failure (.incompleteOrEmpty "x") := by
  refine ⟨⟨by decide, (execute_sets_escaped exS0 (fun _ => none) 0 (by decide) "nope").2⟩,
    by decide, (execute_sets_escaped exS0 (fun _ => none) 0 (by decide) "nope").1,
    by decide⟩

/-! ## Claim C5: New bypasses the definition-after-execution check -/

/-- C5: `t.New(name)` never produces a definition-after-execution error —
its result type carries no error at all — and even in a namespace whose
`escaped` flag is already true it registers `name` in the registry,
mapped to the freshly allocated `Template` it returns. -/
theorem new_bypasses_freeze (s : State) (t : Nat) (name : String)
    (hns : (s.tmpl t).ns < s.nss.length)
    (hesc : (s.ns (s.tmpl t).ns).escaped = true) :
    alookup ((hNew s t name).1.ns (s.tmpl t).ns).set name = some (hNew s t name).2 ∧
    (hNew s t name).2 = s.tmpls.length := by
  exact ⟨hNewInner_register s t name hns, hNewInner_snd s t name⟩

/-- Witness for C5: in the frozen namespace `exS2`, `New("y")` succeeds
and registers `"y"` at the fresh template. -/
theorem new_bypasses_freeze_witness :
    ((exS2.tmpl 0).ns < exS2.nss.length ∧ (exS2.ns (exS2.tmpl 0).ns).escaped = true) ∧
    alookup ((hNew exS2 0 "y").1.ns (exS2.tmpl 0).ns).set "y" = some (hNew exS2 0 "y").2 ∧
    (hNew exS2 0 "y").2 = exS2.tmpls.length := by
  refine ⟨⟨by decide, by decide⟩, ?_, ?_⟩
  · exact (new_bypasses_freeze exS2 0 "y" (by decide) (by decide)).1
  · exact (new_bypasses_freeze exS2 0 "y" (by decide) (by decide)).2

/-! ## Claim C1 (counterexample): AddParseTree replaces the registry entry -/

/-- Counterexample to C1 as stated: in the namespace `exS1` (escaping not
begun, `"x"` defined with body `"hello"` owned by template 0), the
definition operation `AddParseTree("x", "hi")` does NOT overwrite
template 0 in place: it returns a newly allocated template 1, repoints
the registry entry for `"x"` at it, and leaves the old object entirely
unchanged — a handle to template 0 still sees the old tree `"hello"`,
not the new content `"hi"`. -/
theorem addParseTree_replaces_registry_entry :
    alookup (exS1.ns 0).set "x" = some 0 ∧
    (exS1.ns 0).escaped = false ∧
    (hAddParseTree exS1 0 "x" "hi").2 = .ok 1 ∧
    alookup ((hAddParseTree exS1 0 "x" "hi").1.ns 0).set "x" = some 1 ∧
    ((hAddParseTree exS1 0 "x" "hi").1.tmpl 0) = exS1.tmpl 0 ∧
    ((hAddParseTree exS1 0 "x" "hi").1.tmpl 0).tree = some 0 ∧
    (hAddParseTree exS1 0 "x" "hi").1.tree 0 = "hello" ∧
    ((hAddParseTree exS1 0 "x" "hi").1.tmpl 1).tree = some 1 ∧
    (hAddParseTree exS1 0 "x" "hi").1.tree 1 = "hi" := by decide

/-! ## Claim C6 (counterexample): New moves the old object to a fresh namespace -/

/-- Counterexample to C6 as stated: redefining `"x"` via `New` in the
one-template namespace `exS0` changes the namespace back-reference of
the already-allocated template 0 from namespace 0 to the brand-new
namespace 1, while the registry entry of namespace 0 is repointed at the
newly allocated template 1. -/
theorem new_changes_namespace_backref :
    (exS0.tmpl 0).ns = 0 ∧
    ((hNew exS0 0 "x").1.tmpl 0).ns = 1 ∧
    alookup ((hNew exS0 0 "x").1.ns 0).set "x" = some 1 := by decide

/-! ## Invariant preservation: primitives -/

theorem lt_append_one {α} {l : List α} {x : α} {i : Nat} (h : i < (l ++ [x]).length) :
    i < l.length ∨ i = l.length := by
  simp at h
  omega

theorem tmpl_setTmpl_cases (s : State) (n : Nat) (v : TemplateObj) (i : Nat) :
    (s.setTmpl n v).tmpl i = s.tmpl i ∨
    ((s.setTmpl n v).tmpl i = v ∧ i = n ∧ n < s.tmpls.length) := by
  by_cases h : n = i
  · subst h
    by_cases h2 : n < s.tmpls.length
    · right
      exact ⟨tmpl_setTmpl_self s n h2 v, rfl, h2⟩
    · left
      unfold State.setTmpl State.tmpl
      rw [List.set_eq_of_length_le (le_of_not_lt h2)]
  · left
    exact tmpl_setTmpl_ne s h v

theorem text_setText_cases (s : State) (n : Nat) (v : TextObj) (i : Nat) :
    (s.setText n v).text i = s.text i ∨
    ((s.setText n v).text i = v ∧ i = n ∧ n < s.texts.length) := by
  by_cases h : n = i
  · subst h
    by_cases h2 : n < s.texts.length
    · right
      exact ⟨text_setText_self s n h2 v, rfl, h2⟩
    · left
      unfold State.setText State.text
      rw [List.set_eq_of_length_le (le_of_not_lt h2)]
  · left
    exact text_setText_ne s h v

theorem Inv_setEscaped (s : State) (n : Nat) (hI : Inv s) : Inv (setEscaped s n) := by
  have hset : ∀ m, ((setEscaped s n).ns m).set = (s.ns m).set := setEscaped_ns_set s n
  have hlen : (setEscaped s n).nss.length = s.nss.length := setEscaped_nss_length s n
  constructor
  · exact hI.tmplText
  · intro i hi
    rw [hlen]
    exact hI.tmplNs i hi
  · exact hI.tmplTree
  · exact hI.textCom
  · exact hI.textTree
  · exact hI.assocText
  · intro m hm p hp
    rw [hlen] at hm
    rw [hset] at hp
    exact hI.setTmplLt m hm p hp
  · intro m hm p hp
    rw [hlen] at hm
    rw [hset] at hp
    exact hI.setNsEq m hm p hp
  · intro m hm p hp
    rw [hlen] at hm
    rw [hset] at hp
    exact hI.setNameEq m hm p hp
  · intro m hm m2 hm2 p hp q hq hpq
    rw [hlen] at hm hm2
    rw [hset] at hp hq
    exact hI.setInj m hm m2 hm2 p hp q hq hpq
  · intro m hm
    rw [hlen] at hm
    rw [hset]
    exact hI.setKeys m hm
  · exact hI.assocKeys
  · exact hI.assocNameEq
  · exact hI.assocComEq
  · exact hI.comCoh
  · exact hI.treeAssoc
  · exact hI.htmlTree
  · intro i hi he
    have hni : (s.tmpl i).ns < s.nss.length := hI.tmplNs i hi
    by_cases h2 : n = (s.tmpl i).ns
    · rw [show (setEscaped s n).tmpl i = s.tmpl i from rfl] at he ⊢
      rw [← h2]
      exact setEscaped_escaped s n (by rw [h2]; exact hni)
    · rw [show (setEscaped s n).tmpl i = s.tmpl i from rfl] at he ⊢
      rw [setEscaped_ns_ne s h2]
      exact hI.escNs i hi he
  · exact hI.escTree

theorem setTmpl_keepFields (s : State) (n : Nat) (v : TemplateObj)
    (hv : v.text = (s.tmpl n).text ∧ v.tree = (s.tmpl n).tree ∧ v.ns = (s.tmpl n).ns)
    (i : Nat) :
    ((s.setTmpl n v).tmpl i).text = (s.tmpl i).text ∧
    ((s.setTmpl n v).tmpl i).tree = (s.tmpl i).tree ∧
    ((s.setTmpl n v).tmpl i).ns = (s.tmpl i).ns := by
  rcases tmpl_setTmpl_cases s n v i with h | ⟨h, h2, h3⟩
  · rw [h]
    exact ⟨rfl, rfl, rfl⟩
  · subst h2
    rw [h]
    exact hv

theorem escapeTemplateM_stable (s : State) (osc : String → Option String) (tid : Nat)
    (name : String) (i : Nat) :
    ((escapeTemplateM s osc tid name).1.tmpl i).text = (s.tmpl i).text ∧
    ((escapeTemplateM s osc tid name).1.tmpl i).tree = (s.tmpl i).tree ∧
    ((escapeTemplateM s osc tid name).1.tmpl i).ns = (s.tmpl i).ns := by
  unfold escapeTemplateM
  cases osc name with
  | none =>
    dsimp only
    apply setTmpl_keepFields
    exact ⟨rfl, rfl, rfl⟩
  | some e =>
    dsimp only
    apply setTmpl_keepFields
    exact ⟨rfl, rfl, rfl⟩

theorem escapeTemplateM_escapeErr (s : State) (osc : String → Option String) (tid : Nat)
    (name : String) (i : Nat) :
    ((escapeTemplateM s osc tid name).1.tmpl i).escapeErr = (s.tmpl i).escapeErr ∨
    i = tid := by
  by_cases h : i = tid
  · right
    exact h
  · left
    rw [escapeTemplateM_tmpl_ne s osc name (fun h2 => h h2.symm)]

theorem Inv_escapeTemplateM (s : State) (osc : String → Option String) (tid : Nat)
    (name : String) (hI : Inv s)
    (hesc : (s.ns (s.tmpl tid).ns).escaped = true)
    (htree : (s.text (s.tmpl tid).text).ttree ≠ none) :
    Inv (escapeTemplateM s osc tid name).1 := by
  set s2 := (escapeTemplateM s osc tid name).1 with hs2
  have hmm : s2.texts = s.texts := escapeTemplateM_texts s osc tid name
  have hcc : s2.commons = s.commons := escapeTemplateM_commons s osc tid name
  have hnn : s2.nss = s.nss := escapeTemplateM_nss s osc tid name
  have htt : s2.trees = s.trees := escapeTemplateM_trees s osc tid name
  have hlen : s2.tmpls.length = s.tmpls.length := escapeTemplateM_tmpls_length s osc tid name
  have hst : ∀ i, (s2.tmpl i).text = (s.tmpl i).text ∧ (s2.tmpl i).tree = (s.tmpl i).tree ∧
      (s2.tmpl i).ns = (s.tmpl i).ns := escapeTemplateM_stable s osc tid name
  have htext : ∀ i, s2.text i = s.text i := fun i => by unfold State.text; rw [hmm]
  have hcom : ∀ i, s2.common i = s.common i := fun i => by unfold State.common; rw [hcc]
  have hns : ∀ i, s2.ns i = s.ns i := fun i => by unfold State.ns; rw [hnn]
  have herr : ∀ i, (s2.tmpl i).escapeErr = (s.tmpl i).escapeErr ∨ i = tid :=
    escapeTemplateM_escapeErr s osc tid name
  constructor
  · intro i hi
    rw [hlen] at hi
    rw [(hst i).1, hmm]
    exact hI.tmplText i hi
  · intro i hi
    rw [hlen] at hi
    rw [(hst i).2.2, hnn]
    exact hI.tmplNs i hi
  · intro i hi tr h
    rw [hlen] at hi
    rw [(hst i).2.1] at h
    rw [htt]
    exact hI.tmplTree i hi tr h
  · intro i hi
    rw [hmm] at hi
    rw [htext, hcc]
    exact hI.textCom i hi
  · intro i hi tr h
    rw [hmm] at hi
    rw [htext] at h
    rw [htt]
    exact hI.textTree i hi tr h
  · intro c hc p hp
    rw [hcc] at hc
    rw [hcom] at hp
    rw [hmm]
    exact hI.assocText c hc p hp
  · intro m hm p hp
    rw [hnn] at hm
    rw [hns] at hp
    rw [hlen]
    exact hI.setTmplLt m hm p hp
  · intro m hm p hp
    rw [hnn] at hm
    rw [hns] at hp
    rw [(hst p.2).2.2]
    exact hI.setNsEq m hm p hp
  · intro m hm p hp
    rw [hnn] at hm
    rw [hns] at hp
    unfold State.tmplName
    rw [(hst p.2).1, htext]
    exact hI.setNameEq m hm p hp
  · intro m hm m2 hm2 p hp q hq hpq
    rw [hnn] at hm hm2
    rw [hns] at hp hq
    exact hI.setInj m hm m2 hm2 p hp q hq hpq
  · intro m hm
    rw [hnn] at hm
    rw [hns]
    exact hI.setKeys m hm
  · intro c hc
    rw [hcc] at hc
    rw [hcom]
    exact hI.assocKeys c hc
  · intro c hc p hp
    rw [hcc] at hc
    rw [hcom] at hp
    rw [htext]
    exact hI.assocNameEq c hc p hp
  · intro c hc p hp
    rw [hcc] at hc
    rw [hcom] at hp
    rw [htext]
    exact hI.assocComEq c hc p hp
  · intro i hi j hj hij
    rw [hlen] at hi hj
    rw [(hst i).2.2, (hst j).2.2] at hij
    rw [(hst i).1, (hst j).1, htext, htext]
    exact hI.comCoh i hi j hj hij
  · intro i hi h
    rw [hmm] at hi
    rw [htext] at h ⊢
    rw [hcom]
    exact hI.treeAssoc i hi h
  · intro i hi h
    rw [hlen] at hi
    rw [(hst i).2.1] at h
    rw [(hst i).1, htext]
    exact hI.htmlTree i hi h
  · intro i hi he
    rw [hlen] at hi
    rw [hns, (hst i).2.2]
    rcases herr i with h | h
    · rw [h] at he
      exact hI.escNs i hi he
    · subst h
      exact hesc
  · intro i hi he
    rw [hlen] at hi
    rw [(hst i).1, htext]
    rcases herr i with h | h
    · rw [h] at he
      exact hI.escTree i hi he
    · subst h
      exact htree

/-! ## Invariant preservation: the execute path -/

theorem hExecute_fst (s : State) (osc : String → Option String) (t : Nat) :
    (hExecute s osc t).1 = (hEscape s osc t).1 := by
  unfold hExecute
  cases h : hEscape s osc t with
  | mk s1 r => cases r <;> simp [h]

theorem hExecuteTemplate_fst (s : State) (osc : String → Option String) (t : Nat)
    (name : String) :
    (hExecuteTemplate s osc t name).1 = (lookupAndEscape s osc t name).1 := by
  unfold hExecuteTemplate
  cases h : lookupAndEscape s osc t name with
  | mk s1 r => cases r <;> simp [h]

theorem Inv_hEscape (s : State) (osc : String → Option String) (t : Nat) (hI : Inv s)
    (ht : t < s.tmpls.length) : Inv (hEscape s osc t).1 := by
  cases he : (s.tmpl t).escapeErr with
  | ok =>
    rw [hEscape_ok s osc t he]
    exact Inv_setEscaped s _ hI
  | failed e =>
    rw [hEscape_failed s osc t e he]
    exact Inv_setEscaped s _ hI
  | unset =>
    cases htr : (s.tmpl t).tree with
    | none =>
      rw [hEscape_incomplete s osc t he htr]
      exact Inv_setEscaped s _ hI
    | some tr =>
      rw [hEscape_unset s osc t tr he htr]
      have hI1 : Inv (setEscaped s (s.tmpl t).ns) := Inv_setEscaped s _ hI
      have hesc2 : ((setEscaped s (s.tmpl t).ns).ns
          ((setEscaped s (s.tmpl t).ns).tmpl t).ns).escaped = true := by
        rw [setEscaped_tmpl]
        exact setEscaped_escaped s _ (hI.tmplNs t ht)
      have htree2 : ((setEscaped s (s.tmpl t).ns).text
          ((setEscaped s (s.tmpl t).ns).tmpl t).text).ttree ≠ none := by
        rw [setEscaped_tmpl, setEscaped_text]
        exact hI.htmlTree t ht (by rw [htr]; simp)
      have hred : (match (escapeTemplateM (setEscaped s (s.tmpl t).ns) osc t
            (s.tmplName t)).2 with
          | some e => ((escapeTemplateM (setEscaped s (s.tmpl t).ns) osc t
              (s.tmplName t)).1, some (Err.escapeFailed e))
          | none => ((escapeTemplateM (setEscaped s (s.tmpl t).ns) osc t
              (s.tmplName t)).1, (none : Option Err))).1 =
          (escapeTemplateM (setEscaped s (s.tmpl t).ns) osc t (s.tmplName t)).1 := by
        cases (escapeTemplateM (setEscaped s (s.tmpl t).ns) osc t (s.tmplName t)).2 <;> rfl
      rw [hred]
      exact Inv_escapeTemplateM _ osc t _ hI1 hesc2 htree2

theorem Inv_hExecute (s : State) (osc : String → Option String) (t : Nat) (hI : Inv s)
    (ht : t < s.tmpls.length) : Inv (hExecute s osc t).1 := by
  rw [hExecute_fst]
  exact Inv_hEscape s osc t hI ht

theorem Inv_lookupAndEscape (s : State) (osc : String → Option String) (t : Nat)
    (name : String) (hI : Inv s) (ht : t < s.tmpls.length) :
    Inv (lookupAndEscape s osc t name).1 := by
  have hI1 : Inv (setEscaped s (s.tmpl t).ns) := Inv_setEscaped s _ hI
  have hnst : (s.tmpl t).ns < s.nss.length := hI.tmplNs t ht
  unfold lookupAndEscape
  simp only [setEscaped_tmpl, setEscaped_text, setEscaped_ns_set]
  split
  · exact hI1
  · rename_i tid heq
    have hmem : (name, tid) ∈ (s.ns (s.tmpl t).ns).set := alookup_mem heq
    have htid : tid < s.tmpls.length := hI.setTmplLt _ hnst _ hmem
    have hnstid : (s.tmpl tid).ns = (s.tmpl t).ns := hI.setNsEq _ hnst _ hmem
    split
    · exact hI1
    · split
      · exact hI1
      · split
        · exact hI1
        · exact hI1
    · split
      · exact hI1
      · split
        · exact hI1
        · rename_i htr0 hlk0
          have htree2 : ((setEscaped s (s.tmpl t).ns).text
              ((setEscaped s (s.tmpl t).ns).tmpl tid).text).ttree ≠ none := by
            rw [setEscaped_tmpl, setEscaped_text]
            intro hc
            apply htr0
            rw [hc]
            rfl
          have hesc2 : ((setEscaped s (s.tmpl t).ns).ns
              ((setEscaped s (s.tmpl t).ns).tmpl tid).ns).escaped = true := by
            rw [setEscaped_tmpl, hnstid]
            exact setEscaped_escaped s _ hnst
          have hred : (match (escapeTemplateM (setEscaped s (s.tmpl t).ns) osc tid
                name).2 with
              | some e => ((escapeTemplateM (setEscaped s (s.tmpl t).ns) osc tid
                  name).1, LookupResult.err (Err.escapeFailed e))
              | none => ((escapeTemplateM (setEscaped s (s.tmpl t).ns) osc tid
                  name).1, LookupResult.found tid)).1 =
              (escapeTemplateM (setEscaped s (s.tmpl t).ns) osc tid name).1 := by
            cases (escapeTemplateM (setEscaped s (s.tmpl t).ns) osc tid name).2 <;> rfl
          rw [hred]
          exact Inv_escapeTemplateM _ osc tid _ hI1 hesc2 htree2

theorem Inv_hExecuteTemplate (s : State) (osc : String → Option String) (t : Nat)
    (name : String) (hI : Inv s) (ht : t < s.tmpls.length) :
    Inv (hExecuteTemplate s osc t name).1 := by
  rw [hExecuteTemplate_fst]
  exact Inv_lookupAndEscape s osc t name hI ht

/-! ## Invariant preservation: top-level New -/

theorem hTopNew_tmpl_len (s : State) (name : String) :
    (hTopNew s name).1.tmpl s.tmpls.length =
      ⟨.unset, s.texts.length, none, s.nss.length, 0⟩ := by
  rw [hTopNew_eq]
  unfold State.tmpl
  exact getD_append_len _ _ _

theorem hTopNew_text_len (s : State) (name : String) :
    (hTopNew s name).1.text s.texts.length = ⟨name, none, s.commons.length⟩ := by
  rw [hTopNew_eq]
  unfold State.text
  exact getD_append_len _ _ _

theorem hTopNew_common_len (s : State) (name : String) :
    (hTopNew s name).1.common s.commons.length = ⟨[]⟩ := by
  rw [hTopNew_eq]
  unfold State.common
  exact getD_append_len _ _ _

theorem hTopNew_ns_len (s : State) (name : String) :
    (hTopNew s name).1.ns s.nss.length = ⟨[(name, s.tmpls.length)], false⟩ := by
  rw [hTopNew_eq]
  unfold State.ns
  exact getD_append_len _ _ _

theorem hTopNew_lengths (s : State) (name : String) :
    (hTopNew s name).1.tmpls.length = s.tmpls.length + 1 ∧
    (hTopNew s name).1.texts.length = s.texts.length + 1 ∧
    (hTopNew s name).1.commons.length = s.commons.length + 1 ∧
    (hTopNew s name).1.nss.length = s.nss.length + 1 ∧
    (hTopNew s name).1.trees = s.trees := by
  rw [hTopNew_eq]
  simp

theorem Inv_hTopNew (s : State) (name : String) (hI : Inv s) :
    Inv (hTopNew s name).1 := by
  obtain ⟨hLtm, hLtx, hLc, hLn, hTr⟩ := hTopNew_lengths s name
  have htree : ∀ i, (hTopNew s name).1.tree i = s.tree i := fun i => by
    unfold State.tree
    rw [hTr]
  constructor
  · intro i hi
    rw [hLtm] at hi
    rw [hLtx]
    rcases Nat.lt_succ_iff_lt_or_eq.1 hi with h | h
    · rw [hTopNew_tmpl_lt s name h]
      exact Nat.lt_succ_of_lt (hI.tmplText i h)
    · subst h
      rw [hTopNew_tmpl_len]
      exact Nat.lt_succ_self _
  · intro i hi
    rw [hLtm] at hi
    rw [hLn]
    rcases Nat.lt_succ_iff_lt_or_eq.1 hi with h | h
    · rw [hTopNew_tmpl_lt s name h]
      exact Nat.lt_succ_of_lt (hI.tmplNs i h)
    · subst h
      rw [hTopNew_tmpl_len]
      exact Nat.lt_succ_self _
  · intro i hi tr h
    rw [hLtm] at hi
    rw [hTr]
    rcases Nat.lt_succ_iff_lt_or_eq.1 hi with h2 | h2
    · rw [hTopNew_tmpl_lt s name h2] at h
      exact hI.tmplTree i h2 tr h
    · subst h2
      rw [hTopNew_tmpl_len] at h
      simp at h
  · intro i hi
    rw [hLtx] at hi
    rw [hLc]
    rcases Nat.lt_succ_iff_lt_or_eq.1 hi with h | h
    · rw [hTopNew_text_lt s name h]
      exact Nat.lt_succ_of_lt (hI.textCom i h)
    · subst h
      rw [hTopNew_text_len]
      exact Nat.lt_succ_self _
  · intro i hi tr h
    rw [hLtx] at hi
    rw [hTr]
    rcases Nat.lt_succ_iff_lt_or_eq.1 hi with h2 | h2
    · rw [hTopNew_text_lt s name h2] at h
      exact hI.textTree i h2 tr h
    · subst h2
      rw [hTopNew_text_len] at h
      simp at h
  · intro c hc p hp
    rw [hLc] at hc
    rw [hLtx]
    rcases Nat.lt_succ_iff_lt_or_eq.1 hc with h | h
    · rw [hTopNew_common_lt s name h] at hp
      exact Nat.lt_succ_of_lt (hI.assocText c h p hp)
    · subst h
      rw [hTopNew_common_len] at hp
      simp at hp
  · intro m hm p hp
    rw [hLn] at hm
    rw [hLtm]
    rcases Nat.lt_succ_iff_lt_or_eq.1 hm with h | h
    · rw [hTopNew_ns_lt s name h] at hp
      exact Nat.lt_succ_of_lt (hI.setTmplLt m h p hp)
    · subst h
      rw [hTopNew_ns_len] at hp
      simp at hp
      subst hp
      exact Nat.lt_succ_self _
  · intro m hm p hp
    rw [hLn] at hm
    rcases Nat.lt_succ_iff_lt_or_eq.1 hm with h | h
    · rw [hTopNew_ns_lt s name h] at hp
      rw [hTopNew_tmpl_lt s name (hI.setTmplLt m h p hp)]
      exact hI.setNsEq m h p hp
    · subst h
      rw [hTopNew_ns_len] at hp
      simp at hp
      subst hp
      show ((hTopNew s name).1.tmpl s.tmpls.length).ns = s.nss.length
      rw [hTopNew_tmpl_len]
  · intro m hm p hp
    rw [hLn] at hm
    rcases Nat.lt_succ_iff_lt_or_eq.1 hm with h | h
    · rw [hTopNew_ns_lt s name h] at hp
      unfold State.tmplName
      rw [hTopNew_tmpl_lt s name (hI.setTmplLt m h p hp),
        hTopNew_text_lt s name (hI.tmplText p.2 (hI.setTmplLt m h p hp))]
      exact hI.setNameEq m h p hp
    · subst h
      rw [hTopNew_ns_len] at hp
      simp at hp
      subst hp
      unfold State.tmplName
      show ((hTopNew s name).1.text
        ((hTopNew s name).1.tmpl s.tmpls.length).text).tname = name
      rw [hTopNew_tmpl_len]
      show ((hTopNew s name).1.text s.texts.length).tname = name
      rw [hTopNew_text_len]
  · intro m hm m2 hm2 p hp q hq hpq
    rw [hLn] at hm hm2
    rcases Nat.lt_succ_iff_lt_or_eq.1 hm with h | h <;>
      rcases Nat.lt_succ_iff_lt_or_eq.1 hm2 with h2 | h2
    · rw [hTopNew_ns_lt s name h] at hp
      rw [hTopNew_ns_lt s name h2] at hq
      exact hI.setInj m h m2 h2 p hp q hq hpq
    · subst h2
      rw [hTopNew_ns_lt s name h] at hp
      rw [hTopNew_ns_len] at hq
      simp at hq
      subst hq
      exfalso
      have := hI.setTmplLt m h p hp
      rw [hpq] at this
      exact Nat.lt_irrefl _ this
    · subst h
      rw [hTopNew_ns_lt s name h2] at hq
      rw [hTopNew_ns_len] at hp
      simp at hp
      subst hp
      exfalso
      have := hI.setTmplLt m2 h2 q hq
      rw [← hpq] at this
      exact Nat.lt_irrefl _ this
    · subst h
      subst h2
      rw [hTopNew_ns_len] at hp hq
      simp at hp hq
      subst hp
      subst hq
      exact ⟨rfl, rfl⟩
  · intro m hm
    rw [hLn] at hm
    rcases Nat.lt_succ_iff_lt_or_eq.1 hm with h | h
    · rw [hTopNew_ns_lt s name h]
      exact hI.setKeys m h
    · subst h
      rw [hTopNew_ns_len]
      simp
  · intro c hc
    rw [hLc] at hc
    rcases Nat.lt_succ_iff_lt_or_eq.1 hc with h | h
    · rw [hTopNew_common_lt s name h]
      exact hI.assocKeys c h
    · subst h
      rw [hTopNew_common_len]
      simp
  · intro c hc p hp
    rw [hLc] at hc
    rcases Nat.lt_succ_iff_lt_or_eq.1 hc with h | h
    · rw [hTopNew_common_lt s name h] at hp
      rw [hTopNew_text_lt s name (hI.assocText c h p hp)]
      exact hI.assocNameEq c h p hp
    · subst h
      rw [hTopNew_common_len] at hp
      simp at hp
  · intro c hc p hp
    rw [hLc] at hc
    rcases Nat.lt_succ_iff_lt_or_eq.1 hc with h | h
    · rw [hTopNew_common_lt s name h] at hp
      rw [hTopNew_text_lt s name (hI.assocText c h p hp)]
      exact hI.assocComEq c h p hp
    · subst h
      rw [hTopNew_common_len] at hp
      simp at hp
  · intro i hi j hj hij
    rw [hLtm] at hi hj
    rcases Nat.lt_succ_iff_lt_or_eq.1 hi with h | h <;>
      rcases Nat.lt_succ_iff_lt_or_eq.1 hj with h2 | h2
    · rw [hTopNew_tmpl_lt s name h] at hij ⊢
      rw [hTopNew_tmpl_lt s name h2] at hij ⊢
      rw [hTopNew_text_lt s name (hI.tmplText i h),
        hTopNew_text_lt s name (hI.tmplText j h2)]
      exact hI.comCoh i h j h2 hij
    · subst h2
      exfalso
      rw [hTopNew_tmpl_lt s name h, hTopNew_tmpl_len] at hij
      have := hI.tmplNs i h
      rw [hij] at this
      exact Nat.lt_irrefl _ this
    · subst h
      exfalso
      rw [hTopNew_tmpl_lt s name h2, hTopNew_tmpl_len] at hij
      have := hI.tmplNs j h2
      rw [← hij] at this
      exact Nat.lt_irrefl _ this
    · subst h
      subst h2
      rfl
  · intro i hi h
    rw [hLtx] at hi
    rcases Nat.lt_succ_iff_lt_or_eq.1 hi with h2 | h2
    · rw [hTopNew_text_lt s name h2] at h ⊢
      rw [hTopNew_common_lt s name (hI.textCom i h2)]
      exact hI.treeAssoc i h2 h
    · subst h2
      rw [hTopNew_text_len] at h
      simp at h
  · intro i hi h
    rw [hLtm] at hi
    rcases Nat.lt_succ_iff_lt_or_eq.1 hi with h2 | h2
    · rw [hTopNew_tmpl_lt s name h2] at h ⊢
      rw [hTopNew_text_lt s name (hI.tmplText i h2)]
      exact hI.htmlTree i h2 h
    · subst h2
      rw [hTopNew_tmpl_len] at h
      simp at h
  · intro i hi h
    rw [hLtm] at hi
    rcases Nat.lt_succ_iff_lt_or_eq.1 hi with h2 | h2
    · rw [hTopNew_tmpl_lt s name h2] at h ⊢
      rw [hTopNew_ns_lt s name (hI.tmplNs i h2)]
      exact hI.escNs i h2 h
    · subst h2
      rw [hTopNew_tmpl_len] at h
      simp at h
  · intro i hi h
    rw [hLtm] at hi
    rcases Nat.lt_succ_iff_lt_or_eq.1 hi with h2 | h2
    · rw [hTopNew_tmpl_lt s name h2] at h ⊢
      rw [hTopNew_text_lt s name (hI.tmplText i h2)]
      exact hI.escTree i h2 h
    · subst h2
      rw [hTopNew_tmpl_len] at h
      simp at h

/-! ## Invariant preservation: generic building blocks -/

theorem Inv_pushText (s : State) (v : TextObj) (hI : Inv s)
    (h1 : v.tcommon < s.commons.length)
    (h2 : v.ttree = none) :
    Inv { s with texts := s.texts ++ [v] } := by
  set s2 : State := { s with texts := s.texts ++ [v] } with hs2
  have htx : ∀ i, i < s.texts.length → s2.text i = s.text i := fun i h => by
    unfold State.text
    exact getD_append_lt _ _ _ _ h
  have htxN : s2.text s.texts.length = v := by
    unfold State.text
    exact getD_append_len _ _ _
  have hcase : ∀ i, i < s2.texts.length → (i < s.texts.length ∧ s2.text i = s.text i) ∨
      (i = s.texts.length ∧ s2.text i = v) := by
    intro i hi
    rcases lt_append_one hi with h | h
    · exact Or.inl ⟨h, htx i h⟩
    · exact Or.inr ⟨h, h ▸ htxN⟩
  have htmr : ∀ i, s2.tmpl i = s.tmpl i := fun i => rfl
  constructor
  · intro i hi
    have : s2.tmpls.length = s.tmpls.length := rfl
    rw [this] at hi
    show (s.tmpl i).text < s2.texts.length
    calc (s.tmpl i).text < s.texts.length := hI.tmplText i hi
    _ ≤ s2.texts.length := by simp [hs2]
  · exact hI.tmplNs
  · exact hI.tmplTree
  · intro i hi
    rcases hcase i hi with ⟨h, he⟩ | ⟨h, he⟩
    · rw [he]
      exact hI.textCom i h
    · rw [he]
      exact h1
  · intro i hi tr h
    rcases hcase i hi with ⟨h2a, he⟩ | ⟨h2a, he⟩
    · rw [he] at h
      exact hI.textTree i h2a tr h
    · rw [he, h2] at h
      cases h
  · intro c hc p hp
    show p.2 < s2.texts.length
    calc p.2 < s.texts.length := hI.assocText c hc p hp
    _ ≤ s2.texts.length := by simp [hs2]
  · exact hI.setTmplLt
  · exact hI.setNsEq
  · intro m hm p hp
    unfold State.tmplName
    rw [htmr]
    rw [htx _ (hI.tmplText p.2 (hI.setTmplLt m hm p hp))]
    exact hI.setNameEq m hm p hp
  · exact hI.setInj
  · exact hI.setKeys
  · exact hI.assocKeys
  · intro c hc p hp
    rw [htx _ (hI.assocText c hc p hp)]
    exact hI.assocNameEq c hc p hp
  · intro c hc p hp
    rw [htx _ (hI.assocText c hc p hp)]
    exact hI.assocComEq c hc p hp
  · intro i hi j hj hij
    rw [htmr i, htmr j] at hij ⊢
    rw [htx _ (hI.tmplText i hi), htx _ (hI.tmplText j hj)]
    exact hI.comCoh i hi j hj hij
  · intro i hi h
    rcases hcase i hi with ⟨h2a, he⟩ | ⟨h2a, he⟩
    · rw [he] at h ⊢
      exact hI.treeAssoc i h2a h
    · rw [he] at h
      exact absurd h2 h
  · intro i hi h
    rw [htmr i] at h ⊢
    rw [htx _ (hI.tmplText i hi)]
    exact hI.htmlTree i hi h
  · exact hI.escNs
  · intro i hi h
    rw [htmr i] at h ⊢
    rw [htx _ (hI.tmplText i hi)]
    exact hI.escTree i hi h

theorem Inv_pushTmpl (s : State) (v : TemplateObj) (hI : Inv s)
    (h1 : v.escapeErr = .unset) (h2 : v.text < s.texts.length)
    (h3 : v.ns < s.nss.length)
    (h4 : v.tree = (s.text v.text).ttree)
    (h5 : ∀ j, j < s.tmpls.length → (s.tmpl j).ns = v.ns →
      (s.text (s.tmpl j).text).tcommon = (s.text v.text).tcommon) :
    Inv { s with tmpls := s.tmpls ++ [v] } := by
  set s2 : State := { s with tmpls := s.tmpls ++ [v] } with hs2
  have htm : ∀ i, i < s.tmpls.length → s2.tmpl i = s.tmpl i := fun i h => by
    unfold State.tmpl
    exact getD_append_lt _ _ _ _ h
  have htmN : s2.tmpl s.tmpls.length = v := by
    unfold State.tmpl
    exact getD_append_len _ _ _
  have hcase : ∀ i, i < s2.tmpls.length → (i < s.tmpls.length ∧ s2.tmpl i = s.tmpl i) ∨
      (i = s.tmpls.length ∧ s2.tmpl i = v) := by
    intro i hi
    rcases lt_append_one hi with h | h
    · exact Or.inl ⟨h, htm i h⟩
    · exact Or.inr ⟨h, h ▸ htmN⟩
  have hlen : s.tmpls.length ≤ s2.tmpls.length := by simp [hs2]
  constructor
  · intro i hi
    rcases hcase i hi with ⟨h, he⟩ | ⟨h, he⟩
    · rw [he]
      exact hI.tmplText i h
    · rw [he]
      exact h2
  · intro i hi
    rcases hcase i hi with ⟨h, he⟩ | ⟨h, he⟩
    · rw [he]
      exact hI.tmplNs i h
    · rw [he]
      exact h3
  · intro i hi tr h
    rcases hcase i hi with ⟨ha, he⟩ | ⟨ha, he⟩
    · rw [he] at h
      exact hI.tmplTree i ha tr h
    · rw [he, h4] at h
      exact hI.textTree v.text h2 tr h
  · exact hI.textCom
  · exact hI.textTree
  · exact hI.assocText
  · intro m hm p hp
    show p.2 < s2.tmpls.length
    exact Nat.lt_of_lt_of_le (hI.setTmplLt m hm p hp) hlen
  · intro m hm p hp
    rw [htm _ (hI.setTmplLt m hm p hp)]
    exact hI.setNsEq m hm p hp
  · intro m hm p hp
    unfold State.tmplName
    rw [htm _ (hI.setTmplLt m hm p hp)]
    exact hI.setNameEq m hm p hp
  · exact hI.setInj
  · exact hI.setKeys
  · exact hI.assocKeys
  · exact hI.assocNameEq
  · exact hI.assocComEq
  · intro i hi j hj hij
    rcases hcase i hi with ⟨ha, he⟩ | ⟨ha, he⟩ <;>
      rcases hcase j hj with ⟨hb, hf⟩ | ⟨hb, hf⟩
    · rw [he, hf] at hij ⊢
      exact hI.comCoh i ha j hb hij
    · rw [he, hf] at hij ⊢
      exact h5 i ha hij
    · rw [he, hf] at hij ⊢
      exact (h5 j hb hij.symm).symm
    · rw [he, hf]
  · exact hI.treeAssoc
  · intro i hi h
    rcases hcase i hi with ⟨ha, he⟩ | ⟨ha, he⟩
    · rw [he] at h ⊢
      exact hI.htmlTree i ha h
    · rw [he] at h ⊢
      rw [h4] at h
      exact h
  · intro i hi h
    rcases hcase i hi with ⟨ha, he⟩ | ⟨ha, he⟩
    · rw [he] at h ⊢
      exact hI.escNs i ha h
    · rw [he] at h
      rw [h1] at h
      exact absurd rfl h
  · intro i hi h
    rcases hcase i hi with ⟨ha, he⟩ | ⟨ha, he⟩
    · rw [he] at h ⊢
      exact hI.escTree i ha h
    · rw [he] at h
      rw [h1] at h
      exact absurd rfl h

theorem Inv_rebind (s : State) (nsId id : Nat) (name : String) (hI : Inv s)
    (hns : nsId < s.nss.length)
    (hid1 : (s.tmpl id).ns = nsId)
    (hid2 : s.tmplName id = name)
    (hid3 : ∀ m, m < s.nss.length → ∀ p, p ∈ (s.ns m).set → p.2 ≠ id)
    (hid4 : id < s.tmpls.length) :
    Inv (s.setNs nsId { s.ns nsId with set := aset (s.ns nsId).set name id }) := by
  set s2 := s.setNs nsId { s.ns nsId with set := aset (s.ns nsId).set name id } with hs2
  have hlen : s2.nss.length = s.nss.length := by
    simp [hs2, State.setNs]
  have hnsm : ∀ m, m < s.nss.length → m ≠ nsId → s2.ns m = s.ns m := fun m hm hne => by
    rw [hs2]
    exact ns_setNs_ne s (fun h => hne h.symm) _
  have hnsSelf : s2.ns nsId = { s.ns nsId with set := aset (s.ns nsId).set name id } := by
    rw [hs2]
    exact ns_setNs_self s nsId hns _
  have hmem : ∀ m, m < s.nss.length → ∀ p, p ∈ (s2.ns m).set →
      (m = nsId ∧ p = (name, id)) ∨ (p ∈ (s.ns m).set ∧ (m = nsId → p.1 ≠ name)) := by
    intro m hm p hp
    by_cases he : m = nsId
    · subst he
      rw [hnsSelf] at hp
      rcases mem_aset (hI.setKeys m hm) hp with h | h
      · exact Or.inl ⟨rfl, h⟩
      · exact Or.inr ⟨h.1, fun _ => h.2⟩
    · rw [hnsm m hm he] at hp
      exact Or.inr ⟨hp, fun hc => absurd hc he⟩
  have htmr : ∀ i, s2.tmpl i = s.tmpl i := fun i => rfl
  have htxr : ∀ i, s2.text i = s.text i := fun i => rfl
  have hcmr : ∀ i, s2.common i = s.common i := fun i => rfl
  have hesc : ∀ m, ((s2.ns m).escaped) = (s.ns m).escaped := by
    intro m
    by_cases he : m = nsId
    · subst he
      by_cases hm : m < s.nss.length
      · rw [hnsSelf]
      · have : s2.ns m = s.ns m := by
          rw [hs2]
          unfold State.setNs State.ns
          rw [List.set_eq_of_length_le (le_of_not_lt hm)]
        rw [this]
    · by_cases hm : m < s.nss.length
      · rw [hnsm m hm he]
      · rw [hs2]
        rw [ns_setNs_ne s (fun h => he h.symm)]
  constructor
  · exact hI.tmplText
  · intro i hi
    rw [hlen]
    exact hI.tmplNs i hi
  · exact hI.tmplTree
  · exact hI.textCom
  · exact hI.textTree
  · exact hI.assocText
  · intro m hm p hp
    rw [hlen] at hm
    rcases hmem m hm p hp with ⟨he, hp2⟩ | ⟨hp2, _⟩
    · rw [hp2]
      exact hid4
    · exact hI.setTmplLt m hm p hp2
  · intro m hm p hp
    rw [hlen] at hm
    rw [htmr]
    rcases hmem m hm p hp with ⟨he, hp2⟩ | ⟨hp2, _⟩
    · rw [hp2, he]
      exact hid1
    · exact hI.setNsEq m hm p hp2
  · intro m hm p hp
    rw [hlen] at hm
    rcases hmem m hm p hp with ⟨he, hp2⟩ | ⟨hp2, _⟩
    · rw [hp2]
      exact hid2
    · exact hI.setNameEq m hm p hp2
  · intro m hm m2 hm2 p hp q hq hpq
    rw [hlen] at hm hm2
    rcases hmem m hm p hp with ⟨he, hp2⟩ | ⟨hp2, hpn⟩ <;>
      rcases hmem m2 hm2 q hq with ⟨he2, hq2⟩ | ⟨hq2, hqn⟩
    · rw [he, he2]
      rw [hp2, hq2]
      exact ⟨rfl, rfl⟩
    · exfalso
      apply hid3 m2 hm2 q hq2
      rw [← hpq, hp2]
    · exfalso
      apply hid3 m hm p hp2
      rw [hpq, hq2]
    · exact hI.setInj m hm m2 hm2 p hp2 q hq2 hpq
  · intro m hm
    rw [hlen] at hm
    by_cases he : m = nsId
    · subst he
      rw [hnsSelf]
      exact aset_keys_nodup _ _ (hI.setKeys m hm)
    · rw [hnsm m hm he]
      exact hI.setKeys m hm
  · exact hI.assocKeys
  · exact hI.assocNameEq
  · exact hI.assocComEq
  · exact hI.comCoh
  · exact hI.treeAssoc
  · exact hI.htmlTree
  · intro i hi h
    rw [htmr] at h ⊢
    rw [hesc]
    exact hI.escNs i hi h
  · exact hI.escTree

theorem Inv_setUnbound (s : State) (ex : Nat) (w : TemplateObj) (hI : Inv s)
    (hub : ∀ m, m < s.nss.length → ∀ p, p ∈ (s.ns m).set → p.2 ≠ ex)
    (h1 : w.escapeErr = .unset) (h2 : w.tree = none)
    (h3 : w.text < s.texts.length) (h4 : w.ns < s.nss.length)
    (h5 : ∀ j, j < s.tmpls.length → j ≠ ex → (s.tmpl j).ns = w.ns →
      (s.text (s.tmpl j).text).tcommon = (s.text w.text).tcommon) :
    Inv (s.setTmpl ex w) := by
  set s2 := s.setTmpl ex w with hs2
  have hlen : s2.tmpls.length = s.tmpls.length := by
    simp [hs2, State.setTmpl]
  have hcase : ∀ i, s2.tmpl i = s.tmpl i ∨ (s2.tmpl i = w ∧ i = ex ∧ ex < s.tmpls.length) :=
    fun i => tmpl_setTmpl_cases s ex w i
  have htxr : ∀ i, s2.text i = s.text i := fun i => rfl
  have hcmr : ∀ i, s2.common i = s.common i := fun i => rfl
  have hnsr : ∀ i, s2.ns i = s.ns i := fun i => rfl
  constructor
  · intro i hi
    rcases hcase i with h | ⟨h, _, _⟩
    · rw [h]
      exact hI.tmplText i (by rw [← hlen]; exact hi)
    · rw [h]
      exact h3
  · intro i hi
    rcases hcase i with h | ⟨h, _, _⟩
    · rw [h]
      exact hI.tmplNs i (by rw [← hlen]; exact hi)
    · rw [h]
      exact h4
  · intro i hi tr h
    rcases hcase i with hc | ⟨hc, _, _⟩
    · rw [hc] at h
      exact hI.tmplTree i (by rw [← hlen]; exact hi) tr h
    · rw [hc, h2] at h
      cases h
  · exact hI.textCom
  · exact hI.textTree
  · exact hI.assocText
  · intro m hm p hp
    rw [hlen]
    exact hI.setTmplLt m hm p hp
  · intro m hm p hp
    rcases hcase p.2 with h | ⟨h, he, _⟩
    · rw [h]
      exact hI.setNsEq m hm p hp
    · exact absurd he (hub m hm p hp)
  · intro m hm p hp
    unfold State.tmplName
    rcases hcase p.2 with h | ⟨h, he, _⟩
    · rw [h, htxr]
      exact hI.setNameEq m hm p hp
    · exact absurd he (hub m hm p hp)
  · exact hI.setInj
  · exact hI.setKeys
  · exact hI.assocKeys
  · exact hI.assocNameEq
  · exact hI.assocComEq
  · intro i hi j hj hij
    rw [hlen] at hi hj
    rcases hcase i with h | ⟨h, he, hex⟩ <;> rcases hcase j with h2a | ⟨h2a, he2, hex2⟩
    · rw [h, h2a] at hij
      rw [h, h2a, htxr, htxr]
      exact hI.comCoh i hi j hj hij
    · rw [h, h2a] at hij
      rw [h, h2a, htxr, htxr]
      by_cases hie : i = ex
      · have hw : s.tmpl i = w := by
          rw [← h, hie, ← he2, h2a]
        rw [hw]
      · exact h5 i hi hie hij
    · rw [h, h2a] at hij
      rw [h, h2a, htxr, htxr]
      by_cases hje : j = ex
      · have hw : s.tmpl j = w := by
          rw [← h2a, hje, ← he, h]
        rw [hw]
      · exact (h5 j hj hje hij.symm).symm
    · rw [h, h2a]
  · exact hI.treeAssoc
  · intro i hi h
    rcases hcase i with hc | ⟨hc, _, _⟩
    · rw [hc] at h ⊢
      rw [htxr]
      exact hI.htmlTree i (by rw [← hlen]; exact hi) h
    · rw [hc, h2] at h
      exact absurd rfl h
  · intro i hi h
    rcases hcase i with hc | ⟨hc, _, _⟩
    · rw [hc] at h ⊢
      rw [hnsr]
      exact hI.escNs i (by rw [← hlen]; exact hi) h
    · rw [hc, h1] at h
      exact absurd rfl h
  · intro i hi h
    rcases hcase i with hc | ⟨hc, _, _⟩
    · rw [hc] at h ⊢
      rw [htxr]
      exact hI.escTree i (by rw [← hlen]; exact hi) h
    · rw [hc, h1] at h
      exact absurd rfl h

theorem Inv_overwrite_rebind (u : State) (nsId ex id : Nat) (name : String)
    (w : TemplateObj) (hIu : Inv u)
    (hns : nsId < u.nss.length)
    (hid1 : (u.tmpl id).ns = nsId) (hid2 : u.tmplName id = name)
    (hid3 : ∀ m, m < u.nss.length → ∀ p, p ∈ (u.ns m).set → p.2 ≠ id)
    (hid4 : id < u.tmpls.length)
    (hex : ∀ m, m < u.nss.length → ∀ p, p ∈ (u.ns m).set → p.2 = ex →
      (m = nsId ∧ p.1 = name))
    (hw1 : w.escapeErr = .unset) (hw2 : w.tree = none)
    (hw3 : w.text < u.texts.length) (hw4 : w.ns < u.nss.length)
    (hw5 : ∀ j, j < u.tmpls.length → j ≠ ex → (u.tmpl j).ns = w.ns →
      (u.text (u.tmpl j).text).tcommon = (u.text w.text).tcommon)
    (hexid : ex ≠ id) :
    Inv ((u.setTmpl ex w).setNs nsId
      { (u.setTmpl ex w).ns nsId with
        set := aset ((u.setTmpl ex w).ns nsId).set name id }) := by
  have hr : Inv (u.setNs nsId { u.ns nsId with set := aset (u.ns nsId).set name id }) :=
    Inv_rebind u nsId id name hIu hns hid1 hid2 hid3 hid4
  set ur := u.setNs nsId { u.ns nsId with set := aset (u.ns nsId).set name id } with hur
  have hrlen : ur.nss.length = u.nss.length := by
    simp [hur, State.setNs]
  have hnsm : ∀ m, m < u.nss.length → m ≠ nsId → ur.ns m = u.ns m := fun m hm hne => by
    rw [hur]
    exact ns_setNs_ne u (fun h => hne h.symm) _
  have hnsSelf : ur.ns nsId = { u.ns nsId with set := aset (u.ns nsId).set name id } := by
    rw [hur]
    exact ns_setNs_self u nsId hns _
  have hub : ∀ m, m < ur.nss.length → ∀ p, p ∈ (ur.ns m).set → p.2 ≠ ex := by
    intro m hm p hp hc
    rw [hrlen] at hm
    by_cases he : m = nsId
    · subst he
      rw [hnsSelf] at hp
      rcases mem_aset (hIu.setKeys m hm) hp with h | h
      · rw [h] at hc
        exact hexid hc.symm
      · have := hex m hm p h.1 hc
        exact h.2 this.2
    · rw [hnsm m hm he] at hp
      exact he (hex m hm p hp hc).1
  have hres : Inv (ur.setTmpl ex w) := by
    apply Inv_setUnbound ur ex w hr hub hw1 hw2
    · exact hw3
    · rw [hrlen]
      exact hw4
    · intro j hj hje hjns
      have hj2 : j < u.tmpls.length := hj
      exact hw5 j hj2 hje hjns
  exact hres

theorem Inv_hNewInner (s : State) (t : Nat) (name : String) (hI : Inv s)
    (ht : t < s.tmpls.length) : Inv (hNewInner s t name).1 := by
  have hnst : (s.tmpl t).ns < s.nss.length := hI.tmplNs t ht
  have htxt : (s.tmpl t).text < s.texts.length := hI.tmplText t ht
  have hcom : (s.text (s.tmpl t).text).tcommon < s.commons.length := hI.textCom _ htxt
  unfold hNewInner textNew
  dsimp only
  set vx : TextObj := ⟨name, none, (s.text (s.tmpl t).text).tcommon⟩ with hvx
  set vt : TemplateObj := ⟨.unset, s.texts.length, none, (s.tmpl t).ns, 0⟩ with hvt
  set s2e : State :=
    { trees := s.trees, texts := s.texts ++ [vx], commons := s.commons,
      tmpls := s.tmpls ++ [vt], nss := s.nss } with hs2e
  have hI2 : Inv s2e := by
    have hIvx : Inv { s with texts := s.texts ++ [vx] } :=
      Inv_pushText s vx hI hcom rfl
    have h2 : vt.text < ({ s with texts := s.texts ++ [vx] } : State).texts.length := by
      rw [hvt]
      simp
    have h4 : vt.tree =
        (({ s with texts := s.texts ++ [vx] } : State).text vt.text).ttree := by
      rw [hvt]
      show (none : Option Nat) =
        (({ s with texts := s.texts ++ [vx] } : State).text s.texts.length).ttree
      unfold State.text
      rw [show ({ s with texts := s.texts ++ [vx] } : State).texts = s.texts ++ [vx]
        from rfl]
      rw [getD_append_len]
    exact Inv_pushTmpl { s with texts := s.texts ++ [vx] } vt hIvx rfl h2 hnst h4
      (by
        intro j hj hjns
        have hj2 : j < s.tmpls.length := hj
        have htj : ({ s with texts := s.texts ++ [vx] } : State).tmpl j = s.tmpl j := rfl
        have htjx : (s.tmpl j).text < s.texts.length := hI.tmplText j hj2
        have he1 : ({ s with texts := s.texts ++ [vx] } : State).text (s.tmpl j).text =
            s.text (s.tmpl j).text := by
          unfold State.text
          exact getD_append_lt _ _ _ _ htjx
        have he2 : ({ s with texts := s.texts ++ [vx] } : State).text vt.text = vx := by
          unfold State.text
          rw [hvt]
          exact getD_append_len _ _ _
        rw [htj] at hjns ⊢
        rw [he1, he2, hvx]
        rw [hvt] at hjns
        exact hI.comCoh j hj2 t ht hjns)
  have hLtm : s2e.tmpls.length = s.tmpls.length + 1 := by
    rw [hs2e]
    simp
  have hLtx : s2e.texts.length = s.texts.length + 1 := by
    rw [hs2e]
    simp
  have hLns : s2e.nss.length = s.nss.length := rfl
  have hs2tmplN : s2e.tmpl s.tmpls.length = vt := by
    rw [hs2e]
    unfold State.tmpl
    exact getD_append_len _ _ _
  have hs2textN : s2e.text s.texts.length = vx := by
    rw [hs2e]
    unfold State.text
    exact getD_append_len _ _ _
  have hs2tmpl_lt : ∀ i, i < s.tmpls.length → s2e.tmpl i = s.tmpl i := by
    intro i hi
    rw [hs2e]
    unfold State.tmpl
    exact getD_append_lt _ _ _ _ hi
  have hs2text_lt : ∀ i, i < s.texts.length → s2e.text i = s.text i := by
    intro i hi
    rw [hs2e]
    unfold State.text
    exact getD_append_lt _ _ _ _ hi
  have hs2ns : ∀ m, s2e.ns m = s.ns m := fun m => rfl
  split
  · rename_i ex heq
    have heq2 : alookup (s.ns (s.tmpl t).ns).set name = some ex := heq
    have hmem : (name, ex) ∈ (s.ns (s.tmpl t).ns).set := alookup_mem heq2
    have hexlt : ex < s.tmpls.length := hI.setTmplLt _ hnst _ hmem
    set nm := s2e.tmplName ex with hnm
    set u : State := (hTopNew s2e nm).1 with hu
    have hulen := hTopNew_lengths s2e nm
    have hem : (hTopNew s2e nm).2 = s2e.tmpls.length := rfl
    apply Inv_overwrite_rebind
    · exact Inv_hTopNew s2e nm hI2
    · rw [hu, (hTopNew_lengths s2e nm).2.2.2.1, hLns]
      exact Nat.lt_succ_of_lt hnst
    · rw [hu, hTopNew_tmpl_lt s2e nm (by rw [hLtm]; exact Nat.lt_succ_self _)]
      rw [hs2tmplN, hvt]
    · rw [hu]
      unfold State.tmplName
      rw [hTopNew_tmpl_lt s2e nm (by rw [hLtm]; exact Nat.lt_succ_self _)]
      rw [hs2tmplN, hvt]
      show ((hTopNew s2e nm).1.text s.texts.length).tname = name
      rw [hTopNew_text_lt s2e nm (by rw [hLtx]; exact Nat.lt_succ_self _)]
      rw [hs2textN, hvx]
    · intro m hm p hp
      rw [hu, (hTopNew_lengths s2e nm).2.2.2.1, hLns] at hm
      rcases Nat.lt_succ_iff_lt_or_eq.1 hm with h | h
      · rw [hu, hTopNew_ns_lt s2e nm (by rw [hLns]; exact h), hs2ns] at hp
        have := hI.setTmplLt m h p hp
        omega
      · rw [hu] at hp
        rw [show s.nss.length = s2e.nss.length from rfl] at h
        rw [h, hTopNew_ns_len s2e nm] at hp
        simp at hp
        subst hp
        show s.tmpls.length + 1 ≠ s.tmpls.length
        omega
    · rw [hu, (hTopNew_lengths s2e nm).1, hLtm]
      omega
    · intro m hm p hp hpex
      rw [hu, (hTopNew_lengths s2e nm).2.2.2.1, hLns] at hm
      rcases Nat.lt_succ_iff_lt_or_eq.1 hm with h | h
      · rw [hu, hTopNew_ns_lt s2e nm (by rw [hLns]; exact h), hs2ns] at hp
        have := hI.setInj m h ((s.tmpl t).ns) hnst p hp (name, ex) hmem hpex
        exact this
      · exfalso
        rw [hu] at hp
        rw [show s.nss.length = s2e.nss.length from rfl] at h
        rw [h, hTopNew_ns_len s2e nm] at hp
        simp at hp
        subst hp
        have hpex2 : s.tmpls.length + 1 = ex := hpex
        omega
    · show ((hTopNew s2e nm).1.tmpl (hTopNew s2e nm).2).escapeErr = .unset
      rw [hem, hTopNew_tmpl_len s2e nm]
    · show ((hTopNew s2e nm).1.tmpl (hTopNew s2e nm).2).tree = none
      rw [hem, hTopNew_tmpl_len s2e nm]
    · show ((hTopNew s2e nm).1.tmpl (hTopNew s2e nm).2).text <
        (hTopNew s2e nm).1.texts.length
      rw [hem, hTopNew_tmpl_len s2e nm]
      rw [(hTopNew_lengths s2e nm).2.1]
      rw [hLtx]
      dsimp only
      omega
    · show ((hTopNew s2e nm).1.tmpl (hTopNew s2e nm).2).ns <
        (hTopNew s2e nm).1.nss.length
      rw [hem, hTopNew_tmpl_len s2e nm]
      rw [(hTopNew_lengths s2e nm).2.2.2.1]
      dsimp only
      rw [hLns]
      omega
    · intro j hj hje hjns
      rw [hu, (hTopNew_lengths s2e nm).1, hLtm] at hj
      rw [hu] at hjns ⊢
      rw [hem, hTopNew_tmpl_len s2e nm] at hjns ⊢
      rcases Nat.lt_succ_iff_lt_or_eq.1 hj with h | h
      · exfalso
        rw [show s.tmpls.length + 1 = s2e.tmpls.length from hLtm.symm] at h
        rw [hTopNew_tmpl_lt s2e nm h] at hjns
        have h3 : j < s.tmpls.length + 1 := by
          rw [← hLtm]
          exact h
        rcases Nat.lt_succ_iff_lt_or_eq.1 h3 with h2 | h2
        · rw [hs2tmpl_lt j h2] at hjns
          have := hI.tmplNs j h2
          rw [hjns] at this
          rw [hLns] at this
          exact Nat.lt_irrefl _ this
        · rw [h2, hs2tmplN, hvt] at hjns
          rw [hLns] at hjns
          rw [hjns] at hnst
          exact Nat.lt_irrefl _ hnst
      · rw [show s.tmpls.length + 1 = s2e.tmpls.length from hLtm.symm] at h
        rw [h, hTopNew_tmpl_len s2e nm]
    · omega
  · apply Inv_rebind s2e (s.tmpl t).ns s.tmpls.length name hI2
    · exact hnst
    · rw [hs2tmplN, hvt]
    · unfold State.tmplName
      rw [hs2tmplN, hvt]
      show (s2e.text s.texts.length).tname = name
      rw [hs2textN, hvx]
    · intro m hm p hp
      rw [hs2ns] at hp
      have := hI.setTmplLt m (by rw [← hLns]; exact hm) p hp
      omega
    · rw [hLtm]
      omega

theorem Inv_pushTree (s : State) (c : String) (hI : Inv s) :
    Inv { s with trees := s.trees ++ [c] } := by
  have hlen : s.trees.length ≤ ({ s with trees := s.trees ++ [c] } : State).trees.length := by
    simp
  constructor
  · exact hI.tmplText
  · exact hI.tmplNs
  · intro i hi tr h
    exact Nat.lt_of_lt_of_le (hI.tmplTree i hi tr h) hlen
  · exact hI.textCom
  · intro i hi tr h
    exact Nat.lt_of_lt_of_le (hI.textTree i hi tr h) hlen
  · exact hI.assocText
  · exact hI.setTmplLt
  · exact hI.setNsEq
  · exact hI.setNameEq
  · exact hI.setInj
  · exact hI.setKeys
  · exact hI.assocKeys
  · exact hI.assocNameEq
  · exact hI.assocComEq
  · exact hI.comCoh
  · exact hI.treeAssoc
  · exact hI.htmlTree
  · exact hI.escNs
  · exact hI.escTree

theorem setText_keepFields (s : State) (n : Nat) (v : TextObj)
    (hv : v.tname = (s.text n).tname ∧ v.tcommon = (s.text n).tcommon) (i : Nat) :
    ((s.setText n v).text i).tname = (s.text i).tname ∧
    ((s.setText n v).text i).tcommon = (s.text i).tcommon := by
  rcases text_setText_cases s n v i with h | ⟨h, h2, h3⟩
  · rw [h]
    exact ⟨rfl, rfl⟩
  · subst h2
    rw [h]
    exact hv

theorem Inv_asetCommon (s : State) (c nt : Nat) (hI : Inv s)
    (hc : c < s.commons.length) (hnt : nt < s.texts.length)
    (hcom : (s.text nt).tcommon = c) :
    Inv (s.setCommon c ⟨aset (s.common c).assoc (s.text nt).tname nt⟩) := by
  set s2 := s.setCommon c ⟨aset (s.common c).assoc (s.text nt).tname nt⟩ with hs2
  have hclen : s2.commons.length = s.commons.length := by
    simp [hs2, State.setCommon]
  have hcm : ∀ m, m < s.commons.length → m ≠ c → s2.common m = s.common m := fun m hm hne => by
    rw [hs2]
    exact common_setCommon_ne s (fun h => hne h.symm) _
  have hcSelf : s2.common c = ⟨aset (s.common c).assoc (s.text nt).tname nt⟩ := by
    rw [hs2]
    exact common_setCommon_self s c hc _
  have htxr : ∀ i, s2.text i = s.text i := fun i => rfl
  have htmr : ∀ i, s2.tmpl i = s.tmpl i := fun i => rfl
  have hnsr : ∀ i, s2.ns i = s.ns i := fun i => rfl
  have hmem : ∀ m, m < s.commons.length → ∀ p, p ∈ (s2.common m).assoc →
      (m = c ∧ p = ((s.text nt).tname, nt)) ∨ p ∈ (s.common m).assoc := by
    intro m hm p hp
    by_cases he : m = c
    · subst he
      rw [hcSelf] at hp
      rcases mem_aset (hI.assocKeys m hm) hp with h | h
      · exact Or.inl ⟨rfl, h⟩
      · exact Or.inr h.1
    · rw [hcm m hm he] at hp
      exact Or.inr hp
  constructor
  · exact hI.tmplText
  · exact hI.tmplNs
  · exact hI.tmplTree
  · intro i hi
    rw [htxr, hclen]
    exact hI.textCom i hi
  · exact hI.textTree
  · intro m hm p hp
    rw [hclen] at hm
    rcases hmem m hm p hp with ⟨he, hp2⟩ | hp2
    · rw [hp2]
      exact hnt
    · exact hI.assocText m hm p hp2
  · exact hI.setTmplLt
  · exact hI.setNsEq
  · exact hI.setNameEq
  · exact hI.setInj
  · exact hI.setKeys
  · intro m hm
    rw [hclen] at hm
    by_cases he : m = c
    · subst he
      rw [hcSelf]
      exact aset_keys_nodup _ _ (hI.assocKeys m hm)
    · rw [hcm m hm he]
      exact hI.assocKeys m hm
  · intro m hm p hp
    rw [hclen] at hm
    rw [htxr]
    rcases hmem m hm p hp with ⟨he, hp2⟩ | hp2
    · rw [hp2]
    · exact hI.assocNameEq m hm p hp2
  · intro m hm p hp
    rw [hclen] at hm
    rw [htxr]
    rcases hmem m hm p hp with ⟨he, hp2⟩ | hp2
    · rw [hp2, he]
      exact hcom
    · exact hI.assocComEq m hm p hp2
  · exact hI.comCoh
  · intro i hi h
    rw [htxr] at h ⊢
    by_cases he : (s.text i).tcommon = c
    · rw [he, hcSelf]
      by_cases he2 : (s.text i).tname = (s.text nt).tname
      · rw [he2]
        rw [alookup_aset_self]
        intro hcontra
        cases hcontra
      · rw [alookup_aset_ne _ _ _ _ he2]
        rw [← he]
        exact hI.treeAssoc i hi h
    · rw [hcm _ (hI.textCom i hi) he]
      exact hI.treeAssoc i hi h
  · exact hI.htmlTree
  · exact hI.escNs
  · exact hI.escTree

theorem Inv_setTtree (s : State) (nt tr : Nat) (hI : Inv s)
    (htr : tr < s.trees.length)
    (hassoc : alookup (s.common (s.text nt).tcommon).assoc (s.text nt).tname ≠ none) :
    Inv (s.setText nt { s.text nt with ttree := some tr }) := by
  set v : TextObj := { s.text nt with ttree := some tr } with hv
  set s2 := s.setText nt v with hs2
  have hlen : s2.texts.length = s.texts.length := by
    simp [hs2, State.setText]
  have hcase : ∀ i, s2.text i = s.text i ∨ (s2.text i = v ∧ i = nt ∧ nt < s.texts.length) :=
    fun i => text_setText_cases s nt v i
  have hkeep : ∀ i, (s2.text i).tname = (s.text i).tname ∧
      (s2.text i).tcommon = (s.text i).tcommon :=
    setText_keepFields s nt v ⟨rfl, rfl⟩
  have htmr : ∀ i, s2.tmpl i = s.tmpl i := fun i => rfl
  have hcmr : ∀ i, s2.common i = s.common i := fun i => rfl
  have hnsr : ∀ i, s2.ns i = s.ns i := fun i => rfl
  constructor
  · intro i hi
    rw [hlen]
    exact hI.tmplText i hi
  · exact hI.tmplNs
  · exact hI.tmplTree
  · intro i hi
    rw [(hkeep i).2]
    exact hI.textCom i (by rw [← hlen]; exact hi)
  · intro i hi tr2 h
    rcases hcase i with hc | ⟨hc, he, hlt⟩
    · rw [hc] at h
      exact hI.textTree i (by rw [← hlen]; exact hi) tr2 h
    · rw [hc, hv] at h
      simp at h
      rw [← h]
      exact htr
  · intro m hm p hp
    rw [hlen]
    exact hI.assocText m hm p hp
  · exact hI.setTmplLt
  · exact hI.setNsEq
  · intro m hm p hp
    unfold State.tmplName
    rw [htmr, (hkeep _).1]
    exact hI.setNameEq m hm p hp
  · exact hI.setInj
  · exact hI.setKeys
  · exact hI.assocKeys
  · intro m hm p hp
    rw [(hkeep _).1]
    exact hI.assocNameEq m hm p hp
  · intro m hm p hp
    rw [(hkeep _).2]
    exact hI.assocComEq m hm p hp
  · intro i hi j hj hij
    rw [htmr i, htmr j] at hij ⊢
    rw [(hkeep _).2, (hkeep _).2]
    exact hI.comCoh i hi j hj hij
  · intro i hi h
    rw [(hkeep i).1, (hkeep i).2, hcmr]
    rcases hcase i with hc | ⟨hc, he, hlt⟩
    · rw [hc] at h
      exact hI.treeAssoc i (by rw [← hlen]; exact hi) h
    · rw [he]
      exact hassoc
  · intro i hi h
    rw [htmr i] at h ⊢
    rcases hcase (s.tmpl i).text with hc | ⟨hc, he, hlt⟩
    · rw [hc]
      exact hI.htmlTree i hi h
    · rw [hc, hv]
      simp
  · exact hI.escNs
  · intro i hi h
    rw [htmr i] at h ⊢
    rcases hcase (s.tmpl i).text with hc | ⟨hc, he, hlt⟩
    · rw [hc]
      exact hI.escTree i hi h
    · rw [hc, hv]
      simp

theorem Inv_associate (s : State) (c nt tr : Nat) (hI : Inv s)
    (hc : c < s.commons.length) (hnt : nt < s.texts.length)
    (hcom : (s.text nt).tcommon = c) :
    Inv (associate s c nt tr).1 := by
  unfold associate
  dsimp only
  split
  · split
    · exact hI
    · exact Inv_asetCommon s c nt hI hc hnt hcom
  · exact Inv_asetCommon s c nt hI hc hnt hcom

theorem associate_frame (s : State) (c nt tr : Nat) :
    (associate s c nt tr).1.texts = s.texts ∧
    (associate s c nt tr).1.tmpls = s.tmpls ∧
    (associate s c nt tr).1.nss = s.nss ∧
    (associate s c nt tr).1.trees = s.trees ∧
    (associate s c nt tr).1.commons.length = s.commons.length := by
  unfold associate
  dsimp only
  split
  · split
    · exact ⟨rfl, rfl, rfl, rfl, rfl⟩
    · refine ⟨rfl, rfl, rfl, rfl, ?_⟩
      simp [State.setCommon]
  · refine ⟨rfl, rfl, rfl, rfl, ?_⟩
    simp [State.setCommon]

theorem associate_assoc_ne_none (s : State) (c nt tr : Nat) (hc : c < s.commons.length) :
    alookup ((associate s c nt tr).1.common c).assoc (s.text nt).tname ≠ none := by
  unfold associate
  dsimp only
  split
  · rename_i old hold
    split
    · rw [hold]
      intro h
      cases h
    · rw [common_setCommon_self s c hc, alookup_aset_self]
      intro h
      cases h
  · rw [common_setCommon_self s c hc, alookup_aset_self]
    intro h
    cases h

theorem associate_common_ne (s : State) (c nt tr : Nat) {m : Nat} (h : m ≠ c) :
    (associate s c nt tr).1.common m = s.common m := by
  unfold associate
  dsimp only
  split
  · split
    · rfl
    · exact common_setCommon_ne s (fun h2 => h h2.symm) _
  · exact common_setCommon_ne s (fun h2 => h h2.symm) _

theorem textNew_text_len (s : State) (t : Nat) (name : String) :
    (textNew s t name).1.text s.texts.length = ⟨name, none, (s.text t).tcommon⟩ := by
  unfold textNew State.text
  exact getD_append_len _ _ _

theorem textNew_text_lt (s : State) (t : Nat) (name : String) {i : Nat}
    (h : i < s.texts.length) : (textNew s t name).1.text i = s.text i := by
  unfold textNew State.text
  exact getD_append_lt _ _ _ _ h

theorem Inv_textAddParseTree (s : State) (t : Nat) (name : String) (tr : Nat)
    (hI : Inv s) (ht : t < s.texts.length) (htr : tr < s.trees.length) :
    Inv (textAddParseTree s t name tr).1 := by
  unfold textAddParseTree
  dsimp only
  split
  · rename_i heq
    have hc : (s.text t).tcommon < s.commons.length := hI.textCom t ht
    have hIa : Inv (associate s (s.text t).tcommon t tr).1 :=
      Inv_associate s _ t tr hI hc ht rfl
    obtain ⟨hfx, hfm, hfn, hft, hfc⟩ := associate_frame s (s.text t).tcommon t tr
    have htxa : ∀ i, (associate s (s.text t).tcommon t tr).1.text i = s.text i :=
      fun i => text_congr hfx i
    split
    · apply Inv_setTtree _ _ _ hIa
      · rw [hft]
        exact htr
      · rw [htxa]
        exact associate_assoc_ne_none s (s.text t).tcommon t tr hc
    · exact hIa
  · rename_i heq
    have hc : (s.text t).tcommon < s.commons.length := hI.textCom t ht
    have hIp : Inv (textNew s t name).1 := Inv_pushText s _ hI hc rfl
    have hlenx : (textNew s t name).1.texts.length = s.texts.length + 1 := by
      unfold textNew
      simp
    have hntlt : s.texts.length < (textNew s t name).1.texts.length := by
      rw [hlenx]
      exact Nat.lt_succ_self _
    have hntc : ((textNew s t name).1.text s.texts.length).tcommon = (s.text t).tcommon := by
      rw [textNew_text_len]
    have hcx : ((textNew s t name).1.text (textNew s t name).2).tcommon <
        (textNew s t name).1.commons.length := by
      rw [show (textNew s t name).2 = s.texts.length from rfl, hntc]
      exact hc
    have hIa : Inv (associate (textNew s t name).1
        (((textNew s t name).1.text (textNew s t name).2).tcommon)
        (textNew s t name).2 tr).1 :=
      Inv_associate _ _ _ tr hIp hcx hntlt rfl
    obtain ⟨hfx, hfm, hfn, hft, hfc⟩ := associate_frame (textNew s t name).1
      (((textNew s t name).1.text (textNew s t name).2).tcommon) (textNew s t name).2 tr
    have htxa : ∀ i, (associate (textNew s t name).1
        (((textNew s t name).1.text (textNew s t name).2).tcommon)
        (textNew s t name).2 tr).1.text i = (textNew s t name).1.text i :=
      fun i => text_congr hfx i
    split
    · apply Inv_setTtree _ _ _ hIa
      · rw [hft]
        exact htr
      · rw [htxa]
        exact associate_assoc_ne_none _ _ _ tr hcx
    · exact hIa

theorem textAddParseTree_frame (s : State) (t : Nat) (name : String) (tr : Nat)
    (ht : t < s.texts.length) :
    (textAddParseTree s t name tr).1.tmpls = s.tmpls ∧
    (textAddParseTree s t name tr).1.nss = s.nss ∧
    (textAddParseTree s t name tr).1.trees = s.trees ∧
    s.texts.length ≤ (textAddParseTree s t name tr).1.texts.length ∧
    (textAddParseTree s t name tr).2 < (textAddParseTree s t name tr).1.texts.length := by
  unfold textAddParseTree
  dsimp only
  split
  · obtain ⟨hfx, hfm, hfn, hft, hfc⟩ := associate_frame s (s.text t).tcommon t tr
    split
    · refine ⟨hfm, hfn, hft, ?_, ?_⟩
      · show s.texts.length ≤ ((associate s (s.text t).tcommon t tr).1.texts.set t _).length
        rw [List.length_set, hfx]
      · show t < ((associate s (s.text t).tcommon t tr).1.texts.set t _).length
        rw [List.length_set, hfx]
        exact ht
    · refine ⟨hfm, hfn, hft, ?_, ?_⟩
      · rw [hfx]
      · rw [hfx]
        exact ht
  · obtain ⟨hfx, hfm, hfn, hft, hfc⟩ := associate_frame (textNew s t name).1
      (((textNew s t name).1.text (textNew s t name).2).tcommon) (textNew s t name).2 tr
    have hlx : (textNew s t name).1.texts.length = s.texts.length + 1 := by
      unfold textNew
      simp
    split
    · refine ⟨hfm, hfn, hft, ?_, ?_⟩
      · show s.texts.length ≤ ((associate _ _ _ tr).1.texts.set _ _).length
        rw [List.length_set, hfx, hlx]
        omega
      · show (textNew s t name).2 < ((associate _ _ _ tr).1.texts.set _ _).length
        rw [List.length_set, hfx, hlx]
        show s.texts.length < s.texts.length + 1
        omega
    · refine ⟨hfm, hfn, hft, ?_, ?_⟩
      · rw [hfx, hlx]
        omega
      · rw [hfx, hlx]
        show s.texts.length < s.texts.length + 1
        omega

theorem textAddParseTree_res (s : State) (t : Nat) (name : String) (tr : Nat)
    (ht : t < s.texts.length) :
    ((textAddParseTree s t name tr).1.text (textAddParseTree s t name tr).2).tname = name ∧
    ((textAddParseTree s t name tr).1.text (textAddParseTree s t name tr).2).tcommon =
      (s.text t).tcommon := by
  unfold textAddParseTree
  dsimp only
  split
  · rename_i heq
    obtain ⟨hfx, hfm, hfn, hft, hfc⟩ := associate_frame s (s.text t).tcommon t tr
    have htxa : ∀ i, (associate s (s.text t).tcommon t tr).1.text i = s.text i :=
      fun i => text_congr hfx i
    split
    · have hk := setText_keepFields (associate s (s.text t).tcommon t tr).1 t
        { (associate s (s.text t).tcommon t tr).1.text t with ttree := some tr }
        ⟨rfl, rfl⟩ t
      refine ⟨?_, ?_⟩
      · rw [hk.1, htxa, ← heq]
      · rw [hk.2, htxa]
    · refine ⟨?_, ?_⟩
      · rw [htxa, ← heq]
      · rw [htxa]
  · rename_i heq
    obtain ⟨hfx, hfm, hfn, hft, hfc⟩ := associate_frame (textNew s t name).1
      (((textNew s t name).1.text (textNew s t name).2).tcommon) (textNew s t name).2 tr
    have htxa : ∀ i, (associate (textNew s t name).1
        (((textNew s t name).1.text (textNew s t name).2).tcommon)
        (textNew s t name).2 tr).1.text i = (textNew s t name).1.text i :=
      fun i => text_congr hfx i
    have hvN : (textNew s t name).1.text (textNew s t name).2 =
        ⟨name, none, (s.text t).tcommon⟩ := textNew_text_len s t name
    split
    · have hk := setText_keepFields (associate (textNew s t name).1
          (((textNew s t name).1.text (textNew s t name).2).tcommon)
          (textNew s t name).2 tr).1 (textNew s t name).2
        { (associate (textNew s t name).1
            (((textNew s t name).1.text (textNew s t name).2).tcommon)
            (textNew s t name).2 tr).1.text (textNew s t name).2 with ttree := some tr }
        ⟨rfl, rfl⟩ (textNew s t name).2
      refine ⟨?_, ?_⟩
      · rw [hk.1, htxa, hvN]
      · rw [hk.2, htxa, hvN]
    · refine ⟨?_, ?_⟩
      · rw [htxa, hvN]
      · rw [htxa, hvN]

theorem textAddParseTree_keep (s : State) (t : Nat) (name : String) (tr : Nat)
    (ht : t < s.texts.length) :
    ∀ i, i < s.texts.length →
      ((textAddParseTree s t name tr).1.text i).tname = (s.text i).tname ∧
      ((textAddParseTree s t name tr).1.text i).tcommon = (s.text i).tcommon := by
  intro i hi
  unfold textAddParseTree
  dsimp only
  split
  · obtain ⟨hfx, hfm, hfn, hft, hfc⟩ := associate_frame s (s.text t).tcommon t tr
    have htxa : ∀ j, (associate s (s.text t).tcommon t tr).1.text j = s.text j :=
      fun j => text_congr hfx j
    split
    · have hk := setText_keepFields (associate s (s.text t).tcommon t tr).1 t
        { (associate s (s.text t).tcommon t tr).1.text t with ttree := some tr }
        ⟨rfl, rfl⟩ i
      rw [hk.1, hk.2, htxa]
      exact ⟨rfl, rfl⟩
    · rw [htxa]
      exact ⟨rfl, rfl⟩
  · obtain ⟨hfx, hfm, hfn, hft, hfc⟩ := associate_frame (textNew s t name).1
      (((textNew s t name).1.text (textNew s t name).2).tcommon) (textNew s t name).2 tr
    have htxa : ∀ j, (associate (textNew s t name).1
        (((textNew s t name).1.text (textNew s t name).2).tcommon)
        (textNew s t name).2 tr).1.text j = (textNew s t name).1.text j :=
      fun j => text_congr hfx j
    have hlt : (textNew s t name).1.text i = s.text i := textNew_text_lt s t name hi
    split
    · have hk := setText_keepFields (associate (textNew s t name).1
          (((textNew s t name).1.text (textNew s t name).2).tcommon)
          (textNew s t name).2 tr).1 (textNew s t name).2
        { (associate (textNew s t name).1
            (((textNew s t name).1.text (textNew s t name).2).tcommon)
            (textNew s t name).2 tr).1.text (textNew s t name).2 with ttree := some tr }
        ⟨rfl, rfl⟩ i
      rw [hk.1, hk.2, htxa, hlt]
      exact ⟨rfl, rfl⟩
    · rw [htxa, hlt]
      exact ⟨rfl, rfl⟩

theorem tmpl_push_len (s : State) (v : TemplateObj) :
    ({ s with tmpls := s.tmpls ++ [v] } : State).tmpl s.tmpls.length = v := by
  unfold State.tmpl
  exact getD_append_len _ _ _

theorem tmpl_push_lt (s : State) (v : TemplateObj) {i : Nat} (h : i < s.tmpls.length) :
    ({ s with tmpls := s.tmpls ++ [v] } : State).tmpl i = s.tmpl i := by
  unfold State.tmpl
  exact getD_append_lt _ _ _ _ h

theorem Inv_hAddParseTree (s : State) (t : Nat) (name content : String) (hI : Inv s)
    (ht : t < s.tmpls.length) : Inv (hAddParseTree s t name content).1 := by
  unfold hAddParseTree
  dsimp only
  split
  · exact hI
  · have hI0 : Inv (allocTree s content).1 := Inv_pushTree s content hI
    have ht0 : ((allocTree s content).1.tmpl t).text < (allocTree s content).1.texts.length :=
      hI.tmplText t ht
    have htr0 : (allocTree s content).2 < (allocTree s content).1.trees.length := by
      show s.trees.length < (s.trees ++ [content]).length
      simp
    have hI2 : Inv (textAddParseTree (allocTree s content).1
        ((allocTree s content).1.tmpl t).text name (allocTree s content).2).1 :=
      Inv_textAddParseTree _ _ name _ hI0 ht0 htr0
    obtain ⟨hfm, hfn, hft, hfxle, hfxlt⟩ := textAddParseTree_frame (allocTree s content).1
      ((allocTree s content).1.tmpl t).text name (allocTree s content).2 ht0
    obtain ⟨hrn, hrc⟩ := textAddParseTree_res (allocTree s content).1
      ((allocTree s content).1.tmpl t).text name (allocTree s content).2 ht0
    have hkeep := textAddParseTree_keep (allocTree s content).1
      ((allocTree s content).1.tmpl t).text name (allocTree s content).2 ht0
    have htm2 : ∀ i, (textAddParseTree (allocTree s content).1
        ((allocTree s content).1.tmpl t).text name (allocTree s content).2).1.tmpl i =
        s.tmpl i := fun i => tmpl_congr hfm i
    have hlen2 : (textAddParseTree (allocTree s content).1
        ((allocTree s content).1.tmpl t).text name (allocTree s content).2).1.tmpls.length =
        s.tmpls.length := by
      rw [hfm]
      rfl
    have hns2 : ∀ m, (textAddParseTree (allocTree s content).1
        ((allocTree s content).1.tmpl t).text name (allocTree s content).2).1.ns m =
        s.ns m := fun m => ns_congr hfn m
    have hnslen2 : (textAddParseTree (allocTree s content).1
        ((allocTree s content).1.tmpl t).text name (allocTree s content).2).1.nss.length =
        s.nss.length := by
      rw [hfn]
      rfl
    have hI3 : Inv { (textAddParseTree (allocTree s content).1
        ((allocTree s content).1.tmpl t).text name (allocTree s content).2).1 with
        tmpls := (textAddParseTree (allocTree s content).1
          ((allocTree s content).1.tmpl t).text name (allocTree s content).2).1.tmpls ++
          [⟨.unset,
            (textAddParseTree (allocTree s content).1
              ((allocTree s content).1.tmpl t).text name (allocTree s content).2).2,
            ((textAddParseTree (allocTree s content).1
              ((allocTree s content).1.tmpl t).text name (allocTree s content).2).1.text
              (textAddParseTree (allocTree s content).1
                ((allocTree s content).1.tmpl t).text name (allocTree s content).2).2).ttree,
            ((textAddParseTree (allocTree s content).1
              ((allocTree s content).1.tmpl t).text name
                (allocTree s content).2).1.tmpl t).ns, 0⟩] } := by
      apply Inv_pushTmpl _ _ hI2 rfl hfxlt
      · rw [htm2, hnslen2]
        exact hI.tmplNs t ht
      · rfl
      · intro j hj hjns
        rw [hlen2] at hj
        rw [htm2] at hjns
        rw [htm2 t] at hjns
        rw [htm2 j]
        have hjx : (s.tmpl j).text < (allocTree s content).1.texts.length :=
          hI.tmplText j hj
        rw [(hkeep _ hjx).2, hrc]
        exact hI.comCoh j hj t ht hjns
    apply Inv_rebind _ _ _ _ hI3
    · show ((textAddParseTree (allocTree s content).1
        ((allocTree s content).1.tmpl t).text name (allocTree s content).2).1.tmpl t).ns <
        _
      rw [htm2]
      show (s.tmpl t).ns < (textAddParseTree (allocTree s content).1
        ((allocTree s content).1.tmpl t).text name (allocTree s content).2).1.nss.length
      rw [hnslen2]
      exact hI.tmplNs t ht
    · rw [tmpl_push_len]
    · unfold State.tmplName
      rw [tmpl_push_len]
      show ((textAddParseTree (allocTree s content).1
        ((allocTree s content).1.tmpl t).text name (allocTree s content).2).1.text
        (textAddParseTree (allocTree s content).1
          ((allocTree s content).1.tmpl t).text name (allocTree s content).2).2).tname = name
      exact hrn
    · intro m hm p hp
      have hm2 : m < s.nss.length := by
        rw [← hnslen2]
        exact hm
      have hp2 : p ∈ ((textAddParseTree (allocTree s content).1
          ((allocTree s content).1.tmpl t).text name (allocTree s content).2).1.ns m).set :=
        hp
      rw [hns2] at hp2
      have := hI.setTmplLt m hm2 p hp2
      rw [hlen2]
      omega
    · show (textAddParseTree (allocTree s content).1
        ((allocTree s content).1.tmpl t).text name
          (allocTree s content).2).1.tmpls.length < _
      simp

theorem Inv_setSync (s : State) (tid v : Nat) (hI : Inv s)
    (htid : tid < s.tmpls.length)
    (hv : v < s.texts.length)
    (hname : (s.text v).tname = s.tmplName tid)
    (hcom : (s.text v).tcommon = (s.text (s.tmpl tid).text).tcommon)
    (herr : (s.tmpl tid).escapeErr = .unset) :
    Inv (s.setTmpl tid { s.tmpl tid with text := v, tree := (s.text v).ttree }) := by
  set w : TemplateObj := { s.tmpl tid with text := v, tree := (s.text v).ttree } with hw
  set s2 := s.setTmpl tid w with hs2
  have hlen : s2.tmpls.length = s.tmpls.length := by
    simp [hs2, State.setTmpl]
  have hcase : ∀ i, s2.tmpl i = s.tmpl i ∨ (s2.tmpl i = w ∧ i = tid ∧ tid < s.tmpls.length) :=
    fun i => tmpl_setTmpl_cases s tid w i
  have htxr : ∀ i, s2.text i = s.text i := fun i => rfl
  have hcmr : ∀ i, s2.common i = s.common i := fun i => rfl
  have hnsr : ∀ i, s2.ns i = s.ns i := fun i => rfl
  have hwt : w.text = v := rfl
  have hwns : w.ns = (s.tmpl tid).ns := rfl
  have hwerr : w.escapeErr = (s.tmpl tid).escapeErr := rfl
  constructor
  · intro i hi
    rcases hcase i with h | ⟨h, _, _⟩
    · rw [h]
      exact hI.tmplText i (by rw [← hlen]; exact hi)
    · rw [h, hwt]
      exact hv
  · intro i hi
    rcases hcase i with h | ⟨h, _, _⟩
    · rw [h]
      exact hI.tmplNs i (by rw [← hlen]; exact hi)
    · rw [h, hwns]
      exact hI.tmplNs tid htid
  · intro i hi tr h
    rcases hcase i with hc | ⟨hc, _, _⟩
    · rw [hc] at h
      exact hI.tmplTree i (by rw [← hlen]; exact hi) tr h
    · rw [hc] at h
      have : (s.text v).ttree = some tr := h
      exact hI.textTree v hv tr this
  · exact hI.textCom
  · exact hI.textTree
  · exact hI.assocText
  · intro m hm p hp
    rw [hlen]
    exact hI.setTmplLt m hm p hp
  · intro m hm p hp
    rcases hcase p.2 with h | ⟨h, he, _⟩
    · rw [h]
      exact hI.setNsEq m hm p hp
    · rw [h, hwns]
      have h2 := hI.setNsEq m hm p hp
      rw [he] at h2
      exact h2
  · intro m hm p hp
    unfold State.tmplName
    rcases hcase p.2 with h | ⟨h, he, _⟩
    · rw [h, htxr]
      exact hI.setNameEq m hm p hp
    · rw [h, hwt, htxr]
      have h2 := hI.setNameEq m hm p hp
      rw [he] at h2
      rw [hname]
      exact h2
  · exact hI.setInj
  · exact hI.setKeys
  · exact hI.assocKeys
  · intro m hm p hp
    rw [htxr]
    exact hI.assocNameEq m hm p hp
  · intro m hm p hp
    rw [htxr]
    exact hI.assocComEq m hm p hp
  · intro i hi j hj hij
    rw [hlen] at hi hj
    have hgen : ∀ k, k < s.tmpls.length →
        (s2.text (s2.tmpl k).text).tcommon = (s.text (s.tmpl k).text).tcommon := by
      intro k hk
      rcases hcase k with h | ⟨h, he, _⟩
      · rw [h, htxr]
      · rw [h, hwt, htxr, he]
        rw [hcom]
    have hnsg : ∀ k, (s2.tmpl k).ns = (s.tmpl k).ns := by
      intro k
      rcases hcase k with h | ⟨h, he, _⟩
      · rw [h]
      · rw [h, hwns, he]
    rw [hnsg i, hnsg j] at hij
    rw [hgen i hi, hgen j hj]
    exact hI.comCoh i hi j hj hij
  · intro i hi h
    rw [htxr] at h ⊢
    rw [hcmr]
    exact hI.treeAssoc i hi h
  · intro i hi h
    rcases hcase i with hc | ⟨hc,he, _⟩
    · rw [hc] at h ⊢
      rw [htxr]
      exact hI.htmlTree i (by rw [← hlen]; exact hi) h
    · rw [hc] at h ⊢
      rw [hwt, htxr]
      exact h
  · intro i hi h
    rcases hcase i with hc | ⟨hc, he, _⟩
    · rw [hc] at h ⊢
      rw [hnsr]
      exact hI.escNs i (by rw [← hlen]; exact hi) h
    · rw [hc, hwerr] at h
      rw [herr] at h
      exact absurd rfl h
  · intro i hi h
    rcases hcase i with hc | ⟨hc, he, _⟩
    · rw [hc] at h ⊢
      rw [htxr]
      exact hI.escTree i (by rw [← hlen]; exact hi) h
    · rw [hc, hwerr] at h
      rw [herr] at h
      exact absurd rfl h

theorem hNewInner_eq_none (s : State) (t : Nat) (name : String)
    (h : alookup (s.ns (s.tmpl t).ns).set name = none) :
    (hNewInner s t name).1 =
      ({ trees := s.trees,
         texts := s.texts ++ [⟨name, none, (s.text (s.tmpl t).text).tcommon⟩],
         commons := s.commons,
         tmpls := s.tmpls ++ [⟨.unset, s.texts.length, none, (s.tmpl t).ns, 0⟩],
         nss := s.nss } : State).setNs (s.tmpl t).ns
        { s.ns (s.tmpl t).ns with
          set := aset (s.ns (s.tmpl t).ns).set name s.tmpls.length } := by
  unfold hNewInner textNew
  dsimp only
  split
  · rename_i ex heq
    have heq2 : alookup (s.ns (s.tmpl t).ns).set name = some ex := heq
    rw [h] at heq2
    cases heq2
  · rfl

theorem textParse_frame (s : State) (t : Nat) (defs : List (String × String))
    (ht : t < s.texts.length) :
    (textParse s t defs).tmpls = s.tmpls ∧ (textParse s t defs).nss = s.nss ∧
    s.texts.length ≤ (textParse s t defs).texts.length := by
  induction defs generalizing s with
  | nil => exact ⟨rfl, rfl, Nat.le_refl _⟩
  | cons d rest ih =>
    obtain ⟨n, b⟩ := d
    unfold textParse
    dsimp only
    obtain ⟨hf1, hf2, hf3, hf4, hf5⟩ :=
      textAddParseTree_frame (allocTree s b).1 t n (allocTree s b).2 ht
    obtain ⟨ih1, ih2, ih3⟩ :=
      ih ((textAddParseTree (allocTree s b).1 t n (allocTree s b).2).1)
        (Nat.lt_of_lt_of_le ht hf4)
    refine ⟨?_, ?_, ?_⟩
    · rw [ih1, hf1]
      rfl
    · rw [ih2, hf2]
      rfl
    · exact Nat.le_trans hf4 ih3

theorem hNewInner_none_lengths (s : State) (t : Nat) (name : String)
    (h : alookup (s.ns (s.tmpl t).ns).set name = none) :
    (hNewInner s t name).1.tmpls.length = s.tmpls.length + 1 ∧
    (hNewInner s t name).1.texts.length = s.texts.length + 1 ∧
    (hNewInner s t name).1.commons = s.commons ∧
    (hNewInner s t name).1.trees = s.trees ∧
    (hNewInner s t name).1.nss.length = s.nss.length := by
  rw [hNewInner_eq_none s t name h]
  refine ⟨?_, ?_, rfl, rfl, ?_⟩
  · simp [State.setNs]
  · simp [State.setNs]
  · simp [State.setNs]

theorem hNewInner_none_tmpl_lt (s : State) (t : Nat) (name : String)
    (h : alookup (s.ns (s.tmpl t).ns).set name = none) {i : Nat}
    (hi : i < s.tmpls.length) : (hNewInner s t name).1.tmpl i = s.tmpl i := by
  rw [hNewInner_eq_none s t name h]
  show ((s.tmpls ++ [_]).getD i _) = _
  exact getD_append_lt _ _ _ _ hi

theorem hNewInner_none_tmpl_new (s : State) (t : Nat) (name : String)
    (h : alookup (s.ns (s.tmpl t).ns).set name = none) :
    (hNewInner s t name).1.tmpl s.tmpls.length =
      ⟨.unset, s.texts.length, none, (s.tmpl t).ns, 0⟩ := by
  rw [hNewInner_eq_none s t name h]
  show ((s.tmpls ++ [_]).getD s.tmpls.length _) = _
  exact getD_append_len _ _ _

theorem hNewInner_none_text_lt (s : State) (t : Nat) (name : String)
    (h : alookup (s.ns (s.tmpl t).ns).set name = none) {i : Nat}
    (hi : i < s.texts.length) : (hNewInner s t name).1.text i = s.text i := by
  rw [hNewInner_eq_none s t name h]
  show ((s.texts ++ [_]).getD i _) = _
  exact getD_append_lt _ _ _ _ hi

theorem hNewInner_none_text_new (s : State) (t : Nat) (name : String)
    (h : alookup (s.ns (s.tmpl t).ns).set name = none) :
    (hNewInner s t name).1.text s.texts.length =
      ⟨name, none, (s.text (s.tmpl t).text).tcommon⟩ := by
  rw [hNewInner_eq_none s t name h]
  show ((s.texts ++ [_]).getD s.texts.length _) = _
  exact getD_append_len _ _ _

theorem hNewInner_none_ns_self (s : State) (t : Nat) (name : String)
    (h : alookup (s.ns (s.tmpl t).ns).set name = none)
    (hns : (s.tmpl t).ns < s.nss.length) :
    (hNewInner s t name).1.ns (s.tmpl t).ns =
      { s.ns (s.tmpl t).ns with
        set := aset (s.ns (s.tmpl t).ns).set name s.tmpls.length } := by
  rw [hNewInner_eq_none s t name h]
  exact ns_setNs_self _ _ hns _

theorem hNewInner_none_ns_ne (s : State) (t : Nat) (name : String)
    (h : alookup (s.ns (s.tmpl t).ns).set name = none) {m : Nat}
    (hm : (s.tmpl t).ns ≠ m) : (hNewInner s t name).1.ns m = s.ns m := by
  rw [hNewInner_eq_none s t name h]
  exact ns_setNs_ne _ hm _

theorem syncOne_post (s : State) (t v : Nat) (hI : Inv s) (ht : t < s.tmpls.length)
    (hesc : (s.ns (s.tmpl t).ns).escaped = false)
    (hv : v < s.texts.length)
    (hvc : (s.text v).tcommon = (s.text (s.tmpl t).text).tcommon) :
    Inv (syncOne s t v) ∧
    (syncOne s t v).commons = s.commons ∧
    t < (syncOne s t v).tmpls.length ∧
    s.tmpls.length ≤ (syncOne s t v).tmpls.length ∧
    (∀ i, i < s.texts.length → (syncOne s t v).text i = s.text i) ∧
    s.texts.length ≤ (syncOne s t v).texts.length ∧
    ((syncOne s t v).tmpl t).ns = (s.tmpl t).ns ∧
    ((syncOne s t v).ns ((syncOne s t v).tmpl t).ns).escaped = false ∧
    ((syncOne s t v).text ((syncOne s t v).tmpl t).text).tcommon =
      (s.text (s.tmpl t).text).tcommon := by
  have hnst : (s.tmpl t).ns < s.nss.length := hI.tmplNs t ht
  unfold syncOne
  dsimp only
  split
  · rename_i tid heq
    have hmem : ((s.text v).tname, tid) ∈ (s.ns (s.tmpl t).ns).set := alookup_mem heq
    have htid : tid < s.tmpls.length := hI.setTmplLt _ hnst _ hmem
    have hnseq : (s.tmpl tid).ns = (s.tmpl t).ns := hI.setNsEq _ hnst _ hmem
    have hnameq : s.tmplName tid = (s.text v).tname := hI.setNameEq _ hnst _ hmem
    have herr : (s.tmpl tid).escapeErr = .unset := by
      by_contra hne
      have h2 := hI.escNs tid htid hne
      rw [hnseq, hesc] at h2
      cases h2
    have hcom : (s.text v).tcommon = (s.text (s.tmpl tid).text).tcommon := by
      rw [hvc]
      exact hI.comCoh t ht tid htid hnseq.symm
    set w : TemplateObj := { s.tmpl tid with text := v, tree := (s.text v).ttree } with hw
    have hlen : (s.setTmpl tid w).tmpls.length = s.tmpls.length := by
      simp [State.setTmpl]
    have hnsbt : ((s.setTmpl tid w).tmpl t).ns = (s.tmpl t).ns := by
      rcases tmpl_setTmpl_cases s tid w t with hc | ⟨hc, he, _⟩
      · rw [hc]
      · rw [hc, hw]
        show (s.tmpl tid).ns = (s.tmpl t).ns
        rw [he]
    refine ⟨Inv_setSync s tid v hI htid hv hnameq.symm hcom herr, rfl, ?_, ?_,
      fun i _ => rfl, Nat.le_refl _, hnsbt, ?_, ?_⟩
    · rw [hlen]
      exact ht
    · rw [hlen]
    · show (s.ns _).escaped = false
      rw [hnsbt]
      exact hesc
    · rcases tmpl_setTmpl_cases s tid w t with hc | ⟨hc, he, _⟩
      · rw [hc]
        exact rfl
      · rw [hc, hw]
        show (s.text v).tcommon = _
        exact hvc
  · rename_i heq
    obtain ⟨hL1, hL2, hL3, hL4, hL5⟩ := hNewInner_none_lengths s t _ heq
    have hI2 : Inv (hNewInner s t (s.text v).tname).1 := Inv_hNewInner s t _ hI ht
    have htid2 : (hNewInner s t (s.text v).tname).2 <
        (hNewInner s t (s.text v).tname).1.tmpls.length := by
      rw [hNewInner_snd, hL1]
      omega
    have hv2 : v < (hNewInner s t (s.text v).tname).1.texts.length := by
      rw [hL2]
      omega
    have htmn : (hNewInner s t (s.text v).tname).1.tmpl
        (hNewInner s t (s.text v).tname).2 =
        ⟨.unset, s.texts.length, none, (s.tmpl t).ns, 0⟩ := by
      rw [hNewInner_snd]
      exact hNewInner_none_tmpl_new s t _ heq
    have htxv : (hNewInner s t (s.text v).tname).1.text v = s.text v :=
      hNewInner_none_text_lt s t _ heq hv
    have htxn : (hNewInner s t (s.text v).tname).1.text s.texts.length =
        ⟨(s.text v).tname, none, (s.text (s.tmpl t).text).tcommon⟩ :=
      hNewInner_none_text_new s t _ heq
    have hname2 : ((hNewInner s t (s.text v).tname).1.text v).tname =
        (hNewInner s t (s.text v).tname).1.tmplName
          (hNewInner s t (s.text v).tname).2 := by
      unfold State.tmplName
      rw [htmn]
      show ((hNewInner s t (s.text v).tname).1.text v).tname =
        ((hNewInner s t (s.text v).tname).1.text s.texts.length).tname
      rw [htxv, htxn]
    have hcom2 : ((hNewInner s t (s.text v).tname).1.text v).tcommon =
        ((hNewInner s t (s.text v).tname).1.text
          ((hNewInner s t (s.text v).tname).1.tmpl
            (hNewInner s t (s.text v).tname).2).text).tcommon := by
      rw [htmn]
      show ((hNewInner s t (s.text v).tname).1.text v).tcommon =
        ((hNewInner s t (s.text v).tname).1.text s.texts.length).tcommon
      rw [htxv, htxn]
      exact hvc
    have herr2 : ((hNewInner s t (s.text v).tname).1.tmpl
        (hNewInner s t (s.text v).tname).2).escapeErr = .unset := by
      rw [htmn]
    have hne : (hNewInner s t (s.text v).tname).2 ≠ t := by
      rw [hNewInner_snd]
      omega
    refine ⟨Inv_setSync _ _ v hI2 htid2 hv2 hname2 hcom2 herr2, ?_, ?_, ?_, ?_, ?_,
      ?_, ?_, ?_⟩
    · show (hNewInner s t (s.text v).tname).1.commons = s.commons
      exact hL3
    · simp only [State.setTmpl, List.length_set]
      rw [hL1]
      omega
    · simp only [State.setTmpl, List.length_set]
      rw [hL1]
      omega
    · intro i hi
      show (hNewInner s t (s.text v).tname).1.text i = s.text i
      exact hNewInner_none_text_lt s t _ heq hi
    · show s.texts.length ≤ (hNewInner s t (s.text v).tname).1.texts.length
      rw [hL2]
      omega
    · rw [tmpl_setTmpl_ne _ hne, hNewInner_none_tmpl_lt s t _ heq ht]
    · rw [tmpl_setTmpl_ne _ hne, hNewInner_none_tmpl_lt s t _ heq ht]
      show ((hNewInner s t (s.text v).tname).1.ns (s.tmpl t).ns).escaped = false
      rw [hNewInner_none_ns_self s t _ heq hnst]
      exact hesc
    · rw [tmpl_setTmpl_ne _ hne, hNewInner_none_tmpl_lt s t _ heq ht]
      show ((hNewInner s t (s.text v).tname).1.text (s.tmpl t).text).tcommon =
        (s.text (s.tmpl t).text).tcommon
      rw [hNewInner_none_text_lt s t _ heq (hI.tmplText t ht)]

theorem Inv_textParse (s : State) (t : Nat) (defs : List (String × String))
    (hI : Inv s) (ht : t < s.texts.length) : Inv (textParse s t defs) := by
  induction defs generalizing s with
  | nil => exact hI
  | cons d rest ih =>
    obtain ⟨n, b⟩ := d
    show Inv (textParse (textAddParseTree (allocTree s b).1 t n (allocTree s b).2).1 t rest)
    obtain ⟨hf1, hf2, hf3, hf4, hf5⟩ :=
      textAddParseTree_frame (allocTree s b).1 t n (allocTree s b).2 ht
    apply ih
    · apply Inv_textAddParseTree
      · exact Inv_pushTree s b hI
      · exact ht
      · show (allocTree s b).2 < (s.trees ++ [b]).length
        simp [allocTree]
    · exact Nat.lt_of_lt_of_le ht hf4

theorem syncAll_post (t : Nat) (vs : List Nat) :
    ∀ (s : State), Inv s → t < s.tmpls.length →
    (s.ns (s.tmpl t).ns).escaped = false →
    (∀ v ∈ vs, v < s.texts.length ∧
      (s.text v).tcommon = (s.text (s.tmpl t).text).tcommon) →
    Inv (syncAll t s vs) ∧
    (syncAll t s vs).commons = s.commons ∧
    t < (syncAll t s vs).tmpls.length ∧
    s.tmpls.length ≤ (syncAll t s vs).tmpls.length := by
  induction vs with
  | nil =>
    intro s hI ht _ _
    exact ⟨hI, rfl, ht, Nat.le_refl _⟩
  | cons v rest ih =>
    intro s hI ht hesc hvs
    obtain ⟨hv, hvc⟩ := hvs v (List.mem_cons_self v rest)
    obtain ⟨p1, p2, p3, p4, p5, p6, p7, p8, p9⟩ := syncOne_post s t v hI ht hesc hv hvc
    have hvs2 : ∀ v2 ∈ rest, v2 < (syncOne s t v).texts.length ∧
        ((syncOne s t v).text v2).tcommon =
          ((syncOne s t v).text ((syncOne s t v).tmpl t).text).tcommon := by
      intro v2 hm
      obtain ⟨h1, h2⟩ := hvs v2 (List.mem_cons_of_mem v hm)
      refine ⟨Nat.lt_of_lt_of_le h1 p6, ?_⟩
      rw [p5 v2 h1, p9, h2]
    obtain ⟨q1, q2, q3, q4⟩ := ih (syncOne s t v) p1 p3 p8 hvs2
    refine ⟨q1, ?_, q3, ?_⟩
    · show (syncAll t (syncOne s t v) rest).commons = s.commons
      rw [q2, p2]
    · show s.tmpls.length ≤ (syncAll t (syncOne s t v) rest).tmpls.length
      exact Nat.le_trans p4 q4

theorem hParse_post (s : State) (t : Nat) (defs : List (String × String)) (hI : Inv s)
    (ht : t < s.tmpls.length) : Inv (hParse s t defs).1 ∧
    s.tmpls.length ≤ (hParse s t defs).1.tmpls.length := by
  have htx : (s.tmpl t).text < s.texts.length := hI.tmplText t ht
  unfold hParse
  dsimp only
  split
  · exact ⟨hI, Nat.le_refl _⟩
  · rename_i hne
    have hI1 : Inv (textParse s (s.tmpl t).text defs) :=
      Inv_textParse s (s.tmpl t).text defs hI htx
    obtain ⟨f1, f2, f3⟩ := textParse_frame s (s.tmpl t).text defs htx
    have htm : ∀ i, (textParse s (s.tmpl t).text defs).tmpl i = s.tmpl i :=
      fun i => tmpl_congr f1 i
    have hnsc : ∀ n, (textParse s (s.tmpl t).text defs).ns n = s.ns n :=
      fun n => ns_congr f2 n
    have ht1 : t < (textParse s (s.tmpl t).text defs).tmpls.length := by
      rw [f1]
      exact ht
    have hesc1 : ((textParse s (s.tmpl t).text defs).ns
        ((textParse s (s.tmpl t).text defs).tmpl t).ns).escaped = false := by
      rw [htm, hnsc]
      exact Bool.not_eq_true _ ▸ Bool.of_not_eq_true hne
    have hc1 : ((textParse s (s.tmpl t).text defs).text
        ((textParse s (s.tmpl t).text defs).tmpl t).text).tcommon <
        (textParse s (s.tmpl t).text defs).commons.length :=
      hI1.textCom _ (hI1.tmplText t ht1)
    have hvs : ∀ v ∈ (textTemplates (textParse s (s.tmpl t).text defs)
        ((textParse s (s.tmpl t).text defs).tmpl t).text).map (fun p => p.2),
        v < (textParse s (s.tmpl t).text defs).texts.length ∧
        ((textParse s (s.tmpl t).text defs).text v).tcommon =
          ((textParse s (s.tmpl t).text defs).text
            ((textParse s (s.tmpl t).text defs).tmpl t).text).tcommon := by
      intro v hvm
      obtain ⟨p, hp, hpv⟩ := List.mem_map.mp hvm
      have hpa : p ∈ ((textParse s (s.tmpl t).text defs).common
          ((textParse s (s.tmpl t).text defs).text
            ((textParse s (s.tmpl t).text defs).tmpl t).text).tcommon).assoc := hp
      refine ⟨?_, ?_⟩
      · rw [← hpv]
        exact hI1.assocText _ hc1 p hpa
      · rw [← hpv]
        exact hI1.assocComEq _ hc1 p hpa
    obtain ⟨q1, q2, q3, q4⟩ := syncAll_post t _ _ hI1 ht1 hesc1 hvs
    refine ⟨q1, ?_⟩
    rw [← f1]
    exact q4

theorem CloneInv_of_Inv {s : State} (nt : Nat) (hI : Inv s) : CloneInv s nt :=
  ⟨hI.tmplText, hI.tmplNs, hI.tmplTree, hI.textCom, hI.textTree, hI.assocText,
   hI.setTmplLt, hI.setNsEq, hI.setNameEq, hI.setInj, hI.setKeys, hI.assocKeys,
   hI.assocNameEq, hI.assocComEq, hI.comCoh,
   fun i hi _ h => hI.treeAssoc i hi h,
   hI.htmlTree, hI.escNs, hI.escTree⟩

theorem Inv_of_CloneInv {s : State} {nt : Nat} (hC : CloneInv s nt)
    (hnt : (s.text nt).ttree ≠ none →
      alookup (s.common (s.text nt).tcommon).assoc (s.text nt).tname ≠ none) :
    Inv s := by
  refine ⟨hC.tmplText, hC.tmplNs, hC.tmplTree, hC.textCom, hC.textTree, hC.assocText,
    hC.setTmplLt, hC.setNsEq, hC.setNameEq, hC.setInj, hC.setKeys, hC.assocKeys,
    hC.assocNameEq, hC.assocComEq, hC.comCoh, ?_, hC.htmlTree, hC.escNs, hC.escTree⟩
  intro i hi h
  by_cases he : i = nt
  · subst he
    exact hnt h
  · exact hC.treeAssocX i hi he h

theorem Inv_pushCommon (s : State) (hI : Inv s) :
    Inv { s with commons := s.commons ++ [⟨[]⟩] } := by
  set s2 : State := { s with commons := s.commons ++ [(⟨[]⟩ : CommonObj)] } with hs2
  have hcm : ∀ c, c < s.commons.length → s2.common c = s.common c := fun c h => by
    unfold State.common
    exact getD_append_lt _ _ _ _ h
  have hcN : s2.common s.commons.length = ⟨[]⟩ := by
    unfold State.common
    exact getD_append_len _ _ _
  have hlen : s2.commons.length = s.commons.length + 1 := by
    simp [hs2]
  have hcase : ∀ c, c < s2.commons.length →
      (c < s.commons.length ∧ s2.common c = s.common c) ∨
      (c = s.commons.length ∧ s2.common c = ⟨[]⟩) := by
    intro c hc
    rw [hlen] at hc
    rcases Nat.lt_or_ge c s.commons.length with h | h
    · exact Or.inl ⟨h, hcm c h⟩
    · have he : c = s.commons.length := by omega
      subst he
      exact Or.inr ⟨rfl, hcN⟩
  constructor
  · exact hI.tmplText
  · exact hI.tmplNs
  · exact hI.tmplTree
  · intro i hi
    rw [hlen]
    exact Nat.lt_succ_of_lt (hI.textCom i hi)
  · exact hI.textTree
  · intro c hc p hp
    rcases hcase c hc with ⟨h1, h2⟩ | ⟨h1, h2⟩
    · rw [h2] at hp
      exact hI.assocText c h1 p hp
    · rw [h2] at hp
      exact absurd hp (List.not_mem_nil p)
  · exact hI.setTmplLt
  · exact hI.setNsEq
  · exact hI.setNameEq
  · exact hI.setInj
  · exact hI.setKeys
  · intro c hc
    rcases hcase c hc with ⟨h1, h2⟩ | ⟨h1, h2⟩
    · rw [h2]
      exact hI.assocKeys c h1
    · rw [h2]
      exact List.nodup_nil
  · intro c hc p hp
    rcases hcase c hc with ⟨h1, h2⟩ | ⟨h1, h2⟩
    · rw [h2] at hp
      exact hI.assocNameEq c h1 p hp
    · rw [h2] at hp
      exact absurd hp (List.not_mem_nil p)
  · intro c hc p hp
    rcases hcase c hc with ⟨h1, h2⟩ | ⟨h1, h2⟩
    · rw [h2] at hp
      exact hI.assocComEq c h1 p hp
    · rw [h2] at hp
      exact absurd hp (List.not_mem_nil p)
  · exact hI.comCoh
  · intro i hi h
    have htxr : ∀ j, s2.text j = s.text j := fun j => rfl
    rw [htxr] at h ⊢
    rw [hcm _ (hI.textCom i hi)]
    exact hI.treeAssoc i hi h
  · exact hI.htmlTree
  · exact hI.escNs
  · exact hI.escTree

theorem Inv_pushNs (s : State) (hI : Inv s) :
    Inv { s with nss := s.nss ++ [⟨[], false⟩] } := by
  set s2 : State := { s with nss := s.nss ++ [(⟨[], false⟩ : NsObj)] } with hs2
  have hnm : ∀ n, n < s.nss.length → s2.ns n = s.ns n := fun n h => by
    unfold State.ns
    exact getD_append_lt _ _ _ _ h
  have hnN : s2.ns s.nss.length = ⟨[], false⟩ := by
    unfold State.ns
    exact getD_append_len _ _ _
  have hlen : s2.nss.length = s.nss.length + 1 := by
    simp [hs2]
  have hcase : ∀ n, n < s2.nss.length →
      (n < s.nss.length ∧ s2.ns n = s.ns n) ∨
      (n = s.nss.length ∧ s2.ns n = ⟨[], false⟩) := by
    intro n hn
    rw [hlen] at hn
    rcases Nat.lt_or_ge n s.nss.length with h | h
    · exact Or.inl ⟨h, hnm n h⟩
    · have he : n = s.nss.length := by omega
      subst he
      exact Or.inr ⟨rfl, hnN⟩
  constructor
  · exact hI.tmplText
  · intro i hi
    rw [hlen]
    exact Nat.lt_succ_of_lt (hI.tmplNs i hi)
  · exact hI.tmplTree
  · exact hI.textCom
  · exact hI.textTree
  · exact hI.assocText
  · intro n hn p hp
    rcases hcase n hn with ⟨h1, h2⟩ | ⟨h1, h2⟩
    · rw [h2] at hp
      exact hI.setTmplLt n h1 p hp
    · rw [h2] at hp
      exact absurd hp (List.not_mem_nil p)
  · intro n hn p hp
    rcases hcase n hn with ⟨h1, h2⟩ | ⟨h1, h2⟩
    · rw [h2] at hp
      exact hI.setNsEq n h1 p hp
    · rw [h2] at hp
      exact absurd hp (List.not_mem_nil p)
  · intro n hn p hp
    rcases hcase n hn with ⟨h1, h2⟩ | ⟨h1, h2⟩
    · rw [h2] at hp
      exact hI.setNameEq n h1 p hp
    · rw [h2] at hp
      exact absurd hp (List.not_mem_nil p)
  · intro n hn m hm p hp q hq hpq
    rcases hcase n hn with ⟨h1, h2⟩ | ⟨h1, h2⟩
    · rcases hcase m hm with ⟨h3, h4⟩ | ⟨h3, h4⟩
      · rw [h2] at hp
        rw [h4] at hq
        exact hI.setInj n h1 m h3 p hp q hq hpq
      · rw [h4] at hq
        exact absurd hq (List.not_mem_nil q)
    · rw [h2] at hp
      exact absurd hp (List.not_mem_nil p)
  · intro n hn
    rcases hcase n hn with ⟨h1, h2⟩ | ⟨h1, h2⟩
    · rw [h2]
      exact hI.setKeys n h1
    · rw [h2]
      exact List.nodup_nil
  · exact hI.assocKeys
  · exact hI.assocNameEq
  · exact hI.assocComEq
  · exact hI.comCoh
  · exact hI.treeAssoc
  · exact hI.htmlTree
  · intro i hi h
    have htmr : ∀ j, s2.tmpl j = s.tmpl j := fun j => rfl
    rw [htmr] at h ⊢
    rw [hnm _ (hI.tmplNs i hi)]
    exact hI.escNs i hi h
  · exact hI.escTree

theorem CloneInv_aset (s : State) (nt c x : Nat) (k : String) (hC : CloneInv s nt)
    (hc : c < s.commons.length) (hx : x < s.texts.length)
    (hcom : (s.text x).tcommon = c) (hname : (s.text x).tname = k) :
    CloneInv (s.setCommon c ⟨aset (s.common c).assoc k x⟩) nt := by
  set s2 := s.setCommon c ⟨aset (s.common c).assoc k x⟩ with hs2
  have hclen : s2.commons.length = s.commons.length := by
    simp [hs2, State.setCommon]
  have hcm : ∀ m, m < s.commons.length → m ≠ c → s2.common m = s.common m := fun m hm hne => by
    rw [hs2]
    exact common_setCommon_ne s (fun h => hne h.symm) _
  have hcSelf : s2.common c = ⟨aset (s.common c).assoc k x⟩ := by
    rw [hs2]
    exact common_setCommon_self s c hc _
  have htxr : ∀ i, s2.text i = s.text i := fun i => rfl
  have htmr : ∀ i, s2.tmpl i = s.tmpl i := fun i => rfl
  have hnsr : ∀ i, s2.ns i = s.ns i := fun i => rfl
  have hmem : ∀ m, m < s.commons.length → ∀ p, p ∈ (s2.common m).assoc →
      (m = c ∧ p = (k, x)) ∨ p ∈ (s.common m).assoc := by
    intro m hm p hp
    by_cases he : m = c
    · subst he
      rw [hcSelf] at hp
      rcases mem_aset (hC.assocKeys m hm) hp with h | h
      · exact Or.inl ⟨rfl, h⟩
      · exact Or.inr h.1
    · rw [hcm m hm he] at hp
      exact Or.inr hp
  constructor
  · exact hC.tmplText
  · exact hC.tmplNs
  · exact hC.tmplTree
  · intro i hi
    rw [htxr, hclen]
    exact hC.textCom i hi
  · exact hC.textTree
  · intro m hm p hp
    rw [hclen] at hm
    rcases hmem m hm p hp with ⟨he, hp2⟩ | hp2
    · rw [hp2]
      exact hx
    · exact hC.assocText m hm p hp2
  · exact hC.setTmplLt
  · exact hC.setNsEq
  · exact hC.setNameEq
  · exact hC.setInj
  · exact hC.setKeys
  · intro m hm
    rw [hclen] at hm
    by_cases he : m = c
    · subst he
      rw [hcSelf]
      exact aset_keys_nodup _ _ (hC.assocKeys m hm)
    · rw [hcm m hm he]
      exact hC.assocKeys m hm
  · intro m hm p hp
    rw [hclen] at hm
    rw [htxr]
    rcases hmem m hm p hp with ⟨he, hp2⟩ | hp2
    · rw [hp2]
      exact hname
    · exact hC.assocNameEq m hm p hp2
  · intro m hm p hp
    rw [hclen] at hm
    rw [htxr]
    rcases hmem m hm p hp with ⟨he, hp2⟩ | hp2
    · rw [hp2, he]
      exact hcom
    · exact hC.assocComEq m hm p hp2
  · exact hC.comCoh
  · intro i hi hne h
    rw [htxr] at h ⊢
    by_cases he : (s.text i).tcommon = c
    · rw [he, hcSelf]
      by_cases he2 : (s.text i).tname = k
      · rw [he2]
        rw [alookup_aset_self]
        intro hcontra
        cases hcontra
      · rw [alookup_aset_ne _ _ _ _ he2]
        rw [← he]
        exact hC.treeAssocX i hi hne h
    · rw [hcm _ (hC.textCom i hi) he]
      exact hC.treeAssocX i hi hne h
  · exact hC.htmlTree
  · exact hC.escNs
  · exact hC.escTree

theorem CloneInv_pushAssoc (s : State) (nt c : Nat) (k nm : String) (tr : Option Nat)
    (hC : CloneInv s nt) (hc : c < s.commons.length)
    (htr : ∀ j, tr = some j → j < s.trees.length) (hnm : nm = k) :
    CloneInv (({ s with texts := s.texts ++ [⟨nm, tr, c⟩] } : State).setCommon c
      ⟨aset (s.common c).assoc k s.texts.length⟩) nt := by
  set s1 : State := { s with texts := s.texts ++ [(⟨nm, tr, c⟩ : TextObj)] } with hs1
  set s2 := s1.setCommon c ⟨aset (s.common c).assoc k s.texts.length⟩ with hs2
  have htx : ∀ i, i < s.texts.length → s2.text i = s.text i := fun i h => by
    unfold State.text
    exact getD_append_lt _ _ _ _ h
  have htxN : s2.text s.texts.length = ⟨nm, tr, c⟩ := by
    unfold State.text
    exact getD_append_len _ _ _
  have htlen : s2.texts.length = s.texts.length + 1 := by
    simp [hs2, hs1, State.setCommon]
  have hcaseT : ∀ i, i < s2.texts.length →
      (i < s.texts.length ∧ s2.text i = s.text i) ∨
      (i = s.texts.length ∧ s2.text i = ⟨nm, tr, c⟩) := by
    intro i hi
    rw [htlen] at hi
    rcases Nat.lt_or_ge i s.texts.length with h | h
    · exact Or.inl ⟨h, htx i h⟩
    · have he : i = s.texts.length := by omega
      subst he
      exact Or.inr ⟨rfl, htxN⟩
  have hclen : s2.commons.length = s.commons.length := by
    simp [hs2, hs1, State.setCommon]
  have hcm : ∀ m, m < s.commons.length → m ≠ c → s2.common m = s.common m := fun m hm hne => by
    rw [hs2]
    exact common_setCommon_ne s1 (fun h => hne h.symm) _
  have hcSelf : s2.common c = ⟨aset (s.common c).assoc k s.texts.length⟩ := by
    rw [hs2]
    exact common_setCommon_self s1 c hc _
  have htmr : ∀ i, s2.tmpl i = s.tmpl i := fun i => rfl
  have hnsr : ∀ i, s2.ns i = s.ns i := fun i => rfl
  have htrr : s2.trees = s.trees := rfl
  have hmem : ∀ m, m < s.commons.length → ∀ p, p ∈ (s2.common m).assoc →
      (m = c ∧ p = (k, s.texts.length)) ∨ p ∈ (s.common m).assoc := by
    intro m hm p hp
    by_cases he : m = c
    · subst he
      rw [hcSelf] at hp
      rcases mem_aset (hC.assocKeys m hm) hp with h | h
      · exact Or.inl ⟨rfl, h⟩
      · exact Or.inr h.1
    · rw [hcm m hm he] at hp
      exact Or.inr hp
  constructor
  · intro i hi
    rw [htlen]
    exact Nat.lt_succ_of_lt (hC.tmplText i hi)
  · exact hC.tmplNs
  · exact hC.tmplTree
  · intro i hi
    rw [hclen]
    rcases hcaseT i hi with ⟨h1, h2⟩ | ⟨h1, h2⟩
    · rw [h2]
      exact hC.textCom i h1
    · rw [h2]
      exact hc
  · intro i hi tr2 h
    rcases hcaseT i hi with ⟨h1, h2⟩ | ⟨h1, h2⟩
    · rw [h2] at h
      exact hC.textTree i h1 tr2 h
    · rw [h2] at h
      exact htr tr2 h
  · intro m hm p hp
    rw [hclen] at hm
    rw [htlen]
    rcases hmem m hm p hp with ⟨he, hp2⟩ | hp2
    · rw [hp2]
      omega
    · exact Nat.lt_succ_of_lt (hC.assocText m hm p hp2)
  · exact hC.setTmplLt
  · exact hC.setNsEq
  · intro n hn p hp
    unfold State.tmplName
    rw [htmr, htx _ (hC.tmplText p.2 (hC.setTmplLt n hn p hp))]
    exact hC.setNameEq n hn p hp
  · exact hC.setInj
  · exact hC.setKeys
  · intro m hm
    rw [hclen] at hm
    by_cases he : m = c
    · subst he
      rw [hcSelf]
      exact aset_keys_nodup _ _ (hC.assocKeys m hm)
    · rw [hcm m hm he]
      exact hC.assocKeys m hm
  · intro m hm p hp
    rw [hclen] at hm
    rcases hmem m hm p hp with ⟨he, hp2⟩ | hp2
    · rw [hp2, htxN]
      exact hnm
    · rw [htx _ (hC.assocText m hm p hp2)]
      exact hC.assocNameEq m hm p hp2
  · intro m hm p hp
    rw [hclen] at hm
    rcases hmem m hm p hp with ⟨he, hp2⟩ | hp2
    · rw [hp2, htxN, he]
    · rw [htx _ (hC.assocText m hm p hp2)]
      exact hC.assocComEq m hm p hp2
  · intro i hi j hj hij
    rw [htmr i, htmr j] at hij ⊢
    rw [htx _ (hC.tmplText i hi), htx _ (hC.tmplText j hj)]
    exact hC.comCoh i hi j hj hij
  · intro i hi hne h
    rcases hcaseT i hi with ⟨h1, h2⟩ | ⟨h1, h2⟩
    · rw [h2] at h ⊢
      by_cases he : (s.text i).tcommon = c
      · rw [he, hcSelf]
        by_cases he2 : (s.text i).tname = k
        · rw [he2, alookup_aset_self]
          intro hcontra
          cases hcontra
        · rw [alookup_aset_ne _ _ _ _ he2, ← he]
          exact hC.treeAssocX i h1 hne h
      · rw [hcm _ (hC.textCom i h1) he]
        exact hC.treeAssocX i h1 hne h
    · rw [h2, hcSelf]
      show alookup (aset (s.common c).assoc k s.texts.length) nm ≠ none
      rw [hnm, alookup_aset_self]
      intro hcontra
      cases hcontra
  · intro i hi h
    rw [htmr i] at h ⊢
    rw [htx _ (hC.tmplText i hi)]
    exact hC.htmlTree i hi h
  · exact hC.escNs
  · intro i hi h
    rw [htmr i] at h ⊢
    rw [htx _ (hC.tmplText i hi)]
    exact hC.escTree i hi h

theorem CloneInv_pushNt (s : State) (c : Nat) (nm : String) (tr : Option Nat)
    (hI : Inv s) (hc : c < s.commons.length)
    (htr : ∀ j, tr = some j → j < s.trees.length) :
    CloneInv { s with texts := s.texts ++ [⟨nm, tr, c⟩] } s.texts.length := by
  set s2 : State := { s with texts := s.texts ++ [(⟨nm, tr, c⟩ : TextObj)] } with hs2
  have htx : ∀ i, i < s.texts.length → s2.text i = s.text i := fun i h => by
    unfold State.text
    exact getD_append_lt _ _ _ _ h
  have htxN : s2.text s.texts.length = ⟨nm, tr, c⟩ := by
    unfold State.text
    exact getD_append_len _ _ _
  have htlen : s2.texts.length = s.texts.length + 1 := by
    simp [hs2]
  have hcaseT : ∀ i, i < s2.texts.length →
      (i < s.texts.length ∧ s2.text i = s.text i) ∨
      (i = s.texts.length ∧ s2.text i = ⟨nm, tr, c⟩) := by
    intro i hi
    rw [htlen] at hi
    rcases Nat.lt_or_ge i s.texts.length with h | h
    · exact Or.inl ⟨h, htx i h⟩
    · have he : i = s.texts.length := by omega
      subst he
      exact Or.inr ⟨rfl, htxN⟩
  have htmr : ∀ i, s2.tmpl i = s.tmpl i := fun i => rfl
  have hcmr : ∀ i, s2.common i = s.common i := fun i => rfl
  have hnsr : ∀ i, s2.ns i = s.ns i := fun i => rfl
  constructor
  · intro i hi
    rw [htlen]
    exact Nat.lt_succ_of_lt (hI.tmplText i hi)
  · exact hI.tmplNs
  · exact hI.tmplTree
  · intro i hi
    rcases hcaseT i hi with ⟨h1, h2⟩ | ⟨h1, h2⟩
    · rw [h2]
      exact hI.textCom i h1
    · rw [h2]
      exact hc
  · intro i hi tr2 h
    rcases hcaseT i hi with ⟨h1, h2⟩ | ⟨h1, h2⟩
    · rw [h2] at h
      exact hI.textTree i h1 tr2 h
    · rw [h2] at h
      exact htr tr2 h
  · intro m hm p hp
    rw [htlen]
    exact Nat.lt_succ_of_lt (hI.assocText m hm p hp)
  · exact hI.setTmplLt
  · exact hI.setNsEq
  · intro n hn p hp
    unfold State.tmplName
    rw [htmr, htx _ (hI.tmplText p.2 (hI.setTmplLt n hn p hp))]
    exact hI.setNameEq n hn p hp
  · exact hI.setInj
  · exact hI.setKeys
  · exact hI.assocKeys
  · intro m hm p hp
    rw [htx _ (hI.assocText m hm p hp)]
    exact hI.assocNameEq m hm p hp
  · intro m hm p hp
    rw [htx _ (hI.assocText m hm p hp)]
    exact hI.assocComEq m hm p hp
  · intro i hi j hj hij
    rw [htmr i, htmr j] at hij ⊢
    rw [htx _ (hI.tmplText i hi), htx _ (hI.tmplText j hj)]
    exact hI.comCoh i hi j hj hij
  · intro i hi hne h
    rw [htlen] at hi
    have h1 : i < s.texts.length := by omega
    rw [htx _ h1] at h ⊢
    rw [hcmr]
    exact hI.treeAssoc i h1 h
  · intro i hi h
    rw [htmr i] at h ⊢
    rw [htx _ (hI.tmplText i hi)]
    exact hI.htmlTree i hi h
  · exact hI.escNs
  · intro i hi h
    rw [htmr i] at h ⊢
    rw [htx _ (hI.tmplText i hi)]
    exact hI.escTree i hi h

theorem textCloneLoop_post (srcName : String) (cNew nt : Nat)
    (es : List (String × Nat)) :
    ∀ s : State, CloneInv s nt →
    cNew < s.commons.length →
    nt < s.texts.length →
    (s.text nt).tname = srcName →
    (s.text nt).tcommon = cNew →
    (∀ p ∈ es, p.2 < nt ∧ (s.text p.2).tname = p.1) →
    ((s.text nt).ttree ≠ none →
      srcName ∈ es.map Prod.fst ∨ alookup (s.common cNew).assoc srcName ≠ none) →
    (∀ p ∈ (s.common cNew).assoc, nt ≤ p.2) →
    CloneInv (textCloneLoop srcName cNew nt s es) nt ∧
    (textCloneLoop srcName cNew nt s es).tmpls = s.tmpls ∧
    (textCloneLoop srcName cNew nt s es).nss = s.nss ∧
    (textCloneLoop srcName cNew nt s es).trees = s.trees ∧
    (textCloneLoop srcName cNew nt s es).commons.length = s.commons.length ∧
    (∀ m, m ≠ cNew → (textCloneLoop srcName cNew nt s es).common m = s.common m) ∧
    (∀ i, i < s.texts.length → (textCloneLoop srcName cNew nt s es).text i = s.text i) ∧
    s.texts.length ≤ (textCloneLoop srcName cNew nt s es).texts.length ∧
    ((s.text nt).ttree ≠ none →
      alookup ((textCloneLoop srcName cNew nt s es).common cNew).assoc srcName ≠ none) ∧
    (∀ p ∈ ((textCloneLoop srcName cNew nt s es).common cNew).assoc, nt ≤ p.2) ∧
    (∀ k, alookup (s.common cNew).assoc k ≠ none →
      alookup ((textCloneLoop srcName cNew nt s es).common cNew).assoc k ≠ none) ∧
    (∀ q ∈ es,
      alookup ((textCloneLoop srcName cNew nt s es).common cNew).assoc q.1 ≠ none) := by
  induction es with
  | nil =>
    intro s hC hcNew hntlt hntname hntcom hes hpro hfresh
    refine ⟨hC, rfl, rfl, rfl, rfl, fun m _ => rfl, fun i _ => rfl, Nat.le_refl _,
      ?_, hfresh, fun k hk => hk, fun q hq => absurd hq (List.not_mem_nil q)⟩
    intro h
    rcases hpro h with hmem | hx
    · exact absurd hmem (List.not_mem_nil _)
    · exact hx
  | cons e rest ih =>
    obtain ⟨k, v⟩ := e
    intro s hC hcNew hntlt hntname hntcom hes hpro hfresh
    obtain ⟨hvlt, hvname⟩ := hes (k, v) (List.mem_cons_self _ _)
    unfold textCloneLoop
    dsimp only
    split
    · rename_i hk
      set s2 := s.setCommon cNew ⟨aset (s.common cNew).assoc k nt⟩ with hs2
      have hC2 : CloneInv s2 nt := by
        apply CloneInv_aset s nt cNew nt k hC hcNew hntlt hntcom
        rw [hntname, hk]
      have hclen : s2.commons.length = s.commons.length := by
        simp [hs2, State.setCommon]
      have hcSelf : s2.common cNew = ⟨aset (s.common cNew).assoc k nt⟩ := by
        rw [hs2]
        exact common_setCommon_self s cNew hcNew _
      have htxr : ∀ i, s2.text i = s.text i := fun i => rfl
      have hstepM : ∀ k2, alookup (s.common cNew).assoc k2 ≠ none →
          alookup (s2.common cNew).assoc k2 ≠ none := by
        intro k2 hk2
        rw [hcSelf]
        show alookup (aset (s.common cNew).assoc k nt) k2 ≠ none
        by_cases he : k2 = k
        · subst he
          rw [alookup_aset_self]
          intro hc
          cases hc
        · rw [alookup_aset_ne _ _ _ _ he]
          exact hk2
      have hkbound : alookup (s2.common cNew).assoc k ≠ none := by
        rw [hcSelf]
        show alookup (aset (s.common cNew).assoc k nt) k ≠ none
        rw [alookup_aset_self]
        intro hc
        cases hc
      obtain ⟨q1, q2, q3, q4, q5, q6, q7, q8, q9, q10, q11, q12⟩ := ih s2 hC2
        (by rw [hclen]; exact hcNew) hntlt (by rw [htxr]; exact hntname)
        (by rw [htxr]; exact hntcom)
        (fun p hp => by
          obtain ⟨h1, h2⟩ := hes p (List.mem_cons_of_mem _ hp)
          exact ⟨h1, by rw [htxr]; exact h2⟩)
        (fun h => by
          refine Or.inr ?_
          rw [hcSelf]
          show alookup (aset (s.common cNew).assoc k nt) srcName ≠ none
          rw [← hk, alookup_aset_self]
          intro hcontra
          cases hcontra)
        (fun p hp => by
          rw [hcSelf] at hp
          rcases mem_aset (hC.assocKeys cNew hcNew) hp with h | h
          · rw [h]
          · exact hfresh p h.1)
      refine ⟨q1, q2, q3, q4, ?_, ?_, ?_, q8, ?_, q10, ?_, ?_⟩
      · rw [q5, hclen]
      · intro m hm
        rw [q6 m hm, hs2]
        exact common_setCommon_ne s (fun h => hm h.symm) _
      · intro i hi
        rw [q7 i hi, htxr]
      · intro h
        exact q9 (by rw [htxr]; exact h)
      · intro k2 hk2
        exact q11 k2 (hstepM k2 hk2)
      · intro q hq
        rcases List.mem_cons.mp hq with he | hm2
        · rw [he]
          exact q11 k hkbound
        · exact q12 q hm2
    · rename_i hk
      have hvtx : v < s.texts.length := Nat.lt_trans hvlt hntlt
      set s1 : State := { s with texts := s.texts ++ [⟨(s.text v).tname, (s.text v).ttree, cNew⟩] } with hs1
      set s2 : State := s1.setCommon cNew ⟨aset (s1.common cNew).assoc k s.texts.length⟩ with hs2
      have hC2 : CloneInv s2 nt :=
        CloneInv_pushAssoc s nt cNew k (s.text v).tname (s.text v).ttree hC hcNew
          (fun j hj => hC.textTree v hvtx j hj) hvname
      have hclen : s2.commons.length = s.commons.length := by
        simp [hs2, hs1, State.setCommon]
      have hcSelf : s2.common cNew = ⟨aset (s.common cNew).assoc k s.texts.length⟩ := by
        rw [hs2]
        exact common_setCommon_self _ cNew hcNew _
      have htx : ∀ i, i < s.texts.length → s2.text i = s.text i := fun i h =>
        getD_append_lt _ _ _ _ h
      have htlen : s2.texts.length = s.texts.length + 1 := by
        simp [hs2, hs1, State.setCommon]
      have hstepM : ∀ k2, alookup (s.common cNew).assoc k2 ≠ none →
          alookup (s2.common cNew).assoc k2 ≠ none := by
        intro k2 hk2
        rw [hcSelf]
        show alookup (aset (s.common cNew).assoc k s.texts.length) k2 ≠ none
        by_cases he : k2 = k
        · subst he
          rw [alookup_aset_self]
          intro hc
          cases hc
        · rw [alookup_aset_ne _ _ _ _ he]
          exact hk2
      have hkbound : alookup (s2.common cNew).assoc k ≠ none := by
        rw [hcSelf]
        show alookup (aset (s.common cNew).assoc k s.texts.length) k ≠ none
        rw [alookup_aset_self]
        intro hc
        cases hc
      obtain ⟨q1, q2, q3, q4, q5, q6, q7, q8, q9, q10, q11, q12⟩ := ih s2 hC2
        (by rw [hclen]; exact hcNew)
        (by rw [htlen]; omega)
        (by rw [htx nt hntlt]; exact hntname)
        (by rw [htx nt hntlt]; exact hntcom)
        (fun p hp => by
          obtain ⟨h1, h2⟩ := hes p (List.mem_cons_of_mem _ hp)
          exact ⟨h1, by rw [htx _ (Nat.lt_trans h1 hntlt)]; exact h2⟩)
        (fun h => by
          rw [htx nt hntlt] at h
          rcases hpro h with hmem | hx
          · rcases List.mem_cons.mp hmem with he | he
            · exact absurd he.symm hk
            · exact Or.inl he
          · refine Or.inr ?_
            rw [hcSelf]
            show alookup (aset (s.common cNew).assoc k s.texts.length) srcName ≠ none
            rw [alookup_aset_ne _ _ _ _ (fun he => hk he.symm)]
            exact hx)
        (fun p hp => by
          rw [hcSelf] at hp
          rcases mem_aset (hC.assocKeys cNew hcNew) hp with h | h
          · rw [h]
            exact Nat.le_of_lt hntlt
          · exact hfresh p h.1)
      refine ⟨q1, q2, q3, q4, ?_, ?_, ?_, ?_, ?_, q10, ?_, ?_⟩
      · rw [q5, hclen]
      · intro m hm
        rw [q6 m hm, hs2]
        exact common_setCommon_ne _ (fun h => hm h.symm) _
      · intro i hi
        rw [q7 i (by rw [htlen]; omega), htx i hi]
      · rw [htlen] at q8
        omega
      · intro h
        exact q9 (by rw [htx nt hntlt]; exact h)
      · intro k2 hk2
        exact q11 k2 (hstepM k2 hk2)
      · intro q hq
        rcases List.mem_cons.mp hq with he | hm2
        · rw [he]
          exact q11 k hkbound
        · exact q12 q hm2

theorem getD_ge {α} (l : List α) (d : α) (i : Nat) (h : l.length ≤ i) :
    l.getD i d = d := List.getD_eq_default _ _ h

theorem textClone_post (s : State) (t : Nat) (hI : Inv s) (ht : t < s.texts.length) :
    Inv (textClone s t).1 ∧
    (textClone s t).2 = s.texts.length ∧
    (textClone s t).1.tmpls = s.tmpls ∧
    (textClone s t).1.nss = s.nss ∧
    (textClone s t).1.trees = s.trees ∧
    (textClone s t).1.commons.length = s.commons.length + 1 ∧
    (∀ m, m ≠ s.commons.length → (textClone s t).1.common m = s.common m) ∧
    (∀ i, i < s.texts.length → (textClone s t).1.text i = s.text i) ∧
    s.texts.length < (textClone s t).1.texts.length ∧
    ((textClone s t).1.text s.texts.length).tname = (s.text t).tname ∧
    ((textClone s t).1.text s.texts.length).ttree = (s.text t).ttree ∧
    ((textClone s t).1.text s.texts.length).tcommon = s.commons.length ∧
    (∀ p ∈ ((textClone s t).1.common s.commons.length).assoc, s.texts.length ≤ p.2) ∧
    (∀ q ∈ (s.common (s.text t).tcommon).assoc,
      alookup ((textClone s t).1.common s.commons.length).assoc q.1 ≠ none) := by
  have hcom : (s.text t).tcommon < s.commons.length := hI.textCom t ht
  unfold textClone
  dsimp only
  set s1 : State := { s with commons := s.commons ++ [⟨[]⟩] } with hsA
  set s2 : State := { s1 with texts := s1.texts ++ [⟨(s.text t).tname, (s.text t).ttree, s.commons.length⟩] } with hsB
  have hI1 : Inv s1 := Inv_pushCommon s hI
  have hC2 : CloneInv s2 s.texts.length :=
    CloneInv_pushNt s1 s.commons.length (s.text t).tname (s.text t).ttree hI1
      (by show s.commons.length < (s.commons ++ [(⟨[]⟩ : CommonObj)]).length; simp)
      (fun j hj => hI.textTree t ht j hj)
  have hS2tx : ∀ i, i < s.texts.length → s2.text i = s.text i := fun i h =>
    getD_append_lt _ _ _ _ h
  have hTn : s2.text s.texts.length =
      ⟨(s.text t).tname, (s.text t).ttree, s.commons.length⟩ :=
    getD_append_len _ _ _
  have hS2tlen : s2.texts.length = s.texts.length + 1 := by
    simp [hsB, hsA]
  have hS2clen : s2.commons.length = s.commons.length + 1 := by
    simp [hsB, hsA]
  have hS2cm : ∀ m, m ≠ s.commons.length → s2.common m = s.common m := by
    intro m hm
    rcases Nat.lt_or_ge m s.commons.length with h | h
    · exact getD_append_lt _ _ _ _ h
    · have h2 : s.commons.length < m := by omega
      show (s.commons ++ [(⟨[]⟩ : CommonObj)]).getD m _ = s.commons.getD m _
      rw [getD_ge _ _ _ (by simp; omega), getD_ge _ _ _ (by omega)]
  have hS2cN : s2.common s.commons.length = ⟨[]⟩ := getD_append_len _ _ _
  obtain ⟨L1, L2, L3, L4, L5, L6, L7, L8, L9, L10, L11, L12⟩ :=
    textCloneLoop_post (s.text t).tname s.commons.length s.texts.length
      (s.common (s.text t).tcommon).assoc s2 hC2
      (by rw [hS2clen]; omega)
      (by rw [hS2tlen]; omega)
      (by rw [hTn])
      (by rw [hTn])
      (fun p hp => ⟨hI.assocText _ hcom p hp,
        by rw [hS2tx _ (hI.assocText _ hcom p hp)]; exact hI.assocNameEq _ hcom p hp⟩)
      (by
        intro h
        rw [hTn] at h
        have h2 : (s.text t).ttree ≠ none := h
        have h3 := hI.treeAssoc t ht h2
        obtain ⟨w, hw⟩ := Option.ne_none_iff_exists'.mp h3
        exact Or.inl (List.mem_map.mpr ⟨((s.text t).tname, w), alookup_mem hw, rfl⟩))
      (by
        intro p hp
        rw [hS2cN] at hp
        exact absurd hp (List.not_mem_nil p))
  set R := textCloneLoop (s.text t).tname s.commons.length s.texts.length s2
    (s.common (s.text t).tcommon).assoc with hR
  have hRtx : R.text s.texts.length =
      ⟨(s.text t).tname, (s.text t).ttree, s.commons.length⟩ := by
    rw [L7 _ (by rw [hS2tlen]; omega)]
    exact hTn
  refine ⟨?_, rfl, ?_, ?_, ?_, ?_, ?_, ?_, ?_, ?_, ?_, ?_, L10, L12⟩
  · apply Inv_of_CloneInv L1
    intro h
    rw [hRtx] at h ⊢
    show alookup (R.common s.commons.length).assoc (s.text t).tname ≠ none
    apply L9
    rw [hTn]
    exact h
  · rw [L2]
  · rw [L3]
  · rw [L4]
  · rw [L5, hS2clen]
  · intro m hm
    rw [L6 m hm, hS2cm m hm]
  · intro i hi
    rw [L7 i (by rw [hS2tlen]; omega), hS2tx i hi]
  · rw [hS2tlen] at L8
    omega
  · rw [hRtx]
  · rw [hRtx]
  · rw [hRtx]

theorem Inv_setTtreeO (s : State) (x : Nat) (ct : Option Nat) (hI : Inv s)
    (hbound : ∀ j, ct = some j → j < s.trees.length)
    (hassoc : ct ≠ none →
      alookup (s.common (s.text x).tcommon).assoc (s.text x).tname ≠ none)
    (hsn : (s.text x).ttree ≠ none → ct ≠ none) :
    Inv (s.setText x { s.text x with ttree := ct }) := by
  set v : TextObj := { s.text x with ttree := ct } with hv
  set s2 := s.setText x v with hs2
  have hlen : s2.texts.length = s.texts.length := by
    simp [hs2, State.setText]
  have hcase : ∀ i, s2.text i = s.text i ∨ (s2.text i = v ∧ i = x ∧ x < s.texts.length) :=
    fun i => text_setText_cases s x v i
  have hkeep : ∀ i, (s2.text i).tname = (s.text i).tname ∧
      (s2.text i).tcommon = (s.text i).tcommon :=
    setText_keepFields s x v ⟨rfl, rfl⟩
  have htmr : ∀ i, s2.tmpl i = s.tmpl i := fun i => rfl
  have hcmr : ∀ i, s2.common i = s.common i := fun i => rfl
  have hnsr : ∀ i, s2.ns i = s.ns i := fun i => rfl
  constructor
  · intro i hi
    rw [hlen]
    exact hI.tmplText i hi
  · exact hI.tmplNs
  · exact hI.tmplTree
  · intro i hi
    rw [(hkeep i).2]
    exact hI.textCom i (by rw [← hlen]; exact hi)
  · intro i hi tr2 h
    rcases hcase i with hc | ⟨hc, he, hlt⟩
    · rw [hc] at h
      exact hI.textTree i (by rw [← hlen]; exact hi) tr2 h
    · rw [hc, hv] at h
      exact hbound tr2 h
  · intro m hm p hp
    rw [hlen]
    exact hI.assocText m hm p hp
  · exact hI.setTmplLt
  · exact hI.setNsEq
  · intro m hm p hp
    unfold State.tmplName
    rw [htmr, (hkeep _).1]
    exact hI.setNameEq m hm p hp
  · exact hI.setInj
  · exact hI.setKeys
  · exact hI.assocKeys
  · intro m hm p hp
    rw [(hkeep _).1]
    exact hI.assocNameEq m hm p hp
  · intro m hm p hp
    rw [(hkeep _).2]
    exact hI.assocComEq m hm p hp
  · intro i hi j hj hij
    rw [htmr i, htmr j] at hij ⊢
    rw [(hkeep _).2, (hkeep _).2]
    exact hI.comCoh i hi j hj hij
  · intro i hi h
    rw [(hkeep i).1, (hkeep i).2, hcmr]
    rcases hcase i with hc | ⟨hc, he, hlt⟩
    · rw [hc] at h
      exact hI.treeAssoc i (by rw [← hlen]; exact hi) h
    · rw [he]
      rw [hc, hv] at h
      exact hassoc h
  · intro i hi h
    rw [htmr i] at h ⊢
    rcases hcase (s.tmpl i).text with hc | ⟨hc, he, hlt⟩
    · rw [hc]
      exact hI.htmlTree i hi h
    · rw [hc, hv]
      show ct ≠ none
      apply hsn
      rw [← he]
      exact hI.htmlTree i hi h
  · exact hI.escNs
  · intro i hi h
    rw [htmr i] at h ⊢
    rcases hcase (s.tmpl i).text with hc | ⟨hc, he, hlt⟩
    · rw [hc]
      exact hI.escTree i hi h
    · rw [hc, hv]
      show ct ≠ none
      apply hsn
      rw [← he]
      exact hI.escTree i hi h

theorem Inv_treeCopy (s : State) (tr : Option Nat) (hI : Inv s) :
    Inv (treeCopy s tr).1 := by
  unfold treeCopy
  match tr with
  | none => exact hI
  | some i => exact Inv_pushTree s (s.tree i) hI

theorem treeCopy_facts (s : State) (tr : Option Nat) :
    (treeCopy s tr).1.texts = s.texts ∧
    (treeCopy s tr).1.tmpls = s.tmpls ∧
    (treeCopy s tr).1.nss = s.nss ∧
    (treeCopy s tr).1.commons = s.commons ∧
    s.trees.length ≤ (treeCopy s tr).1.trees.length ∧
    (∀ i, i < s.trees.length → (treeCopy s tr).1.tree i = s.tree i) ∧
    (∀ j, (treeCopy s tr).2 = some j → j < (treeCopy s tr).1.trees.length) ∧
    ((treeCopy s tr).2 = none ↔ tr = none) := by
  unfold treeCopy
  match tr with
  | none =>
    refine ⟨rfl, rfl, rfl, rfl, Nat.le_refl _, fun i _ => rfl, ?_, ?_⟩
    · intro j hj
      have hj2 : (none : Option Nat) = some j := hj
      cases hj2
    · constructor
      · intro _
        rfl
      · intro _
        rfl
  | some i =>
    refine ⟨rfl, rfl, rfl, rfl, by simp, ?_, ?_, ?_⟩
    · intro j hj
      unfold State.tree
      exact getD_append_lt _ _ _ _ hj
    · intro j hj
      have hj2 : some s.trees.length = some j := hj
      have h2 : s.trees.length = j := Option.some.inj hj2
      subst h2
      show s.trees.length < (s.trees ++ [s.tree i]).length
      simp
    · constructor
      · intro h
        have h2 : (some s.trees.length : Option Nat) = none := h
        cases h2
      · intro h
        cases h

theorem cloneLoop_post (srcNs dstNs : Nat) (errName : String) (c0 trees0 : Nat)
    (xs : List Nat) :
    ∀ s : State, Inv s →
    dstNs < s.nss.length →
    (∀ j, j < s.tmpls.length → (s.tmpl j).ns = dstNs →
      (s.text (s.tmpl j).text).tcommon = c0) →
    (∀ x ∈ xs, x < s.texts.length ∧ (s.text x).tcommon = c0) →
    srcNs ≠ dstNs →
    trees0 ≤ s.trees.length →
    (∀ p ∈ (s.ns dstNs).set, (∀ j, (s.tmpl p.2).tree = some j → trees0 ≤ j) ∨
      p.1 ∈ xs.map (fun x => (s.text x).tname)) →
    Inv (cloneLoop srcNs dstNs errName s xs).1 ∧
    (∀ i, i < s.tmpls.length →
      (cloneLoop srcNs dstNs errName s xs).1.tmpl i = s.tmpl i) ∧
    s.tmpls.length ≤ (cloneLoop srcNs dstNs errName s xs).1.tmpls.length ∧
    (cloneLoop srcNs dstNs errName s xs).1.nss.length = s.nss.length ∧
    (∀ m, m ≠ dstNs → (cloneLoop srcNs dstNs errName s xs).1.ns m = s.ns m) ∧
    (cloneLoop srcNs dstNs errName s xs).1.commons = s.commons ∧
    (cloneLoop srcNs dstNs errName s xs).1.texts.length = s.texts.length ∧
    (∀ i, ((cloneLoop srcNs dstNs errName s xs).1.text i).tname = (s.text i).tname ∧
      ((cloneLoop srcNs dstNs errName s xs).1.text i).tcommon = (s.text i).tcommon) ∧
    ((cloneLoop srcNs dstNs errName s xs).1.ns dstNs).escaped = (s.ns dstNs).escaped ∧
    (∀ k, alookup (s.ns dstNs).set k ≠ none →
      alookup ((cloneLoop srcNs dstNs errName s xs).1.ns dstNs).set k ≠ none) ∧
    (∀ p ∈ ((cloneLoop srcNs dstNs errName s xs).1.ns dstNs).set,
      p ∈ (s.ns dstNs).set ∨ s.tmpls.length ≤ p.2) ∧
    ((cloneLoop srcNs dstNs errName s xs).2 = none →
      ∀ p ∈ ((cloneLoop srcNs dstNs errName s xs).1.ns dstNs).set,
      ∀ j, ((cloneLoop srcNs dstNs errName s xs).1.tmpl p.2).tree = some j →
        trees0 ≤ j) ∧
    (∀ e, (cloneLoop srcNs dstNs errName s xs).2 = some e →
      e = .cloneAfterExecute errName) ∧
    ((cloneLoop srcNs dstNs errName s xs).2 = none →
      ∀ x ∈ xs, ∃ src, alookup (s.ns srcNs).set (s.text x).tname = some src ∧
        (s.tmpl src).escapeErr = .unset) ∧
    (∀ i, i < s.trees.length →
      (cloneLoop srcNs dstNs errName s xs).1.tree i = s.tree i) ∧
    s.trees.length ≤ (cloneLoop srcNs dstNs errName s xs).1.trees.length := by
  induction xs with
  | nil =>
    intro s hI hdlt hdst hxs hsrcne htr0 hsettr
    refine ⟨hI, fun i _ => rfl, Nat.le_refl _, rfl, fun m _ => rfl, rfl, rfl,
      fun i => ⟨rfl, rfl⟩, rfl, fun k hk => hk, fun p hp => Or.inl hp, ?_, ?_, ?_,
      fun i _ => rfl, Nat.le_refl _⟩
    · intro _ p hp j hj
      rcases hsettr p hp with h | h
      · exact h j hj
      · exact absurd h (by simp)
    · intro e he
      have he2 : (none : Option Err) = some e := he
      cases he2
    · intro _ x hx
      exact absurd hx (List.not_mem_nil x)
  | cons x xs2 ih =>
    intro s hI hdlt hdst hxs hsrcne htr0 hsettr
    obtain ⟨hx, hxc⟩ := hxs x (List.mem_cons_self _ _)
    unfold cloneLoop
    dsimp only
    split
    · refine ⟨hI, fun i _ => rfl, Nat.le_refl _, rfl, fun m _ => rfl, rfl, rfl,
        fun i => ⟨rfl, rfl⟩, rfl, fun k hk => hk, fun p hp => Or.inl hp, ?_, ?_, ?_,
        fun i _ => rfl, Nat.le_refl _⟩
      · intro hnone
        have hnone2 : some (Err.cloneAfterExecute errName) = (none : Option Err) :=
          hnone
        cases hnone2
      · intro e he
        have he2 : some (Err.cloneAfterExecute errName) = some e := he
        exact (Option.some.inj he2).symm
      · intro hnone
        have hnone2 : some (Err.cloneAfterExecute errName) = (none : Option Err) :=
          hnone
        cases hnone2
    · rename_i src hsrc
      split
      · refine ⟨hI, fun i _ => rfl, Nat.le_refl _, rfl, fun m _ => rfl, rfl, rfl,
          fun i => ⟨rfl, rfl⟩, rfl, fun k hk => hk, fun p hp => Or.inl hp, ?_, ?_, ?_,
          fun i _ => rfl, Nat.le_refl _⟩
        · intro hnone
          have hnone2 : some (Err.cloneAfterExecute errName) = (none : Option Err) :=
            hnone
          cases hnone2
        · intro e he
          have he2 : some (Err.cloneAfterExecute errName) = some e := he
          exact (Option.some.inj he2).symm
        · intro hnone
          have hnone2 : some (Err.cloneAfterExecute errName) = (none : Option Err) :=
            hnone
          cases hnone2
      · rename_i hunset
        set TC := treeCopy s (s.text x).ttree with hTC
        have TF := treeCopy_facts s (s.text x).ttree
        rw [← hTC] at TF
        obtain ⟨tf1, tf2, tf3, tf4, tf5, tf6, tf7, tf8⟩ := TF
        set u2 := TC.1.setText x { TC.1.text x with ttree := TC.2 } with hu2
        set u3 : State := { u2 with tmpls := u2.tmpls ++ [⟨.unset, x, TC.2, dstNs, 0⟩] } with hu3
        set u4 := u3.setNs dstNs { u3.ns dstNs with set := aset (u3.ns dstNs).set (s.text x).tname u2.tmpls.length } with hu4
        have hIt : Inv TC.1 := by
          rw [hTC]
          exact Inv_treeCopy s _ hI
        have htcx : ∀ i, TC.1.text i = s.text i := fun i => text_congr tf1 i
        have htcm : ∀ i, TC.1.tmpl i = s.tmpl i := fun i => tmpl_congr tf2 i
        have htcn : ∀ i, TC.1.ns i = s.ns i := fun i => ns_congr tf3 i
        have htcc : ∀ i, TC.1.common i = s.common i := fun i => common_congr tf4 i
        have hItt : Inv u2 := by
          rw [hu2]
          apply Inv_setTtreeO TC.1 x TC.2 hIt tf7
          · intro hct
            rw [htcx, htcc]
            apply hI.treeAssoc x hx
            intro hnone
            exact hct (tf8.mpr hnone)
          · intro htt
            rw [htcx] at htt
            intro hct
            exact htt (tf8.mp hct)
        have hxtc : x < TC.1.texts.length := by
          rw [tf1]
          exact hx
        have hu2x : u2.text x = { TC.1.text x with ttree := TC.2 } := by
          rw [hu2]
          exact text_setText_self TC.1 x hxtc _
        have hu2keep : ∀ i, (u2.text i).tname = (s.text i).tname ∧
            (u2.text i).tcommon = (s.text i).tcommon := by
          intro i
          have h2 := setText_keepFields TC.1 x { TC.1.text x with ttree := TC.2 }
            ⟨rfl, rfl⟩ i
          rw [hu2]
          refine ⟨?_, ?_⟩
          · rw [h2.1, htcx]
          · rw [h2.2, htcx]
        have hu2tm : ∀ i, u2.tmpl i = s.tmpl i := fun i => by
          rw [hu2, tmpl_setText]
          exact htcm i
        have hu2tlen : u2.tmpls.length = s.tmpls.length := by
          rw [hu2]
          show TC.1.tmpls.length = s.tmpls.length
          rw [tf2]
        have hu2xlen : u2.texts.length = s.texts.length := by
          rw [hu2]
          show (TC.1.texts.set x _).length = s.texts.length
          rw [List.length_set, tf1]
        have hu2ns : ∀ i, u2.ns i = s.ns i := fun i => by
          rw [hu2]
          show TC.1.ns i = s.ns i
          exact htcn i
        have hu2nlen : u2.nss.length = s.nss.length := by
          rw [hu2]
          show TC.1.nss.length = s.nss.length
          rw [tf3]
        have hI3 : Inv u3 := by
          rw [hu3]
          apply Inv_pushTmpl u2 _ hItt rfl
          · show x < u2.texts.length
            rw [hu2xlen]
            exact hx
          · show dstNs < u2.nss.length
            rw [hu2nlen]
            exact hdlt
          · show TC.2 = (u2.text x).ttree
            rw [hu2x]
          · intro j hj hjns
            show (u2.text (u2.tmpl j).text).tcommon = (u2.text x).tcommon
            rw [hu2tm] at hjns
            rw [hu2tm, (hu2keep _).2, (hu2keep _).2]
            rw [hxc]
            exact hdst j (by rw [← hu2tlen]; exact hj) hjns
        have hu3tm : ∀ i, i < s.tmpls.length → u3.tmpl i = s.tmpl i := by
          intro i hi
          rw [hu3]
          show (u2.tmpls ++ _).getD i _ = _
          rw [getD_append_lt _ _ _ _ (by rw [hu2tlen]; exact hi)]
          exact hu2tm i
        have hu3new : u3.tmpl u2.tmpls.length = ⟨.unset, x, TC.2, dstNs, 0⟩ := by
          rw [hu3]
          show (u2.tmpls ++ _).getD u2.tmpls.length _ = _
          exact getD_append_len _ _ _
        have hI4 : Inv u4 := by
          rw [hu4]
          apply Inv_rebind u3 dstNs u2.tmpls.length (s.text x).tname hI3
          · show dstNs < u3.nss.length
            rw [hu3]
            show dstNs < u2.nss.length
            rw [hu2nlen]
            exact hdlt
          · rw [hu3new]
          · unfold State.tmplName
            rw [hu3new]
            show (u3.text x).tname = (s.text x).tname
            rw [hu3]
            show (u2.text x).tname = (s.text x).tname
            exact (hu2keep x).1
          · intro m hm p hp
            have hp2 : p ∈ (u2.ns m).set := hp
            have hm2 : m < u2.nss.length := hm
            have := hItt.setTmplLt m hm2 p hp2
            omega
          · show u2.tmpls.length < u3.tmpls.length
            rw [hu3]
            show u2.tmpls.length < (u2.tmpls ++ _).length
            simp
        have hu3nlen : u3.nss.length = s.nss.length := hu2nlen
        have hu4nlen : u4.nss.length = s.nss.length := by
          rw [hu4]
          show (u3.setNs dstNs _).nss.length = s.nss.length
          simp only [State.setNs, List.length_set]
          exact hu3nlen
        have hu4set : (u4.ns dstNs).set =
            aset (s.ns dstNs).set (s.text x).tname u2.tmpls.length := by
          rw [hu4, ns_setNs_self _ dstNs (by
            show dstNs < u2.nss.length
            rw [hu2nlen]
            exact hdlt) _]
          show aset (u3.ns dstNs).set (s.text x).tname u2.tmpls.length = _
          have h5 : u3.ns dstNs = s.ns dstNs := hu2ns dstNs
          rw [h5]
        have hstepA : ∀ k, alookup (s.ns dstNs).set k ≠ none →
            alookup (u4.ns dstNs).set k ≠ none := by
          intro k hk
          rw [hu4set]
          by_cases he : k = (s.text x).tname
          · subst he
            rw [alookup_aset_self]
            intro hc
            cases hc
          · rw [alookup_aset_ne _ _ _ _ he]
            exact hk
        have hkeys : ((s.ns dstNs).set.map Prod.fst).Nodup := hI.setKeys dstNs hdlt
        have hu4tmS : ∀ i, i < s.tmpls.length → u4.tmpl i = s.tmpl i := by
          intro i hi
          have hq : u4.tmpl i = u3.tmpl i := rfl
          rw [hq]
          exact hu3tm i hi
        have hu4new : u4.tmpl u2.tmpls.length = ⟨.unset, x, TC.2, dstNs, 0⟩ := by
          have hq : u4.tmpl u2.tmpls.length = u3.tmpl u2.tmpls.length := rfl
          rw [hq]
          exact hu3new
        have htr0u4 : trees0 ≤ u4.trees.length := by
          have hq : u4.trees = TC.1.trees := rfl
          rw [hq]
          exact Nat.le_trans htr0 tf5
        have hsettru4 : ∀ p ∈ (u4.ns dstNs).set,
            (∀ j, (u4.tmpl p.2).tree = some j → trees0 ≤ j) ∨
            p.1 ∈ xs2.map (fun y => (u4.text y).tname) := by
          intro p hp
          rw [hu4set] at hp
          rcases mem_aset hkeys hp with he | ⟨hold, hne⟩
          · subst he
            refine Or.inl ?_
            intro j hj
            have hj2 : (u4.tmpl u2.tmpls.length).tree = some j := hj
            rw [hu4new] at hj2
            have hj3 : TC.2 = some j := hj2
            rw [hTC] at hj3
            have h6 := treeCopy_snd_ge s (s.text x).ttree j hj3
            exact Nat.le_trans htr0 h6
          · rcases hsettr p hold with hl | hr
            · refine Or.inl ?_
              intro j hj
              have hplt : p.2 < s.tmpls.length := hI.setTmplLt dstNs hdlt p hold
              rw [hu4tmS p.2 hplt] at hj
              exact hl j hj
            · rcases List.mem_map.mp hr with ⟨y, hy, hfy⟩
              rcases List.mem_cons.mp hy with he2 | hm2
              · subst he2
                exact absurd hfy.symm hne
              · refine Or.inr (List.mem_map.mpr ⟨y, hm2, ?_⟩)
                show (u4.text y).tname = p.1
                have hq : u4.text y = u2.text y := rfl
                rw [hq, (hu2keep y).1]
                exact hfy
        obtain ⟨q1, q2, q3, q4, q5, q6, q7, q8, q9, q10, q11, q12, q13, q14, q15,
          q16⟩ := ih u4 hI4
          (by
            rw [hu4nlen]
            exact hdlt)
          (by
            intro j hj hjns
            have hu4tm : ∀ i, u4.tmpl i = u3.tmpl i := fun i => rfl
            have hu4tx : ∀ i, u4.text i = u2.text i := fun i => rfl
            rw [hu4tm] at hjns
            rw [hu4tm, hu4tx]
            have hj3 : j < u2.tmpls.length + 1 := by
              have : u4.tmpls.length = u2.tmpls.length + 1 := by
                rw [hu4]
                show u3.tmpls.length = u2.tmpls.length + 1
                rw [hu3]
                show (u2.tmpls ++ _).length = u2.tmpls.length + 1
                simp
              omega
            rcases Nat.lt_or_ge j u2.tmpls.length with h | h
            · rw [hu3tm j (by rw [← hu2tlen]; exact h)] at hjns ⊢
              rw [(hu2keep _).2]
              exact hdst j (by rw [← hu2tlen]; exact h) hjns
            · have he : j = u2.tmpls.length := by omega
              subst he
              rw [hu3new]
              show (u2.text x).tcommon = c0
              rw [(hu2keep x).2]
              exact hxc)
          (by
            intro y hy
            obtain ⟨h1, h2⟩ := hxs y (List.mem_cons_of_mem _ hy)
            have hu4tx : ∀ i, u4.text i = u2.text i := fun i => rfl
            have hu4xlen : u4.texts.length = u2.texts.length := rfl
            constructor
            · rw [hu4xlen, hu2xlen]
              exact h1
            · rw [hu4tx, (hu2keep y).2]
              exact h2)
          hsrcne htr0u4 hsettru4
        have hu4ns_ne : ∀ m, m ≠ dstNs → u4.ns m = s.ns m := by
          intro m hm
          rw [hu4, ns_setNs_ne _ (fun h => hm h.symm)]
          show u2.ns m = s.ns m
          exact hu2ns m
        have hu4nse : (u4.ns dstNs).escaped = (s.ns dstNs).escaped := by
          rw [hu4, ns_setNs_self _ dstNs (by
            show dstNs < u2.nss.length
            rw [hu2nlen]
            exact hdlt) _]
          show (u3.ns dstNs).escaped = (s.ns dstNs).escaped
          rw [hu3]
          show (u2.ns dstNs).escaped = (s.ns dstNs).escaped
          rw [hu2ns]
        have hlen4 : u4.tmpls.length = s.tmpls.length + 1 := by
          rw [hu4]
          show u3.tmpls.length = s.tmpls.length + 1
          rw [hu3]
          show (u2.tmpls ++ _).length = s.tmpls.length + 1
          simp
          rw [hu2tlen]
        refine ⟨q1, ?_, ?_, ?_, ?_, ?_, ?_, ?_, ?_, ?_, ?_, q12, q13, ?_, ?_, ?_⟩
        · intro i hi
          rw [q2 i (by
            show i < u3.tmpls.length
            rw [hu3]
            show i < (u2.tmpls ++ _).length
            simp
            rw [hu2tlen]
            omega)]
          show u3.tmpl i = s.tmpl i
          exact hu3tm i hi
        · rw [hlen4] at q3
          omega
        · rw [q4]
          exact hu4nlen
        · intro m hm
          rw [q5 m hm]
          exact hu4ns_ne m hm
        · rw [q6, hu4]
          show u3.commons = s.commons
          rw [hu3]
          show u2.commons = s.commons
          rw [hu2]
          show TC.1.commons = s.commons
          exact tf4
        · rw [q7]
          show u2.texts.length = s.texts.length
          exact hu2xlen
        · intro i
          obtain ⟨h1, h2⟩ := q8 i
          have hu4tx : ∀ j, u4.text j = u2.text j := fun j => rfl
          rw [hu4tx] at h1 h2
          rw [h1, h2, (hu2keep i).1, (hu2keep i).2]
          exact ⟨rfl, rfl⟩
        · rw [q9]
          exact hu4nse
        · intro k hk
          exact q10 k (hstepA k hk)
        · intro p hp
          rcases q11 p hp with hl | hr
          · rw [hu4set] at hl
            rcases mem_aset hkeys hl with he | ⟨hold, _⟩
            · subst he
              refine Or.inr ?_
              show s.tmpls.length ≤ u2.tmpls.length
              rw [hu2tlen]
            · exact Or.inl hold
          · refine Or.inr ?_
            rw [hlen4] at hr
            omega
        · intro hnone x2 hx2
          rcases List.mem_cons.mp hx2 with he | hm2
          · subst he
            refine ⟨src, hsrc, ?_⟩
            by_cases hu : (s.tmpl src).escapeErr = .unset
            · exact hu
            · exact absurd hu hunset
          · obtain ⟨src2, hsome, hun2⟩ := q14 hnone x2 hm2
            have hns4 : u4.ns srcNs = s.ns srcNs := hu4ns_ne srcNs hsrcne
            have htn : (u4.text x2).tname = (s.text x2).tname := by
              have hq : u4.text x2 = u2.text x2 := rfl
              rw [hq, (hu2keep x2).1]
            rw [hns4, htn] at hsome
            have hmem2 := alookup_mem hsome
            by_cases hsl : srcNs < s.nss.length
            · have hlt2 := hI.setTmplLt srcNs hsl _ hmem2
              rw [hu4tmS src2 hlt2] at hun2
              exact ⟨src2, hsome, hun2⟩
            · exfalso
              have h7 : s.ns srcNs = ⟨[], false⟩ := by
                unfold State.ns
                exact getD_ge _ _ _ (by omega)
              rw [h7] at hmem2
              exact absurd hmem2 (List.not_mem_nil _)
        · intro i hi
          rw [q15 i (by
            show i < TC.1.trees.length
            omega)]
          show TC.1.tree i = s.tree i
          exact tf6 i hi
        · have hq : u4.trees.length = TC.1.trees.length := rfl
          rw [hq] at q16
          exact Nat.le_trans tf5 q16

theorem hClone_post (s : State) (t : Nat) (hI : Inv s) (ht : t < s.tmpls.length) :
    Inv (hClone s t).1 ∧
    (∀ e, (hClone s t).2 = .error e → e = .cloneAfterExecute (s.tmplName t)) ∧
    (∀ s5 r, hClone s t = (s5, .ok r) →
      (∀ p ∈ (s.ns (s.tmpl t).ns).set, (s.tmpl p.2).escapeErr = .unset) ∧
      ∃ rid, r = some rid ∧ s.tmpls.length ≤ rid ∧
        (s5.tmpl rid).ns = s.nss.length ∧
        s5.tmplName rid = s.tmplName t ∧
        (s5.tmpl rid).escapeErr = .unset ∧
        (∀ i, i < s.tmpls.length → s5.tmpl i = s.tmpl i) ∧
        (∀ m, m < s.nss.length → s5.ns m = s.ns m) ∧
        (∀ p ∈ (s5.ns s.nss.length).set, s.tmpls.length ≤ p.2 ∧
          (s5.tmpl p.2).escapeErr = .unset ∧
          (∀ j, (s5.tmpl p.2).tree = some j → s.trees.length ≤ j)) ∧
        (∀ i, i < s.trees.length → s5.tree i = s.tree i)) := by
  have htx : (s.tmpl t).text < s.texts.length := hI.tmplText t ht
  have hns : (s.tmpl t).ns < s.nss.length := hI.tmplNs t ht
  unfold hClone
  dsimp only
  split
  · refine ⟨hI, ?_, ?_⟩
    · intro e he
      have he2 : Except.error (Err.cloneAfterExecute (s.tmplName t)) =
          Except.error e := he
      exact (Except.error.inj he2).symm
    · intro s5 r heq
      exfalso
      have h2 := congrArg Prod.snd heq
      exact Except.noConfusion h2
  · rename_i htu
    have htunset : (s.tmpl t).escapeErr = .unset := by
      by_cases hu : (s.tmpl t).escapeErr = .unset
      · exact hu
      · exact absurd hu htu
    set TCL := textClone s (s.tmpl t).text with hTCL
    have TP := textClone_post s (s.tmpl t).text hI htx
    rw [← hTCL] at TP
    obtain ⟨P1, P2, P3, P4, P5, P6, P7, P8, P9, P10, P11, P12, P13, P14⟩ := TP
    set w2 : State := { TCL.1 with nss := TCL.1.nss ++ [⟨[], false⟩] } with hw2
    set w3 : State := { w2 with tmpls := w2.tmpls ++ [⟨.unset, TCL.2, (w2.text TCL.2).ttree, TCL.1.nss.length, 0⟩] } with hw3
    set w4 := w3.setNs TCL.1.nss.length { w3.ns TCL.1.nss.length with set := aset (w3.ns TCL.1.nss.length).set (w3.text TCL.2).tname w2.tmpls.length } with hw4
    have hI2 : Inv w2 := Inv_pushNs TCL.1 P1
    have hw2tx : ∀ i, w2.text i = TCL.1.text i := fun i => rfl
    have hw2tm : ∀ i, w2.tmpl i = TCL.1.tmpl i := fun i => rfl
    have htcm : ∀ i, TCL.1.tmpl i = s.tmpl i := fun i => tmpl_congr P3 i
    have hw2tlen : w2.tmpls.length = s.tmpls.length := by
      show TCL.1.tmpls.length = s.tmpls.length
      rw [P3]
    have hw2xlen : w2.texts.length = TCL.1.texts.length := rfl
    have hw2nlen : w2.nss.length = s.nss.length + 1 := by
      rw [hw2]
      show (TCL.1.nss ++ _).length = s.nss.length + 1
      simp [P4]
    have htxc : TCL.2 < w2.texts.length := by
      rw [hw2xlen, P2]
      exact P9
    have hI3 : Inv w3 := by
      rw [hw3]
      apply Inv_pushTmpl w2 _ hI2 rfl htxc
      · show TCL.1.nss.length < w2.nss.length
        rw [hw2nlen]
        show TCL.1.nss.length < s.nss.length + 1
        rw [P4]
        omega
      · rfl
      · intro j hj hjns
        exfalso
        rw [hw2tm, htcm] at hjns
        have h2 : (s.tmpl j).ns < s.nss.length := by
          apply hI.tmplNs j
          rw [← hw2tlen]
          exact hj
        rw [hjns] at h2
        dsimp only at h2
        rw [P4] at h2
        omega
    have hw3tm : ∀ i, i < s.tmpls.length → w3.tmpl i = s.tmpl i := by
      intro i hi
      rw [hw3]
      show (w2.tmpls ++ _).getD i _ = s.tmpl i
      rw [getD_append_lt _ _ _ _ (by rw [hw2tlen]; exact hi)]
      show TCL.1.tmpl i = s.tmpl i
      exact htcm i
    have hw3new : w3.tmpl w2.tmpls.length = ⟨.unset, TCL.2, (w2.text TCL.2).ttree, TCL.1.nss.length, 0⟩ := by
      rw [hw3]
      show (w2.tmpls ++ _).getD w2.tmpls.length _ = _
      exact getD_append_len _ _ _
    have hw3tx : ∀ i, w3.text i = TCL.1.text i := fun i => rfl
    have hI4 : Inv w4 := by
      rw [hw4]
      apply Inv_rebind w3 TCL.1.nss.length w2.tmpls.length (w3.text TCL.2).tname hI3
      · show TCL.1.nss.length < w3.nss.length
        show TCL.1.nss.length < w2.nss.length
        rw [hw2nlen, P4]
        omega
      · rw [hw3new]
      · unfold State.tmplName
        rw [hw3new]
      · intro m hm p hp
        have hp2 : p ∈ (w2.ns m).set := hp
        have hm2 : m < w2.nss.length := hm
        have := hI2.setTmplLt m hm2 p hp2
        omega
      · show w2.tmpls.length < w3.tmpls.length
        rw [hw3]
        show w2.tmpls.length < (w2.tmpls ++ _).length
        simp
    have hw4tx : ∀ i, w4.text i = TCL.1.text i := fun i => rfl
    have hw4tm : ∀ i, w4.tmpl i = w3.tmpl i := fun i => rfl
    have hw4clen : w4.commons.length = s.commons.length + 1 := by
      show w3.commons.length = s.commons.length + 1
      show TCL.1.commons.length = s.commons.length + 1
      exact P6
    have hw4cm : ∀ i, w4.common i = TCL.1.common i := fun i => rfl
    have hcNewLt : s.commons.length < w4.commons.length := by
      rw [hw4clen]
      omega
    have hxc2 : (w4.text TCL.2).tcommon = s.commons.length := by
      rw [hw4tx]
      rw [← P2] at P12
      exact P12
    have hw4nlen : w4.nss.length = s.nss.length + 1 := by
      rw [hw4]
      show (w3.setNs _ _).nss.length = s.nss.length + 1
      simp only [State.setNs, List.length_set]
      show w2.nss.length = s.nss.length + 1
      exact hw2nlen
    have hnsid : TCL.1.nss.length = s.nss.length := by
      rw [P4]
    have hsrcne : (s.tmpl t).ns ≠ TCL.1.nss.length := by
      rw [hnsid]
      omega
    have hw3nsidlt : TCL.1.nss.length < w3.nss.length := by
      show TCL.1.nss.length < w2.nss.length
      rw [hw2nlen, hnsid]
      omega
    have hw3nsN : w3.ns TCL.1.nss.length = ⟨[], false⟩ := by
      show (TCL.1.nss ++ [(⟨[], false⟩ : NsObj)]).getD TCL.1.nss.length _ = _
      exact getD_append_len _ _ _
    have hw4setS : (w4.ns TCL.1.nss.length).set =
        [((w3.text TCL.2).tname, w2.tmpls.length)] := by
      rw [hw4, ns_setNs_self _ _ hw3nsidlt]
      show aset (w3.ns TCL.1.nss.length).set (w3.text TCL.2).tname w2.tmpls.length =
        _
      rw [hw3nsN]
      rfl
    have hw4nsm : ∀ m, m < s.nss.length → w4.ns m = s.ns m := by
      intro m hm
      have hmne : TCL.1.nss.length ≠ m := by
        rw [hnsid]
        omega
      rw [hw4, ns_setNs_ne _ hmne]
      show w2.ns m = s.ns m
      have h2 : w2.ns m = TCL.1.ns m := by
        rw [hw2]
        show (TCL.1.nss ++ _).getD m _ = TCL.1.ns m
        exact getD_append_lt _ _ _ _ (by rw [hnsid]; exact hm)
      rw [h2]
      exact ns_congr P4 m
    have htr0w4 : s.trees.length ≤ w4.trees.length := by
      have h2 : w4.trees = s.trees := P5
      rw [h2]
    have hretname : (w3.text TCL.2).tname = s.tmplName t := by
      show (TCL.1.text TCL.2).tname = s.tmplName t
      rw [P2]
      exact P10
    have hxskey : ∀ key v0, ((key, v0) : String × Nat) ∈
        (s.common (s.text (s.tmpl t).text).tcommon).assoc →
        ∃ vc, vc ∈ (textTemplates w4 TCL.2).map (fun q => q.2) ∧
          (w4.text vc).tname = key := by
      intro key v0 hmem0
      have hK := P14 (key, v0) hmem0
      obtain ⟨vc, hvc⟩ := Option.ne_none_iff_exists'.mp hK
      have hmempair : (key, vc) ∈ (TCL.1.common s.commons.length).assoc :=
        alookup_mem hvc
      have hclt : s.commons.length < TCL.1.commons.length := by
        rw [P6]
        omega
      have hname : (TCL.1.text vc).tname = key :=
        P1.assocNameEq _ hclt (key, vc) hmempair
      refine ⟨vc, ?_, ?_⟩
      · apply List.mem_map.mpr
        refine ⟨(key, vc), ?_, rfl⟩
        show (key, vc) ∈ (w4.common (w4.text TCL.2).tcommon).assoc
        rw [hxc2]
        exact hmempair
      · show (TCL.1.text vc).tname = key
        exact hname
    have hsettrw4 : ∀ p ∈ (w4.ns TCL.1.nss.length).set,
        (∀ j, (w4.tmpl p.2).tree = some j → s.trees.length ≤ j) ∨
        p.1 ∈ ((textTemplates w4 TCL.2).map (fun q => q.2)).map
          (fun x => (w4.text x).tname) := by
      intro p hp
      rw [hw4setS] at hp
      rcases List.mem_cons.mp hp with he | habs
      · subst he
        have htreeval : (w4.tmpl w2.tmpls.length).tree = (s.text (s.tmpl t).text).ttree := by
          have hq : w4.tmpl w2.tmpls.length = w3.tmpl w2.tmpls.length := rfl
          rw [hq, hw3new]
          show (w2.text TCL.2).ttree = (s.text (s.tmpl t).text).ttree
          show (TCL.1.text TCL.2).ttree = (s.text (s.tmpl t).text).ttree
          rw [P2]
          exact P11
        cases hcase : (s.text (s.tmpl t).text).ttree with
        | none =>
          refine Or.inl ?_
          intro j hj
          have hj2 : (w4.tmpl w2.tmpls.length).tree = some j := hj
          rw [htreeval, hcase] at hj2
          cases hj2
        | some j0 =>
          refine Or.inr ?_
          have htn : (s.text (s.tmpl t).text).ttree ≠ none := by
            rw [hcase]
            intro hc
            cases hc
          have h3 := hI.treeAssoc (s.tmpl t).text htx htn
          obtain ⟨v0, hv0⟩ := Option.ne_none_iff_exists'.mp h3
          obtain ⟨vc, hvcm, hvcn⟩ := hxskey _ v0 (alookup_mem hv0)
          apply List.mem_map.mpr
          refine ⟨vc, hvcm, ?_⟩
          show (w4.text vc).tname = (w3.text TCL.2).tname
          rw [hvcn, hretname]
          rfl
      · exact absurd habs (List.not_mem_nil _)
    obtain ⟨Q1, Q2, Q3, Q4, Q5, Q6, Q7, Q8, Q9, Q10, Q11, Q12, Q13, Q14, Q15,
      Q16⟩ :=
      cloneLoop_post (s.tmpl t).ns TCL.1.nss.length (s.tmplName t) s.commons.length
        s.trees.length
        ((textTemplates w4 TCL.2).map (fun q => q.2)) w4 hI4
        (by
          rw [hw4nlen, P4]
          omega)
        (by
          intro j hj hjns
          have hlen3 : w4.tmpls.length = s.tmpls.length + 1 := by
            show w3.tmpls.length = s.tmpls.length + 1
            rw [hw3]
            show (w2.tmpls ++ _).length = s.tmpls.length + 1
            simp [hw2tlen]
          rw [hw4tm] at hjns
          rw [hw4tm, hw4tx]
          rcases Nat.lt_or_ge j s.tmpls.length with h | h
          · exfalso
            rw [hw3tm j h] at hjns
            have h2 : (s.tmpl j).ns < s.nss.length := hI.tmplNs j h
            rw [hjns, P4] at h2
            omega
          · have he : j = s.tmpls.length := by
              rw [hlen3] at hj
              omega
            subst he
            rw [← hw2tlen] at hjns ⊢
            rw [hw3new]
            show (TCL.1.text TCL.2).tcommon = s.commons.length
            rw [← P2] at P12
            exact P12)
        (by
          intro y hy
          obtain ⟨p, hp, hpy⟩ := List.mem_map.mp hy
          have hp2 : p ∈ (w4.common (w4.text TCL.2).tcommon).assoc := hp
          rw [hxc2] at hp2
          constructor
          · rw [← hpy]
            exact hI4.assocText _ hcNewLt p hp2
          · rw [← hpy]
            exact hI4.assocComEq _ hcNewLt p hp2)
        hsrcne htr0w4 hsettrw4
    have hregunset : ∀ p ∈ (s.ns (s.tmpl t).ns).set,
        (∀ x ∈ (textTemplates w4 TCL.2).map (fun q => q.2),
          ∃ src, alookup (w4.ns (s.tmpl t).ns).set ((w4.text x).tname) = some src ∧
            (w4.tmpl src).escapeErr = .unset) →
        (s.tmpl p.2).escapeErr = .unset := by
      intro p hp hE
      by_cases hbadp : (s.tmpl p.2).escapeErr = .unset
      · exact hbadp
      · exfalso
        have hplt : p.2 < s.tmpls.length := hI.setTmplLt _ hns p hp
        have htt : (s.text (s.tmpl p.2).text).ttree ≠ none :=
          hI.escTree p.2 hplt hbadp
        have h3 := hI.treeAssoc (s.tmpl p.2).text (hI.tmplText p.2 hplt) htt
        have h4 : (s.text (s.tmpl p.2).text).tname = p.1 :=
          hI.setNameEq _ hns p hp
        have h5 : (s.text (s.tmpl p.2).text).tcommon =
            (s.text (s.tmpl t).text).tcommon :=
          hI.comCoh p.2 hplt t ht (hI.setNsEq _ hns p hp)
        rw [h4, h5] at h3
        obtain ⟨v0, hv0⟩ := Option.ne_none_iff_exists'.mp h3
        obtain ⟨vc, hvcm, hvcn⟩ := hxskey p.1 v0 (alookup_mem hv0)
        obtain ⟨src, hsome, hsrcu⟩ := hE vc hvcm
        rw [hvcn] at hsome
        have hw4src : w4.ns (s.tmpl t).ns = s.ns (s.tmpl t).ns := hw4nsm _ hns
        rw [hw4src] at hsome
        have hlook : alookup (s.ns (s.tmpl t).ns).set p.1 = some p.2 := by
          have hkeys := hI.setKeys _ hns
          have hp2 : (p.1, p.2) ∈ (s.ns (s.tmpl t).ns).set := hp
          exact alookup_of_mem_nodup hkeys hp2
        rw [hlook] at hsome
        have hse : p.2 = src := Option.some.inj hsome
        rw [← hse] at hsrcu
        have hw4p : w4.tmpl p.2 = s.tmpl p.2 := by
          have hq : w4.tmpl p.2 = w3.tmpl p.2 := rfl
          rw [hq]
          exact hw3tm p.2 hplt
        rw [hw4p] at hsrcu
        exact hbadp hsrcu
    split
    · rename_i s5L e heqL
      have h2 := Q1
      rw [heqL] at h2
      refine ⟨h2, ?_, ?_⟩
      · intro e2 he2
        have he3 : Except.error e = Except.error e2 := he2
        have he4 : e = e2 := Except.error.inj he3
        subst he4
        have h5 : (cloneLoop (s.tmpl t).ns TCL.1.nss.length (s.tmplName t) w4
            ((textTemplates w4 TCL.2).map (fun q => q.2))).2 = some e := by
          rw [heqL]
        exact Q13 e h5
      · intro s5 r heq2
        exfalso
        have h5 := congrArg Prod.snd heq2
        exact Except.noConfusion h5
    · rename_i s5L heqL
      have hQ1 := Q1
      rw [heqL] at hQ1
      have heqn : (cloneLoop (s.tmpl t).ns TCL.1.nss.length (s.tmplName t) w4
          ((textTemplates w4 TCL.2).map (fun q => q.2))).2 = none := by
        rw [heqL]
      refine ⟨hQ1, ?_, ?_⟩
      · intro e2 he2
        exfalso
        have he3 : Except.ok (alookup (s5L.ns TCL.1.nss.length).set
            (w3.text TCL.2).tname) = Except.error e2 := he2
        exact Except.noConfusion he3
      · intro s5 r heq2
        have hfst : s5L = s5 := congrArg Prod.fst heq2
        have hsnd : Except.ok (alookup (s5L.ns TCL.1.nss.length).set
            (w3.text TCL.2).tname) = Except.ok r := congrArg Prod.snd heq2
        have hrval : r = alookup (s5L.ns TCL.1.nss.length).set
            (w3.text TCL.2).tname := (Except.ok.inj hsnd).symm
        subst hfst
        refine ⟨fun p hp => hregunset p hp (Q14 heqn), ?_⟩
        have hbase : alookup (w4.ns TCL.1.nss.length).set (w3.text TCL.2).tname ≠
            none := by
          rw [hw4setS]
          unfold alookup
          simp
        have hne2 := Q10 (w3.text TCL.2).tname hbase
        rw [heqL] at hne2
        obtain ⟨rid, hrid⟩ := Option.ne_none_iff_exists'.mp hne2
        have hmemR : ((w3.text TCL.2).tname, rid) ∈ (s5L.ns TCL.1.nss.length).set :=
          alookup_mem hrid
        have hQ4 := Q4
        rw [heqL] at hQ4
        have hQ5 := Q5
        rw [heqL] at hQ5
        have hQ9 := Q9
        rw [heqL] at hQ9
        have hQ11 := Q11
        rw [heqL] at hQ11
        have hQ12 := Q12 heqn
        rw [heqL] at hQ12
        have hQ2 := Q2
        rw [heqL] at hQ2
        have hQ15 := Q15
        rw [heqL] at hQ15
        have hnslt : TCL.1.nss.length < s5L.nss.length := by
          rw [hQ4, hw4nlen, hnsid]
          omega
        have hescnsF : (s5L.ns TCL.1.nss.length).escaped = false := by
          rw [hQ9]
          have h6 : w4.ns TCL.1.nss.length =
              { w3.ns TCL.1.nss.length with
                set := aset (w3.ns TCL.1.nss.length).set (w3.text TCL.2).tname
                  w2.tmpls.length } := by
            rw [hw4]
            exact ns_setNs_self _ _ hw3nsidlt _
          rw [h6]
          show (w3.ns TCL.1.nss.length).escaped = false
          rw [hw3nsN]
        have hunsetAll : ∀ q ∈ (s5L.ns TCL.1.nss.length).set,
            (s5L.tmpl q.2).escapeErr = .unset := by
          intro q hq
          by_cases hu : (s5L.tmpl q.2).escapeErr = .unset
          · exact hu
          · exfalso
            have h6 := hQ1.escNs q.2 (hQ1.setTmplLt _ hnslt q hq) hu
            rw [hQ1.setNsEq _ hnslt q hq, hescnsF] at h6
            cases h6
        have hvalGe : ∀ q ∈ (s5L.ns TCL.1.nss.length).set,
            s.tmpls.length ≤ q.2 := by
          intro q hq
          rcases hQ11 q hq with hl | hr
          · rw [hw4setS] at hl
            rcases List.mem_cons.mp hl with he | habs
            · rw [he]
              show s.tmpls.length ≤ w2.tmpls.length
              rw [hw2tlen]
            · exact absurd habs (List.not_mem_nil _)
          · have h6 : w4.tmpls.length = s.tmpls.length + 1 := by
              show w3.tmpls.length = s.tmpls.length + 1
              rw [hw3]
              show (w2.tmpls ++ _).length = s.tmpls.length + 1
              simp [hw2tlen]
            omega
        refine ⟨rid, ?_, hvalGe _ hmemR, ?_, ?_, hunsetAll _ hmemR, ?_, ?_, ?_, ?_⟩
        · rw [hrval, hrid]
        · rw [← hnsid]
          exact hQ1.setNsEq _ hnslt _ hmemR
        · rw [← hretname]
          exact hQ1.setNameEq _ hnslt _ hmemR
        · intro i hi
          have h6 : i < w4.tmpls.length := by
            show i < w3.tmpls.length
            rw [hw3]
            show i < (w2.tmpls ++ _).length
            simp
            rw [hw2tlen]
            omega
          rw [hQ2 i h6]
          have hq : w4.tmpl i = w3.tmpl i := rfl
          rw [hq]
          exact hw3tm i hi
        · intro m hm
          have hmne : m ≠ TCL.1.nss.length := by
            rw [hnsid]
            omega
          rw [hQ5 m hmne]
          exact hw4nsm m hm
        · intro q hq
          have hq2 : q ∈ (s5L.ns TCL.1.nss.length).set := by
            rw [← hnsid] at hq
            exact hq
          refine ⟨hvalGe q hq2, hunsetAll q hq2, ?_⟩
          intro j hj
          exact hQ12 q hq2 j hj
        · intro i hi
          have h6 : i < w4.trees.length := by
            have h7 : w4.trees = s.trees := P5
            rw [h7]
            exact hi
          rw [hQ15 i h6]
          have h7 : w4.trees = s.trees := P5
          exact tree_congr h7 i

theorem Inv_hClone (s : State) (t : Nat) (hI : Inv s) (ht : t < s.tmpls.length) :
    Inv (hClone s t).1 := (hClone_post s t hI ht).1

theorem hNewInner_tmpls_lt (s : State) (t : Nat) (name : String) :
    s.tmpls.length < (hNewInner s t name).1.tmpls.length := by
  unfold hNewInner
  simp only []
  split
  · rename_i ex heq
    rw [hTopNew_eq]
    simp [State.setNs, State.setTmpl, textNew]
  · simp [State.setNs, textNew]

theorem hTopNew_snd (s : State) (name : String) :
    (hTopNew s name).2 = s.tmpls.length := by
  rw [hTopNew_eq]

theorem Inv_empty : Inv State.empty := by
  constructor <;> intro i hi <;> exact absurd hi (Nat.not_lt_zero i)

theorem parseFilesLoop_nil (s : State) (t : Option Nat) :
    parseFilesLoop s t [] = (s, .ok t) := rfl

theorem parseFilesLoop_cons (s : State) (t : Option Nat) (name : String)
    (ds : List (String × String)) (rest : List (String × List (String × String))) :
    parseFilesLoop s t ((name, ds) :: rest) =
      (let p := match t with | none => hTopNew s name | some id => (s, id)
       let s1 := p.1
       let t1 := p.2
       let q := if name = s1.tmplName t1 then (s1, t1) else hNew s1 t1 name
       match hParse q.1 q.2 ds with
       | (s3, .error e) => (s3, .error e)
       | (s3, .ok _) => parseFilesLoop s3 (some t1) rest) := rfl

set_option maxHeartbeats 1600000 in
theorem parseFilesLoop_post (files : List (String × List (String × String))) :
    ∀ (s : State) (t : Option Nat), Inv s →
    (∀ tid, t = some tid → tid < s.tmpls.length) →
    Inv (parseFilesLoop s t files).1 ∧
    s.tmpls.length ≤ (parseFilesLoop s t files).1.tmpls.length := by
  induction files with
  | nil =>
    intro s t hI _
    exact ⟨hI, Nat.le_refl _⟩
  | cons f rest ih =>
    obtain ⟨name, defs⟩ := f
    intro s t hI hts
    rw [parseFilesLoop_cons]
    dsimp only
    have key : ∀ (s1 : State) (t1 : Nat), Inv s1 → t1 < s1.tmpls.length →
        Inv (match hParse (if name = s1.tmplName t1 then (s1, t1)
              else hNew s1 t1 name).1
            (if name = s1.tmplName t1 then (s1, t1) else hNew s1 t1 name).2 defs with
          | (s3, Except.error e) => (s3, Except.error e)
          | (s3, Except.ok _) => parseFilesLoop s3 (some t1) rest).1 ∧
        s1.tmpls.length ≤
          (match hParse (if name = s1.tmplName t1 then (s1, t1)
              else hNew s1 t1 name).1
            (if name = s1.tmplName t1 then (s1, t1) else hNew s1 t1 name).2 defs with
          | (s3, Except.error e) => (s3, Except.error e)
          | (s3, Except.ok _) => parseFilesLoop s3 (some t1) rest).1.tmpls.length := by
      intro s1 t1 hI1 ht1
      by_cases hcn : name = s1.tmplName t1
      · rw [if_pos hcn]
        dsimp only
        obtain ⟨hp1, hp2⟩ := hParse_post s1 t1 defs hI1 ht1
        split
        · rename_i s3 e heq
          rw [heq] at hp1 hp2
          exact ⟨hp1, hp2⟩
        · rename_i s3 n heq
          rw [heq] at hp1 hp2
          obtain ⟨r1, r2⟩ := ih s3 (some t1)
            hp1
            (fun tid htid => by
              have he2 : tid = t1 := Option.some.inj htid.symm
              subst he2
              exact Nat.lt_of_lt_of_le ht1 hp2)
          exact ⟨r1, Nat.le_trans hp2 r2⟩
      · rw [if_neg hcn]
        have hIN : Inv (hNew s1 t1 name).1 := Inv_hNewInner s1 t1 name hI1 ht1
        have hlt : s1.tmpls.length < (hNew s1 t1 name).1.tmpls.length :=
          hNewInner_tmpls_lt s1 t1 name
        have hsnd : (hNew s1 t1 name).2 = s1.tmpls.length := rfl
        obtain ⟨hp1, hp2⟩ := hParse_post (hNew s1 t1 name).1 (hNew s1 t1 name).2 defs
          hIN (by rw [hsnd]; exact hlt)
        split
        · rename_i s3 e heq
          rw [heq] at hp1 hp2
          exact ⟨hp1, Nat.le_trans (Nat.le_of_lt hlt) hp2⟩
        · rename_i s3 n heq
          rw [heq] at hp1 hp2
          obtain ⟨r1, r2⟩ := ih s3 (some t1)
            hp1
            (fun tid htid => by
              have he2 : tid = t1 := Option.some.inj htid.symm
              subst he2
              exact Nat.lt_of_lt_of_le (Nat.lt_of_lt_of_le ht1 (Nat.le_of_lt hlt)) hp2)
          exact ⟨r1, Nat.le_trans (Nat.le_of_lt hlt) (Nat.le_trans hp2 r2)⟩
    cases t with
    | none =>
      dsimp only
      obtain ⟨r1, r2⟩ := key (hTopNew s name).1 (hTopNew s name).2
        (Inv_hTopNew s name hI)
        (by rw [hTopNew_snd, (hTopNew_lengths s name).1]; omega)
      refine ⟨r1, ?_⟩
      have h3 : s.tmpls.length ≤ (hTopNew s name).1.tmpls.length := by
        rw [(hTopNew_lengths s name).1]
        omega
      exact Nat.le_trans h3 r2
    | some id =>
      dsimp only
      exact key s id hI (hts id rfl)

theorem parseFilesM_post (s : State) (t : Option Nat)
    (files : List (String × List (String × String))) (hI : Inv s)
    (hts : ∀ tid, t = some tid → tid < s.tmpls.length) :
    Inv (parseFilesM s t files).1 ∧
    s.tmpls.length ≤ (parseFilesM s t files).1.tmpls.length := by
  unfold parseFilesM
  dsimp only
  split
  · exact ⟨hI, Nat.le_refl _⟩
  · split
    · exact ⟨hI, Nat.le_refl _⟩
    · exact parseFilesLoop_post files s t hI hts

theorem parseGlobM_post (s : State) (t : Option Nat)
    (ms : List (String × List (String × String))) (hI : Inv s)
    (hts : ∀ tid, t = some tid → tid < s.tmpls.length) :
    Inv (parseGlobM s t ms).1 ∧
    s.tmpls.length ≤ (parseGlobM s t ms).1.tmpls.length := by
  unfold parseGlobM
  dsimp only
  split
  · exact ⟨hI, Nat.le_refl _⟩
  · split
    · exact ⟨hI, Nat.le_refl _⟩
    · exact parseFilesM_post s t ms hI hts

theorem Reachable_Inv {s : State} (h : Reachable s) : Inv s := by
  induction h with
  | empty => exact Inv_empty
  | topNew name _ ih => exact Inv_hTopNew _ name ih
  | tNew name _ ht ih => exact Inv_hNewInner _ _ name ih ht
  | parse defs _ ht ih => exact (hParse_post _ _ defs ih ht).1
  | addParseTree name content _ ht ih => exact Inv_hAddParseTree _ _ name content ih ht
  | clone _ ht ih => exact Inv_hClone _ _ ih ht
  | exec osc _ ht ih => exact Inv_hExecute _ osc _ ih ht
  | execTemplate osc name _ ht ih => exact Inv_hExecuteTemplate _ osc _ name ih ht
  | files t fs _ hts ih => exact (parseFilesM_post _ t fs ih hts).1
  | glob t ms _ hts ih => exact (parseGlobM_post _ t ms ih hts).1

theorem lookupAndEscape_no_panic (s : State) (osc : String → Option String) (t : Nat)
    (name : String) (hI : Inv s) (ht : t < s.tmpls.length) :
    (lookupAndEscape s osc t name).2 ≠ .panicked := by
  have hns : (s.tmpl t).ns < s.nss.length := hI.tmplNs t ht
  unfold lookupAndEscape
  dsimp only
  split
  · exact fun h => LookupResult.noConfusion h
  · rename_i tid heq
    have heq2 : alookup (s.ns (s.tmpl t).ns).set name = some tid := by
      rw [setEscaped_ns_set, setEscaped_tmpl] at heq
      exact heq
    have hmem : (name, tid) ∈ (s.ns (s.tmpl t).ns).set := alookup_mem heq2
    have htid : tid < s.tmpls.length := hI.setTmplLt _ hns _ hmem
    have hnseq : (s.tmpl tid).ns = (s.tmpl t).ns := hI.setNsEq _ hns _ hmem
    have hname : s.tmplName tid = name := hI.setNameEq _ hns _ hmem
    have hkey : ∀ htt : ((s.text (s.tmpl tid).text).ttree).isNone ≠ true,
        (textLookup s (s.tmpl t).text name).isNone ≠ true := by
      intro htt hlk
      have httne : (s.text (s.tmpl tid).text).ttree ≠ none := by
        intro hn
        apply htt
        rw [hn]
        rfl
      have h3 := hI.treeAssoc (s.tmpl tid).text (hI.tmplText tid htid) httne
      have h4 : (s.text (s.tmpl tid).text).tname = name := hname
      have h5 : (s.text (s.tmpl tid).text).tcommon =
          (s.text (s.tmpl t).text).tcommon :=
        hI.comCoh tid htid t ht hnseq
      rw [h4, h5] at h3
      apply h3
      have h6 : alookup (s.common (s.text (s.tmpl t).text).tcommon).assoc name = none :=
        Option.isNone_iff_eq_none.mp hlk
      exact h6
    split
    · exact fun h => LookupResult.noConfusion h
    · split
      · exact fun h => LookupResult.noConfusion h
      · split
        · rename_i htt hlk
          exfalso
          have htt2 : ((s.text (s.tmpl tid).text).ttree).isNone ≠ true := htt
          have hlk2 : (textLookup s (s.tmpl t).text name).isNone = true := hlk
          exact hkey htt2 hlk2
        · exact fun h => LookupResult.noConfusion h
    · split
      · exact fun h => LookupResult.noConfusion h
      · split
        · rename_i htt hlk
          exfalso
          have htt2 : ((s.text (s.tmpl tid).text).ttree).isNone ≠ true := htt
          have hlk2 : (textLookup s (s.tmpl t).text name).isNone = true := hlk
          exact hkey htt2 hlk2
        · split
          · exact fun h => LookupResult.noConfusion h
          · exact fun h => LookupResult.noConfusion h

/-- C10: for every state built solely through the public operations, the
internal "escaping out of sync" panic in `ExecuteTemplate`'s lookup path
(template.go:121) is unreachable: `ExecuteTemplate` always returns success
or an error, never the panic outcome. -/
theorem executeTemplate_never_panics (s : State) (osc : String → Option String)
    (t : Nat) (name : String) (hr : Reachable s) (ht : t < s.tmpls.length) :
    (hExecuteTemplate s osc t name).2 ≠ .panicked := by
  have hI := Reachable_Inv hr
  have h2 := lookupAndEscape_no_panic s osc t name hI ht
  unfold hExecuteTemplate
  split
  · exact fun h => ExecResult.noConfusion h
  · exact fun h => ExecResult.noConfusion h
  · rename_i s1 heq
    rw [heq] at h2
    exact absurd rfl h2

theorem executeTemplate_never_panics_witness :
    (hExecuteTemplate exS1 (fun _ => none) 0 "x").2 ≠ .panicked :=
  executeTemplate_never_panics exS1 (fun _ => none) 0 "x"
    (Reachable.parse [("x", "hello")] (Reachable.topNew "x" Reachable.empty)
      (by decide))
    (by decide)

theorem lookupAndEscape_undefined (s : State) (osc : String → Option String)
    (t : Nat) (name : String)
    (h : alookup (s.ns (s.tmpl t).ns).set name = none) :
    lookupAndEscape s osc t name =
      (setEscaped s (s.tmpl t).ns, .err (.undefined name)) := by
  unfold lookupAndEscape
  dsimp only
  split
  · rfl
  · rename_i tid heq
    exfalso
    have heq2 : alookup (s.ns (s.tmpl t).ns).set name = some tid := by
      rw [setEscaped_ns_set, setEscaped_tmpl] at heq
      exact heq
    rw [h] at heq2
    cases heq2

theorem lookupAndEscape_incomplete (s : State) (osc : String → Option String)
    (t : Nat) (name : String) (hI : Inv s) (ht : t < s.tmpls.length) (tid : Nat)
    (h : alookup (s.ns (s.tmpl t).ns).set name = some tid)
    (htree : (s.text (s.tmpl tid).text).ttree = none) :
    lookupAndEscape s osc t name =
      (setEscaped s (s.tmpl t).ns, .err (.incomplete name)) := by
  have hns : (s.tmpl t).ns < s.nss.length := hI.tmplNs t ht
  have hmem : (name, tid) ∈ (s.ns (s.tmpl t).ns).set := alookup_mem h
  have htid : tid < s.tmpls.length := hI.setTmplLt _ hns _ hmem
  have hunset : (s.tmpl tid).escapeErr = .unset := by
    by_contra hne
    exact hI.escTree tid htid hne htree
  unfold lookupAndEscape
  dsimp only
  split
  · rename_i heq
    exfalso
    have heq2 : alookup (s.ns (s.tmpl t).ns).set name = none := by
      rw [setEscaped_ns_set, setEscaped_tmpl] at heq
      exact heq
    rw [h] at heq2
    cases heq2
  · rename_i tid2 heq
    have heq2 : alookup (s.ns (s.tmpl t).ns).set name = some tid2 := by
      rw [setEscaped_ns_set, setEscaped_tmpl] at heq
      exact heq
    rw [h] at heq2
    have he : tid2 = tid := (Option.some.inj heq2).symm
    subst he
    split
    · rename_i e hfe
      exfalso
      have hfe2 : (s.tmpl tid2).escapeErr = .failed e := hfe
      rw [hunset] at hfe2
      cases hfe2
    · rename_i hok
      exfalso
      have hok2 : (s.tmpl tid2).escapeErr = .ok := hok
      rw [hunset] at hok2
      cases hok2
    · split
      · rfl
      · rename_i hcond
        exfalso
        apply hcond
        have : ((s.text (s.tmpl tid2).text).ttree).isNone = true := by
          rw [htree]
          rfl
        exact this

/-- C7: `ExecuteTemplate` on a name absent from the namespace registry
fails with the `undefined` error, and on a registered name whose template
has no parse tree fails with the `incomplete` error; in both cases the
result state is exactly the receiver with the namespace's `escaped` flag
set, so the engine's execute (the success outcome) is never reached and no
template is modified. -/
theorem executeTemplate_undefined_incomplete (s : State)
    (osc : String → Option String) (t : Nat) (name : String)
    (hr : Reachable s) (ht : t < s.tmpls.length) :
    (hLookup s t name = none →
      hExecuteTemplate s osc t name =
        (setEscaped s (s.tmpl t).ns, .failure (.undefined name))) ∧
    (∀ tid, hLookup s t name = some tid →
      (s.text (s.tmpl tid).text).ttree = none →
      hExecuteTemplate s osc t name =
        (setEscaped s (s.tmpl t).ns, .failure (.incomplete name))) := by
  have hI := Reachable_Inv hr
  constructor
  · intro h
    unfold hExecuteTemplate
    rw [lookupAndEscape_undefined s osc t name h]
  · intro tid h htree
    unfold hExecuteTemplate
    rw [lookupAndEscape_incomplete s osc t name hI ht tid h htree]

theorem executeTemplate_undefined_incomplete_witness :
    hLookup exS1 0 "nope" = none ∧
    hExecuteTemplate exS1 (fun _ => none) 0 "nope" =
      (setEscaped exS1 (exS1.tmpl 0).ns, .failure (.undefined "nope")) := by
  refine ⟨by decide, ?_⟩
  exact (executeTemplate_undefined_incomplete exS1 (fun _ => none) 0 "nope"
    (Reachable.parse [("x", "hello")] (Reachable.topNew "x" Reachable.empty)
      (by decide))
    (by decide)).1 (by decide)

theorem lookupAndEscape_stored_failure (s : State) (osc : String → Option String)
    (t : Nat) (name : String) (tid : Nat) (e : String)
    (h : alookup (s.ns (s.tmpl t).ns).set name = some tid)
    (hf : (s.tmpl tid).escapeErr = .failed e) :
    lookupAndEscape s osc t name =
      (setEscaped s (s.tmpl t).ns, .err (.escapeFailed e)) := by
  unfold lookupAndEscape
  dsimp only
  split
  · rename_i heq
    exfalso
    have heq2 : alookup (s.ns (s.tmpl t).ns).set name = none := by
      rw [setEscaped_ns_set, setEscaped_tmpl] at heq
      exact heq
    rw [h] at heq2
    cases heq2
  · rename_i tid2 heq
    have heq2 : alookup (s.ns (s.tmpl t).ns).set name = some tid2 := by
      rw [setEscaped_ns_set, setEscaped_tmpl] at heq
      exact heq
    rw [h] at heq2
    have he : tid2 = tid := (Option.some.inj heq2).symm
    subst he
    split
    · rename_i e2 hfe
      have hfe2 : (s.tmpl tid2).escapeErr = .failed e2 := hfe
      rw [hf] at hfe2
      have he2 : e = e2 := by
        cases hfe2
        rfl
      rw [he2]
    · rename_i hok
      exfalso
      have hok2 : (s.tmpl tid2).escapeErr = .ok := hok
      rw [hf] at hok2
      cases hok2
    · rename_i hus
      exfalso
      have hus2 : (s.tmpl tid2).escapeErr = .unset := hus
      rw [hf] at hus2
      cases hus2

theorem lookupAndEscape_stored_ok (s : State) (osc : String → Option String)
    (t : Nat) (name : String) (hI : Inv s) (ht : t < s.tmpls.length) (tid : Nat)
    (h : alookup (s.ns (s.tmpl t).ns).set name = some tid)
    (hok : (s.tmpl tid).escapeErr = .ok) :
    lookupAndEscape s osc t name = (setEscaped s (s.tmpl t).ns, .found tid) := by
  have hns : (s.tmpl t).ns < s.nss.length := hI.tmplNs t ht
  have hmem : (name, tid) ∈ (s.ns (s.tmpl t).ns).set := alookup_mem h
  have htid : tid < s.tmpls.length := hI.setTmplLt _ hns _ hmem
  have hnseq : (s.tmpl tid).ns = (s.tmpl t).ns := hI.setNsEq _ hns _ hmem
  have hname : s.tmplName tid = name := hI.setNameEq _ hns _ hmem
  have httne : (s.text (s.tmpl tid).text).ttree ≠ none :=
    hI.escTree tid htid (by rw [hok]; intro hcontra; cases hcontra)
  have hlkne : alookup (s.common (s.text (s.tmpl t).text).tcommon).assoc name ≠
      none := by
    have h3 := hI.treeAssoc (s.tmpl tid).text (hI.tmplText tid htid) httne
    have h4 : (s.text (s.tmpl tid).text).tname = name := hname
    have h5 : (s.text (s.tmpl tid).text).tcommon =
        (s.text (s.tmpl t).text).tcommon :=
      hI.comCoh tid htid t ht hnseq
    rw [h4, h5] at h3
    exact h3
  unfold lookupAndEscape
  dsimp only
  split
  · rename_i heq
    exfalso
    have heq2 : alookup (s.ns (s.tmpl t).ns).set name = none := by
      rw [setEscaped_ns_set, setEscaped_tmpl] at heq
      exact heq
    rw [h] at heq2
    cases heq2
  · rename_i tid2 heq
    have heq2 : alookup (s.ns (s.tmpl t).ns).set name = some tid2 := by
      rw [setEscaped_ns_set, setEscaped_tmpl] at heq
      exact heq
    rw [h] at heq2
    have he : tid2 = tid := (Option.some.inj heq2).symm
    subst he
    split
    · rename_i e2 hfe
      exfalso
      have hfe2 : (s.tmpl tid2).escapeErr = .failed e2 := hfe
      rw [hok] at hfe2
      cases hfe2
    · split
      · rename_i hcond
        exfalso
        have hcond2 : ((s.text (s.tmpl tid2).text).ttree).isNone = true := hcond
        exact httne (Option.isNone_iff_eq_none.mp hcond2)
      · split
        · rename_i hlk
          exfalso
          have hlk2 : (textLookup s (s.tmpl t).text name).isNone = true := hlk
          exact hlkne (Option.isNone_iff_eq_none.mp hlk2)
        · rfl
    · rename_i hus
      exfalso
      have hus2 : (s.tmpl tid2).escapeErr = .unset := hus
      rw [hok] at hus2
      cases hus2

/-- C3: once a template's escape status is resolved (`ok` or a stored
failure), a later `Execute` or `ExecuteTemplate` targeting it returns the
stored outcome with the state changed only by the `escaped` flag: the
template arena — including the ghost invocation counters of the escape
transform — is untouched, so the transform is not invoked again, and a
stored failure is replayed verbatim. -/
theorem escape_invoked_at_most_once (s : State) (osc : String → Option String)
    (t : Nat) (name : String) (hr : Reachable s) (ht : t < s.tmpls.length) :
    ((s.tmpl t).escapeErr = .ok →
      hExecute s osc t = (setEscaped s (s.tmpl t).ns, .success)) ∧
    (∀ e, (s.tmpl t).escapeErr = .failed e →
      hExecute s osc t = (setEscaped s (s.tmpl t).ns, .failure (.escapeFailed e))) ∧
    (∀ tid, hLookup s t name = some tid → (s.tmpl tid).escapeErr = .ok →
      hExecuteTemplate s osc t name = (setEscaped s (s.tmpl t).ns, .success)) ∧
    (∀ tid e, hLookup s t name = some tid → (s.tmpl tid).escapeErr = .failed e →
      hExecuteTemplate s osc t name =
        (setEscaped s (s.tmpl t).ns, .failure (.escapeFailed e))) := by
  have hI := Reachable_Inv hr
  refine ⟨?_, ?_, ?_, ?_⟩
  · intro h
    unfold hExecute
    rw [hEscape_ok s osc t h]
  · intro e h
    unfold hExecute
    rw [hEscape_failed s osc t e h]
  · intro tid h hok
    unfold hExecuteTemplate
    rw [lookupAndEscape_stored_ok s osc t name hI ht tid h hok]
  · intro tid e h hf
    unfold hExecuteTemplate
    rw [lookupAndEscape_stored_failure s osc t name tid e h hf]

theorem escape_invoked_at_most_once_witness :
    (exS2.tmpl 0).escapeErr = .ok ∧
    hExecute exS2 (fun _ => some "boom") 0 =
      (setEscaped exS2 (exS2.tmpl 0).ns, .success) :=
  ⟨by decide,
   (escape_invoked_at_most_once exS2 (fun _ => some "boom") 0 "x"
      (Reachable.exec (fun _ => none)
        (Reachable.parse [("x", "hello")] (Reachable.topNew "x" Reachable.empty)
          (by decide))
        (by decide))
      (by decide)).1 (by decide)⟩

theorem syncOne_registry (s : State) (t v n : Nat) (name0 : String) (tid : Nat)
    (h : alookup (s.ns n).set name0 = some tid) :
    alookup ((syncOne s t v).ns n).set name0 = some tid := by
  unfold syncOne
  dsimp only
  split
  · rename_i tid2 heq
    exact h
  · rename_i heq
    show alookup ((hNewInner s t (s.text v).tname).1.ns n).set name0 = some tid
    by_cases hq : (s.tmpl t).ns = n
    · subst hq
      by_cases hn : (s.tmpl t).ns < s.nss.length
      · rw [hNewInner_none_ns_self s t _ heq hn]
        show alookup (aset (s.ns (s.tmpl t).ns).set (s.text v).tname s.tmpls.length)
          name0 = some tid
        have hne : name0 ≠ (s.text v).tname := by
          intro he
          rw [he, heq] at h
          cases h
        rw [alookup_aset_ne _ _ _ _ hne]
        exact h
      · exfalso
        have h2 : (s.ns (s.tmpl t).ns).set = [] := by
          have h3 : s.ns (s.tmpl t).ns = ⟨[], false⟩ := by
            unfold State.ns
            exact getD_ge _ _ _ (by omega)
          rw [h3]
        rw [h2] at h
        cases h
    · rw [hNewInner_none_ns_ne s t _ heq hq]
      exact h

theorem syncAll_registry (t : Nat) (vs : List Nat) :
    ∀ (s : State) (n : Nat) (name0 : String) (tid : Nat),
    alookup (s.ns n).set name0 = some tid →
    alookup ((syncAll t s vs).ns n).set name0 = some tid := by
  induction vs with
  | nil =>
    intro s n name0 tid h
    exact h
  | cons v rest ih =>
    intro s n name0 tid h
    exact ih (syncOne s t v) n name0 tid (syncOne_registry s t v n name0 tid h)

theorem textAddParseTree_nss (s : State) (t : Nat) (name : String) (tr : Nat) :
    (textAddParseTree s t name tr).1.nss = s.nss := by
  unfold textAddParseTree
  dsimp only
  split
  · obtain ⟨hfx, hfm, hfn, hft, hfc⟩ := associate_frame s (s.text t).tcommon t tr
    split
    · show (associate s (s.text t).tcommon t tr).1.nss = s.nss
      exact hfn
    · exact hfn
  · obtain ⟨hfx, hfm, hfn, hft, hfc⟩ :=
      associate_frame (textNew s t name).1
        ((textNew s t name).1.text (textNew s t name).2).tcommon
        (textNew s t name).2 tr
    split
    · show (associate (textNew s t name).1 _ (textNew s t name).2 tr).1.nss = s.nss
      rw [hfn]
      rfl
    · show (associate (textNew s t name).1 _ (textNew s t name).2 tr).1.nss = s.nss
      rw [hfn]
      rfl

theorem textParse_nss (s : State) (t : Nat) (defs : List (String × String)) :
    (textParse s t defs).nss = s.nss := by
  induction defs generalizing s with
  | nil => rfl
  | cons d rest ih =>
    obtain ⟨n, b⟩ := d
    show (textParse (textAddParseTree (allocTree s b).1 t n (allocTree s b).2).1 t
      rest).nss = s.nss
    rw [ih, textAddParseTree_nss]
    rfl

theorem hParse_registry (s : State) (t : Nat) (defs : List (String × String))
    (hesc : (s.ns (s.tmpl t).ns).escaped = false) :
    ∀ name0 tid, alookup (s.ns (s.tmpl t).ns).set name0 = some tid →
    alookup ((hParse s t defs).1.ns (s.tmpl t).ns).set name0 = some tid := by
  intro name0 tid h
  unfold hParse
  dsimp only
  split
  · rename_i hcond
    rw [hcond] at hesc
    cases hesc
  · rename_i hne
    apply syncAll_registry
    rw [ns_congr (textParse_nss s (s.tmpl t).text defs)]
    exact h

theorem hAddParseTree_effect (s : State) (t : Nat) (name content : String)
    (hI : Inv s) (ht : t < s.tmpls.length)
    (hesc : (s.ns (s.tmpl t).ns).escaped = false) :
    (hAddParseTree s t name content).2 = .ok s.tmpls.length ∧
    alookup ((hAddParseTree s t name content).1.ns (s.tmpl t).ns).set name =
      some s.tmpls.length ∧
    (∀ i, i < s.tmpls.length →
      (hAddParseTree s t name content).1.tmpl i = s.tmpl i) := by
  have htx : (s.tmpl t).text < s.texts.length := hI.tmplText t ht
  have hns : (s.tmpl t).ns < s.nss.length := hI.tmplNs t ht
  unfold hAddParseTree
  dsimp only
  split
  · rename_i hcond
    rw [hcond] at hesc
    cases hesc
  · rename_i hne
    obtain ⟨hf1, hf2, hf3, hf4, hf5⟩ :=
      textAddParseTree_frame (allocTree s content).1 ((allocTree s content).1.tmpl t).text
        name (allocTree s content).2 htx
    set Q := textAddParseTree (allocTree s content).1
      ((allocTree s content).1.tmpl t).text name (allocTree s content).2 with hQ
    have hQtm : ∀ i, Q.1.tmpl i = s.tmpl i := fun i => by
      rw [tmpl_congr hf1]
      rfl
    have hQtlen : Q.1.tmpls.length = s.tmpls.length := by
      rw [hf1]
      rfl
    have hQns : ∀ i, Q.1.ns i = s.ns i := fun i => by
      rw [ns_congr hf2]
      rfl
    have hQnlen : Q.1.nss.length = s.nss.length := by
      rw [hf2]
      rfl
    set w3 : State := { Q.1 with
      tmpls := Q.1.tmpls ++ [⟨.unset, Q.2, (Q.1.text Q.2).ttree, (Q.1.tmpl t).ns, 0⟩] } with hw3
    have hw3ns : ∀ i, w3.ns i = s.ns i := fun i => hQns i
    have hw3nlen : w3.nss.length = s.nss.length := hQnlen
    have hnsq : (Q.1.tmpl t).ns = (s.tmpl t).ns := by rw [hQtm]
    refine ⟨?_, ?_, ?_⟩
    · show Except.ok Q.1.tmpls.length = Except.ok s.tmpls.length
      rw [hQtlen]
    · rw [hnsq]
      have hlt : (s.tmpl t).ns < w3.nss.length := by
        rw [hw3nlen]
        exact hns
      rw [ns_setNs_self w3 _ hlt]
      show alookup (aset (w3.ns (s.tmpl t).ns).set name Q.1.tmpls.length) name =
        some s.tmpls.length
      rw [alookup_aset_self, hQtlen]
    · intro i hi
      rw [hnsq]
      show w3.tmpl i = s.tmpl i
      rw [hw3]
      show (Q.1.tmpls ++ _).getD i _ = s.tmpl i
      rw [getD_append_lt _ _ _ _ (by rw [hQtlen]; exact hi)]
      exact hQtm i

theorem hNewInner_some_old (s : State) (t : Nat) (name : String) (ex : Nat)
    (h : alookup (s.ns (s.tmpl t).ns).set name = some ex)
    (hex : ex < s.tmpls.length) :
    (hNewInner s t name).1.tmpl ex =
      ⟨.unset, s.texts.length + 1, none, s.nss.length, (s.tmpl ex).escCalls⟩ := by
  unfold hNewInner textNew
  dsimp only
  split
  · rename_i ex2 heq
    have heq2 : alookup (s.ns (s.tmpl t).ns).set name = some ex2 := heq
    rw [h] at heq2
    have he : ex2 = ex := (Option.some.inj heq2).symm
    subst he
    set s2 : State := { s with
      texts := s.texts ++ [⟨name, none, (s.text (s.tmpl t).text).tcommon⟩],
      tmpls := s.tmpls ++ [⟨.unset, s.texts.length, none, (s.tmpl t).ns, 0⟩] } with hs2
    show ((hTopNew s2 (s2.tmplName ex2)).1.setTmpl ex2
      { (hTopNew s2 (s2.tmplName ex2)).1.tmpl (hTopNew s2 (s2.tmplName ex2)).2 with
        escCalls := ((hTopNew s2 (s2.tmplName ex2)).1.tmpl ex2).escCalls }).tmpl ex2 = _
    have hs2len : s2.tmpls.length = s.tmpls.length + 1 := by
      simp [hs2]
    have hexlt : ex2 < s2.tmpls.length := by
      rw [hs2len]
      omega
    have hex2 : ex2 < (hTopNew s2 (s2.tmplName ex2)).1.tmpls.length := by
      rw [(hTopNew_lengths s2 (s2.tmplName ex2)).1]
      omega
    rw [tmpl_setTmpl_self _ ex2 hex2]
    have hsnd : (hTopNew s2 (s2.tmplName ex2)).2 = s2.tmpls.length :=
      hTopNew_snd s2 _
    rw [hsnd, hTopNew_tmpl_len s2 (s2.tmplName ex2), hTopNew_tmpl_lt s2 _ hexlt]
    have hs2ex : s2.tmpl ex2 = s.tmpl ex2 := by
      rw [hs2]
      show (s.tmpls ++ _).getD ex2 _ = s.tmpl ex2
      exact getD_append_lt _ _ _ _ hex
    rw [hs2ex]
    have hxl : s2.texts.length = s.texts.length + 1 := by
      simp [hs2]
    have hnl : s2.nss.length = s.nss.length := by
      simp [hs2]
    rw [hxl, hnl]
  · rename_i heq
    exfalso
    have heq2 : alookup (s.ns (s.tmpl t).ns).set name = none := heq
    rw [h] at heq2
    cases heq2

theorem hNewInner_some_new (s : State) (t : Nat) (name : String) (ex : Nat)
    (h : alookup (s.ns (s.tmpl t).ns).set name = some ex)
    (hex : ex < s.tmpls.length) :
    (hNewInner s t name).1.tmpl (hNewInner s t name).2 =
      ⟨.unset, s.texts.length, none, (s.tmpl t).ns, 0⟩ := by
  rw [hNewInner_snd]
  unfold hNewInner textNew
  dsimp only
  split
  · rename_i ex2 heq
    have heq2 : alookup (s.ns (s.tmpl t).ns).set name = some ex2 := heq
    rw [h] at heq2
    have he : ex2 = ex := (Option.some.inj heq2).symm
    subst he
    set s2 : State := { s with
      texts := s.texts ++ [⟨name, none, (s.text (s.tmpl t).text).tcommon⟩],
      tmpls := s.tmpls ++ [⟨.unset, s.texts.length, none, (s.tmpl t).ns, 0⟩] } with hs2
    show ((hTopNew s2 (s2.tmplName ex2)).1.setTmpl ex2
      { (hTopNew s2 (s2.tmplName ex2)).1.tmpl (hTopNew s2 (s2.tmplName ex2)).2 with
        escCalls := ((hTopNew s2 (s2.tmplName ex2)).1.tmpl ex2).escCalls }).tmpl
      s.tmpls.length = _
    have hne : ex2 ≠ s.tmpls.length := by omega
    rw [tmpl_setTmpl_ne _ hne]
    have hidlt : s.tmpls.length < s2.tmpls.length := by
      show s.tmpls.length < (s.tmpls ++ _).length
      simp
    rw [hTopNew_tmpl_lt s2 _ hidlt]
    rw [hs2]
    show (s.tmpls ++ _).getD s.tmpls.length _ = _
    exact getD_append_len _ _ _
  · rename_i heq
    exfalso
    have heq2 : alookup (s.ns (s.tmpl t).ns).set name = none := heq
    rw [h] at heq2
    cases heq2

/-- C1 (amended): in a namespace where escaping has not begun, `Parse`
updates existing definitions through the existing `Template` objects — the
registry binding of every already-registered name still maps to the same
object id afterwards — whereas `AddParseTree` does not mutate the old
object: it allocates a fresh `Template` (the next arena id), repoints the
registry binding at it, and leaves every previously allocated `Template`
object unchanged. -/
theorem parse_in_place_addParseTree_replaces (s : State) (t : Nat)
    (defs : List (String × String)) (name content : String)
    (hr : Reachable s) (ht : t < s.tmpls.length)
    (hesc : (s.ns (s.tmpl t).ns).escaped = false) :
    (∀ name0 tid, alookup (s.ns (s.tmpl t).ns).set name0 = some tid →
      alookup ((hParse s t defs).1.ns (s.tmpl t).ns).set name0 = some tid) ∧
    (hAddParseTree s t name content).2 = .ok s.tmpls.length ∧
    alookup ((hAddParseTree s t name content).1.ns (s.tmpl t).ns).set name =
      some s.tmpls.length ∧
    (∀ i, i < s.tmpls.length →
      (hAddParseTree s t name content).1.tmpl i = s.tmpl i) := by
  have hI := Reachable_Inv hr
  obtain ⟨h2, h3, h4⟩ := hAddParseTree_effect s t name content hI ht hesc
  exact ⟨hParse_registry s t defs hesc, h2, h3, h4⟩

theorem parse_in_place_addParseTree_replaces_witness :
    alookup ((hParse exS1 0 [("x", "bye")]).1.ns (exS1.tmpl 0).ns).set "x" =
      some 0 ∧
    (hAddParseTree exS1 0 "z" "w").2 = .ok exS1.tmpls.length := by
  obtain ⟨h1, h2, h3, h4⟩ := parse_in_place_addParseTree_replaces exS1 0
    [("x", "bye")] "z" "w"
    (Reachable.parse [("x", "hello")] (Reachable.topNew "x" Reachable.empty)
      (by decide))
    (by decide) (by decide)
  exact ⟨h1 "x" 0 (by decide), h2⟩

/-- C6 (amended): after `t.New(name)` the registry entry for `name` refers
to the freshly allocated `Template`, which lives in the receiver's
namespace; but when `name` was already registered, the pre-existing object
does not keep its namespace for life: it is reset to an empty template
whose namespace back-reference is a freshly allocated namespace
(`*existing = *emptyTmpl`, template.go:243), only its ghost invocation
counter surviving. -/
theorem new_overwrite_moves_namespace (s : State) (t : Nat) (name : String)
    (hr : Reachable s) (ht : t < s.tmpls.length) :
    alookup ((hNew s t name).1.ns (s.tmpl t).ns).set name =
      some (hNew s t name).2 ∧
    ((hNew s t name).1.tmpl (hNew s t name).2).ns = (s.tmpl t).ns ∧
    (∀ ex, alookup (s.ns (s.tmpl t).ns).set name = some ex →
      (hNew s t name).1.tmpl ex =
        ⟨.unset, s.texts.length + 1, none, s.nss.length, (s.tmpl ex).escCalls⟩) := by
  have hI := Reachable_Inv hr
  have hns : (s.tmpl t).ns < s.nss.length := hI.tmplNs t ht
  refine ⟨hNewInner_register s t name hns, ?_, ?_⟩
  · show ((hNewInner s t name).1.tmpl (hNewInner s t name).2).ns = (s.tmpl t).ns
    cases hl : alookup (s.ns (s.tmpl t).ns).set name with
    | none =>
      rw [hNewInner_snd, hNewInner_none_tmpl_new s t name hl]
    | some ex =>
      have hex : ex < s.tmpls.length :=
        hI.setTmplLt _ hns _ (alookup_mem hl)
      rw [hNewInner_some_new s t name ex hl hex]
  · intro ex hl
    have hex : ex < s.tmpls.length :=
      hI.setTmplLt _ hns _ (alookup_mem hl)
    show (hNewInner s t name).1.tmpl ex = _
    exact hNewInner_some_old s t name ex hl hex

theorem new_overwrite_moves_namespace_witness :
    alookup ((hNew exS0 0 "x").1.ns (exS0.tmpl 0).ns).set "x" =
      some (hNew exS0 0 "x").2 ∧
    (hNew exS0 0 "x").1.tmpl 0 =
      ⟨.unset, exS0.texts.length + 1, none, exS0.nss.length,
        (exS0.tmpl 0).escCalls⟩ := by
  obtain ⟨h1, h2, h3⟩ := new_overwrite_moves_namespace exS0 0 "x"
    (Reachable.topNew "x" Reachable.empty) (by decide)
  exact ⟨h1, h3 0 (by decide)⟩

/-- C8: `Clone` fails with a `cloneAfterExecute` error whenever some template
registered in the source namespace has an escape status other than `unset`
(a stored success or a stored failure), and in that case the result is the
error alone — no handle into a new namespace is returned. -/
theorem clone_fails_after_escape (s : State) (t : Nat)
    (hr : Reachable s) (ht : t < s.tmpls.length)
    (hbad : ∃ p ∈ (s.ns (s.tmpl t).ns).set, (s.tmpl p.2).escapeErr ≠ .unset) :
    (hClone s t).2 = .error (.cloneAfterExecute (s.tmplName t)) := by
  have hI := Reachable_Inv hr
  obtain ⟨_, herr, hok⟩ := hClone_post s t hI ht
  cases hr2 : (hClone s t).2 with
  | error e => rw [herr e hr2]
  | ok r =>
    exfalso
    have heq : hClone s t = ((hClone s t).1, Except.ok r) := by
      rw [← hr2]
    obtain ⟨hall, _⟩ := hok (hClone s t).1 r heq
    obtain ⟨p, hp, hpbad⟩ := hbad
    exact hpbad (hall p hp)

theorem clone_fails_after_escape_witness :
    (hClone exS3 0).2 = .error (.cloneAfterExecute (exS3.tmplName 0)) :=
  clone_fails_after_escape exS3 0
    (Reachable.exec (fun _ => some "boom")
      (Reachable.parse [("x", "hello")] (Reachable.topNew "x" Reachable.empty)
        (by decide))
      (by decide))
    (by decide)
    ⟨("x", 0), by decide, by decide⟩

/-- C9: a successful `Clone` returns the handle in the fresh namespace that
carries the source receiver's own name; the fresh namespace's templates are
all newly allocated with `unset` escape status and freshly copied trees,
the source's templates, namespaces and trees are untouched, and overwriting
a cloned tree slot leaves every source tree slot unchanged and vice versa. -/
theorem clone_success_independent (s : State) (t : Nat) (s5 : State)
    (r : Option Nat) (hr : Reachable s) (ht : t < s.tmpls.length)
    (heq : hClone s t = (s5, .ok r)) :
    ∃ rid, r = some rid ∧ s.tmpls.length ≤ rid ∧
      (s5.tmpl rid).ns = s.nss.length ∧
      s5.tmplName rid = s.tmplName t ∧
      (s5.tmpl rid).escapeErr = .unset ∧
      (∀ i, i < s.tmpls.length → s5.tmpl i = s.tmpl i) ∧
      (∀ m, m < s.nss.length → s5.ns m = s.ns m) ∧
      (∀ p ∈ (s5.ns s.nss.length).set, s.tmpls.length ≤ p.2 ∧
        (s5.tmpl p.2).escapeErr = .unset ∧
        (∀ j, (s5.tmpl p.2).tree = some j → s.trees.length ≤ j)) ∧
      (∀ i, i < s.trees.length → s5.tree i = s.tree i) ∧
      (∀ j v i, s.trees.length ≤ j → i < s.trees.length →
        (setTreeContent s5 j v).tree i = s5.tree i) ∧
      (∀ i v j, i < s.trees.length → s.trees.length ≤ j →
        (setTreeContent s5 i v).tree j = s5.tree j) := by
  have hI := Reachable_Inv hr
  obtain ⟨_, _, hok⟩ := hClone_post s t hI ht
  obtain ⟨_, rid, h1, h2, h3, h4, h5, h6, h7, h8, h9⟩ := hok s5 r heq
  refine ⟨rid, h1, h2, h3, h4, h5, h6, h7, h8, h9, ?_, ?_⟩
  · intro j v i hj hi
    have hne : j ≠ i := by omega
    show (s5.trees.set j v).getD i "" = s5.trees.getD i ""
    exact getD_set_ne s5.trees j i hne v ""
  · intro i v j hi hj
    have hne : i ≠ j := by omega
    show (s5.trees.set i v).getD j "" = s5.trees.getD j ""
    exact getD_set_ne s5.trees i j hne v ""

theorem clone_success_independent_witness :
    ∃ rid, (some 2 : Option Nat) = some rid ∧ exS1.tmpls.length ≤ rid ∧
      ((hClone exS1 0).1.tmpl rid).ns = exS1.nss.length ∧
      (hClone exS1 0).1.tmplName rid = exS1.tmplName 0 ∧
      ((hClone exS1 0).1.tmpl rid).escapeErr = .unset ∧
      (∀ i, i < exS1.tmpls.length →
        (hClone exS1 0).1.tmpl i = exS1.tmpl i) ∧
      (∀ m, m < exS1.nss.length → (hClone exS1 0).1.ns m = exS1.ns m) ∧
      (∀ p ∈ ((hClone exS1 0).1.ns exS1.nss.length).set,
        exS1.tmpls.length ≤ p.2 ∧
        ((hClone exS1 0).1.tmpl p.2).escapeErr = .unset ∧
        (∀ j, ((hClone exS1 0).1.tmpl p.2).tree = some j →
          exS1.trees.length ≤ j)) ∧
      (∀ i, i < exS1.trees.length →
        (hClone exS1 0).1.tree i = exS1.tree i) ∧
      (∀ j v i, exS1.trees.length ≤ j → i < exS1.trees.length →
        (setTreeContent (hClone exS1 0).1 j v).tree i =
          (hClone exS1 0).1.tree i) ∧
      (∀ i v j, i < exS1.trees.length → exS1.trees.length ≤ j →
        (setTreeContent (hClone exS1 0).1 i v).tree j =
          (hClone exS1 0).1.tree j) := by
  have heq : hClone exS1 0 = ((hClone exS1 0).1, Except.ok (some 2)) := by
    have h2 : (hClone exS1 0).2 = Except.ok (some 2) := by decide
    rw [← h2]
  exact clone_success_independent exS1 0 (hClone exS1 0).1 (some 2)
    (Reachable.parse [("x", "hello")] (Reachable.topNew "x" Reachable.empty)
      (by decide))
    (by decide) heq

end HtmlTemplate
